import Mathlib

/-!
# Texas Hold'em rules engine (package `game`)

A shallow embedding of `pkg/game` (`card.go`, `player.go`, `hand.go`, `game.go`).

Conventions of the embedding:

* Go `int` and the `int`-based enumerations (`Suit`, `Rank`, `HandRank`, `PlayerAction`,
  `PlayerStatus`, `GamePhase`) are `Int`; the named constants keep their `iota` values and a
  `switch` without a matching case falls through, as in Go; record fields of these types are
  declared `Int`, so that linear arithmetic applies to them directly.  `Player.PlaceBet`,
  `GameState.StartNewHand` and `GameState.ProcessAction` compute over exact integers;
  `Player.PlaceBet64`, `GameState.StartNewHand64` and `GameState.ProcessAction64` are the same
  operations with the wrap-around of Go's 64-bit `int`, and the two agree as long as no sum
  leaves the 64-bit range (`PlaceBet64_eq`, `StartNewHand64_small`, `ProcessAction64_small`).
* `[]*Player` is a list of player records, one record per seat: every seat is its own object
  (no two seats alias one pointer) and no pointer is nil.
* Mutation is explicit state passing.  A function that can hit a Go run-time panic (index out of
  range, integer division by zero) returns `Option`, with `none` for the panic.
-/

namespace Poker

/-! ## card.go -/

abbrev Suit := Int

def Spades : Suit := 0
def Hearts : Suit := 1
def Diamonds : Suit := 2
def Clubs : Suit := 3

abbrev Rank := Int

def Two : Rank := 2
def Three : Rank := 3
def Four : Rank := 4
def Five : Rank := 5
def Six : Rank := 6
def Seven : Rank := 7
def Eight : Rank := 8
def Nine : Rank := 9
def Ten : Rank := 10
def Jack : Rank := 11
def Queen : Rank := 12
def King : Rank := 13
def Ace : Rank := 14

structure Card where
  /-- A `Rank`. -/
  Rank : Int
  /-- A `Suit`. -/
  Suit : Int
  deriving DecidableEq, Repr

structure Deck where
  Cards : List Card
  deriving DecidableEq, Repr

/-- The inner loop of `NewDeck`: ranks `Two .. Ace` of one suit, ascending. -/
def suitCards (suit : Suit) : List Card :=
  (List.range 13).map (fun k => { Rank := Two + (k : Int), Suit := suit })

/-- `NewDeck`: suits `Spades .. Clubs`, ranks ascending within each suit. -/
def NewDeck : Deck :=
  { Cards := ((List.range 4).map (fun s => suitCards (Spades + (s : Int)))).flatten }

/-- `Deck.Draw`: the first `n` cards (all of them when fewer remain) and the shortened deck.
A negative `n` makes the Go slice expression panic. -/
def Deck.Draw (d : Deck) (n : Int) : Option (List Card × Deck) :=
  let n1 : Int := if n > (d.Cards.length : Int) then (d.Cards.length : Int) else n
  if n1 < 0 then none
  else some (d.Cards.take n1.toNat, { Cards := d.Cards.drop n1.toNat })

/-- `Deck.DrawOne`: the top card and `true`, or the zero card and `false` on an empty deck. -/
def Deck.DrawOne (d : Deck) : (Card × Bool) × Deck :=
  match d.Cards with
  | [] => (({ Rank := 0, Suit := 0 }, false), d)
  | card :: rest => ((card, true), { Cards := rest })

/-- One call of the swap function `d.Cards[i], d.Cards[j] = d.Cards[j], d.Cards[i]` that
`Deck.Shuffle` hands to `rand.Shuffle`; `none` is the index-out-of-range panic. -/
def Deck.swap (d : Deck) (i j : Nat) : Option Deck :=
  match d.Cards[i]?, d.Cards[j]? with
  | some a, some b => some { Cards := (d.Cards.set i b).set j a }
  | _, _ => none

/-- `Deck.Shuffle`: `rand.Shuffle(len(d.Cards), swap)` calls the swap function on a sequence of
index pairs fixed by the time-seeded random source alone; that sequence is the parameter
`swaps`, applied in order. -/
def Deck.Shuffle (d : Deck) : List (Nat × Nat) → Option Deck
  | [] => some d
  | (i, j) :: rest =>
    match d.swap i j with
    | none => none
    | some d1 => d1.Shuffle rest

/-! ## player.go -/

abbrev PlayerAction := Int

def Fold : PlayerAction := 0
def Check : PlayerAction := 1
def Call : PlayerAction := 2
def Bet : PlayerAction := 3
def Raise : PlayerAction := 4
def AllIn : PlayerAction := 5

abbrev PlayerStatus := Int

def Active : PlayerStatus := 0
def Folded : PlayerStatus := 1
def AllInStatus : PlayerStatus := 2
def Out : PlayerStatus := 3

structure Player where
  ID : String
  Name : String
  Chips : Int
  Cards : List Card
  Bet : Int
  /-- A `PlayerStatus`. -/
  Status : Int
  Position : Int
  deriving DecidableEq, Repr

def NewPlayer (id name : String) (chips : Int) (position : Int) : Player :=
  { ID := id, Name := name, Chips := chips, Cards := [], Bet := 0, Status := Active,
    Position := position }

/-- `Player.PlaceBet`: the returned flag and the player after the call, computed over exact
integers; `Player.PlaceBet64` below is the same with the wrap-around of Go's 64-bit `int`. -/
def Player.PlaceBet (p : Player) (amount : Int) : Bool × Player :=
  if amount > p.Chips then (false, p)
  else
    let p1 := { p with Bet := p.Bet + amount }
    let p2 := { p1 with Chips := p1.Chips - amount }
    if p2.Chips = 0 then (true, { p2 with Status := AllInStatus }) else (true, p2)

def Player.CollectWinnings (p : Player) (amount : Int) : Player :=
  { p with Chips := p.Chips + amount }

def Player.Fold (p : Player) : Player :=
  { p with Status := Folded }

def Player.ResetForNewHand (p : Player) : Player :=
  let p1 := { p with Cards := [] }
  let p2 := { p1 with Bet := 0 }
  if p2.Chips > 0 then { p2 with Status := Active } else { p2 with Status := Out }

def Player.IsActive (p : Player) : Bool :=
  p.Status = Active

def Player.CanAct (p : Player) : Bool :=
  p.Status = Active || p.Status = AllInStatus

/-! ## hand.go -/

abbrev HandRank := Int

def HighCard : HandRank := 0
def Pair : HandRank := 1
def TwoPair : HandRank := 2
def ThreeOfAKind : HandRank := 3
def Straight : HandRank := 4
def Flush : HandRank := 5
def FullHouse : HandRank := 6
def FourOfAKind : HandRank := 7
def StraightFlush : HandRank := 8
def RoyalFlush : HandRank := 9

structure HandEvaluation where
  /-- A `HandRank`. -/
  Rank : Int
  Cards : List Card
  Value : Int
  deriving DecidableEq, Repr

def checkRoyalFlush (cards : List Card) : HandEvaluation :=
  { Rank := HighCard, Cards := cards, Value := 0 }

def checkStraightFlush (cards : List Card) : HandEvaluation :=
  { Rank := HighCard, Cards := cards, Value := 0 }

def checkFourOfAKind (cards : List Card) : HandEvaluation :=
  { Rank := HighCard, Cards := cards, Value := 0 }

def checkFullHouse (cards : List Card) : HandEvaluation :=
  { Rank := HighCard, Cards := cards, Value := 0 }

def checkFlush (cards : List Card) : HandEvaluation :=
  { Rank := HighCard, Cards := cards, Value := 0 }

def checkStraight (cards : List Card) : HandEvaluation :=
  { Rank := HighCard, Cards := cards, Value := 0 }

def checkThreeOfAKind (cards : List Card) : HandEvaluation :=
  { Rank := HighCard, Cards := cards, Value := 0 }

def checkTwoPair (cards : List Card) : HandEvaluation :=
  { Rank := HighCard, Cards := cards, Value := 0 }

def checkPair (cards : List Card) : HandEvaluation :=
  { Rank := HighCard, Cards := cards, Value := 0 }

def checkHighCard (cards : List Card) : HandEvaluation :=
  { Rank := HighCard, Cards := cards, Value := 0 }

def EvaluateHand (cards : List Card) : HandEvaluation :=
  if cards.length < 5 then { Rank := HighCard, Cards := cards, Value := 0 }
  else if (checkRoyalFlush cards).Rank = RoyalFlush then checkRoyalFlush cards
  else if (checkStraightFlush cards).Rank = StraightFlush then checkStraightFlush cards
  else if (checkFourOfAKind cards).Rank = FourOfAKind then checkFourOfAKind cards
  else if (checkFullHouse cards).Rank = FullHouse then checkFullHouse cards
  else if (checkFlush cards).Rank = Flush then checkFlush cards
  else if (checkStraight cards).Rank = Straight then checkStraight cards
  else if (checkThreeOfAKind cards).Rank = ThreeOfAKind then checkThreeOfAKind cards
  else if (checkTwoPair cards).Rank = TwoPair then checkTwoPair cards
  else if (checkPair cards).Rank = Pair then checkPair cards
  else checkHighCard cards

def CompareHands (hand1 hand2 : HandEvaluation) : Int :=
  if hand1.Rank > hand2.Rank then 1
  else if hand1.Rank < hand2.Rank then -1
  else if hand1.Value > hand2.Value then 1
  else if hand1.Value < hand2.Value then -1
  else 0

/-! ## game.go -/

abbrev GamePhase := Int

def PreFlop : GamePhase := 0
def Flop : GamePhase := 1
def Turn : GamePhase := 2
def River : GamePhase := 3
def Showdown : GamePhase := 4

structure GameState where
  Players : List Player
  Deck : Poker.Deck
  CommunityCards : List Card
  /-- A `GamePhase`. -/
  CurrentPhase : Int
  Pot : Int
  CurrentBet : Int
  SmallBlind : Int
  BigBlind : Int
  DealerPos : Int
  CurrentPos : Int
  LastRaisePos : Int
  MinRaise : Int
  deriving DecidableEq, Repr

def NewGameState (players : List Player) (smallBlind bigBlind : Int) : GameState :=
  { Players := players, Deck := NewDeck, CommunityCards := [], CurrentPhase := PreFlop,
    Pot := 0, CurrentBet := 0, SmallBlind := smallBlind, BigBlind := bigBlind,
    DealerPos := 0, CurrentPos := 0, LastRaisePos := -1, MinRaise := bigBlind }

/-- The slice read `g.Players[i]`: `none` is the index-out-of-range panic. -/
def playerAt (ps : List Player) (i : Int) : Option Player :=
  if i < 0 then none else ps[i.toNat]?

/-- A write through the pointer `g.Players[g.CurrentPos]`: the seat's record is replaced. -/
def GameState.withPlayer (g : GameState) (p : Player) : GameState :=
  { g with Players := g.Players.set g.CurrentPos.toNat p }

/-- The loop of `findNextActivePosition`; the first argument is `len(g.Players) - count`, the
number of probes left.  Go's `%` truncates toward zero (`Int.tmod`). -/
def findNextLoop (ps : List Player) (pos : Int) : Nat → Int → Option Int
  | 0, _ => some pos
  | k + 1, nextPos =>
    match playerAt ps nextPos with
    | none => none
    | some p =>
      if p.IsActive then some nextPos
      else findNextLoop ps pos k (Int.tmod (nextPos + 1) (ps.length : Int))

def GameState.findNextActivePosition (g : GameState) (pos : Int) : Option Int :=
  if g.Players.length = 0 then none
  else findNextLoop g.Players pos g.Players.length (Int.tmod (pos + 1) (g.Players.length : Int))

/-- The loop `for i := 0; i < k; i++ { card, ok := g.Deck.DrawOne(); if ok { append } }`. -/
def GameState.dealCommunity (g : GameState) : Nat → GameState
  | 0 => g
  | k + 1 =>
    let r := g.Deck.DrawOne
    let g1 := { g with Deck := r.2 }
    let g2 := if r.1.2 then { g1 with CommunityCards := g1.CommunityCards ++ [r.1.1] } else g1
    g2.dealCommunity k

/-- The common tail of `DealFlop`, `DealTurn` and `DealRiver`: burn one card, deal `k`, enter
the new street. -/
def GameState.dealStreet (g : GameState) (k : Nat) (phase : Int) : Option GameState :=
  let g1 := { g with Deck := g.Deck.DrawOne.2 }
  let g2 := g1.dealCommunity k
  let g3 := { g2 with CurrentPhase := phase }
  let g4 := { g3 with CurrentBet := 0 }
  let g5 := { g4 with LastRaisePos := -1 }
  match g5.findNextActivePosition g5.DealerPos with
  | none => none
  | some pos => some { g5 with CurrentPos := pos }

def GameState.DealFlop (g : GameState) : Option GameState :=
  if g.CurrentPhase ≠ PreFlop then some g else g.dealStreet 3 Flop

def GameState.DealTurn (g : GameState) : Option GameState :=
  if g.CurrentPhase ≠ Flop then some g else g.dealStreet 1 Turn

def GameState.DealRiver (g : GameState) : Option GameState :=
  if g.CurrentPhase ≠ Turn then some g else g.dealStreet 1 River

def GameState.countActivePlayers (g : GameState) : Int :=
  ((g.Players.filter (fun p => p.IsActive)).length : Int)

/-- The body of `determineWinners` is empty in the source. -/
def GameState.determineWinners (g : GameState) : GameState :=
  g

def GameState.advancePhase (g : GameState) : Option GameState :=
  if g.CurrentPhase = PreFlop then g.DealFlop
  else if g.CurrentPhase = Flop then g.DealTurn
  else if g.CurrentPhase = Turn then g.DealRiver
  else if g.CurrentPhase = River then
    some ({ g with CurrentPhase := Showdown }).determineWinners
  else some g

/-- The tail of `ProcessAction` (game.go lines 246-254): move to the next player, close the
betting round when action is back at the last raiser or at most one player is active, and
return `true`. -/
def GameState.roundClosure (g : GameState) : Option (Bool × GameState) :=
  match g.findNextActivePosition g.CurrentPos with
  | none => none
  | some pos =>
    let g1 := { g with CurrentPos := pos }
    if g1.CurrentPos = g1.LastRaisePos ∨ g1.countActivePlayers ≤ 1 then
      match g1.advancePhase with
      | none => none
      | some g2 => some (true, g2)
    else some (true, g1)

/-- `ProcessAction`, computed over exact integers; `GameState.ProcessAction64` below is the
same with the wrap-around of Go's 64-bit `int`. -/
def GameState.ProcessAction (g : GameState) (action : PlayerAction) (amount : Int) :
    Option (Bool × GameState) :=
  match playerAt g.Players g.CurrentPos with
  | none => none
  | some player =>
    if action = Fold then
      (g.withPlayer player.Fold).roundClosure
    else if action = Check then
      if g.CurrentBet > player.Bet then some (false, g)
      else g.roundClosure
    else if action = Call then
      let callAmount := g.CurrentBet - player.Bet
      let r := player.PlaceBet callAmount
      let g1 := g.withPlayer r.2
      if !r.1 then some (false, g1)
      else ({ g1 with Pot := g1.Pot + callAmount }).roundClosure
    else if action = Bet then
      if g.CurrentBet > 0 then some (false, g)
      else if amount < g.BigBlind then some (false, g)
      else
        let r := player.PlaceBet amount
        let g1 := g.withPlayer r.2
        if !r.1 then some (false, g1)
        else
          let g2 := { g1 with Pot := g1.Pot + amount }
          let g3 := { g2 with CurrentBet := amount }
          let g4 := { g3 with LastRaisePos := g3.CurrentPos }
          ({ g4 with MinRaise := amount }).roundClosure
    else if action = Raise then
      let raiseAmount := g.CurrentBet - player.Bet + amount
      if amount < g.MinRaise then some (false, g)
      else
        let r := player.PlaceBet raiseAmount
        let g1 := g.withPlayer r.2
        if !r.1 then some (false, g1)
        else
          let g2 := { g1 with Pot := g1.Pot + raiseAmount }
          let g3 := { g2 with CurrentBet := r.2.Bet }
          let g4 := { g3 with LastRaisePos := g3.CurrentPos }
          ({ g4 with MinRaise := amount }).roundClosure
    else if action = AllIn then
      let allInAmount := player.Chips
      let r := player.PlaceBet allInAmount
      let g1 := g.withPlayer r.2
      let g2 := { g1 with Pot := g1.Pot + allInAmount }
      if r.2.Bet > g2.CurrentBet then
        let g3 := { g2 with CurrentBet := r.2.Bet }
        let g4 := { g3 with LastRaisePos := g3.CurrentPos }
        ({ g4 with MinRaise := g4.CurrentBet - (g4.CurrentBet - allInAmount) }).roundClosure
      else g2.roundClosure
    else g.roundClosure

def GameState.GetCurrentPlayer (g : GameState) : Option Player :=
  playerAt g.Players g.CurrentPos

def GameState.IsHandOver (g : GameState) : Bool :=
  g.CurrentPhase = Showdown || g.countActivePlayers ≤ 1

/-! ## Concrete tables used by the closed statements -/

def seat (name : String) (chips bet : Int) (status : PlayerStatus) (position : Int) : Player :=
  { ID := name, Name := name, Chips := chips, Cards := [], Bet := bet, Status := status,
    Position := position }

/-- Whether seat `i` exists and its player is active. -/
def seatActive (ps : List Player) (i : Nat) : Bool :=
  match ps[i]? with
  | some p => p.IsActive
  | none => false

/-- Both seat indices of the table point at a seat. -/
def GameState.SeatsValid (g : GameState) : Prop :=
  0 ≤ g.CurrentPos ∧ g.CurrentPos < (g.Players.length : Int) ∧
  0 ≤ g.DealerPos ∧ g.DealerPos < (g.Players.length : Int)

instance (g : GameState) : Decidable g.SeatsValid := by
  unfold GameState.SeatsValid
  exact inferInstance

/-- One pass of the inner deal loop of `StartNewHand` over the seats, in seat order: a player
who is active or all-in draws the top card of the deck and keeps it if the draw succeeded. -/
def dealPass : List Player → Deck → List Player × Deck
  | [], d => ([], d)
  | p :: ps, d =>
    if p.IsActive || p.Status == AllInStatus then
      let r := d.DrawOne
      let p1 := if r.1.2 then { p with Cards := p.Cards ++ [r.1.1] } else p
      let rest := dealPass ps r.2
      (p1 :: rest.1, rest.2)
    else
      let rest := dealPass ps d
      (p :: rest.1, rest.2)

/-- The outer deal loop `for i := 0; i < k; i++` of `StartNewHand`. -/
def GameState.dealHoleCards (g : GameState) : Nat → GameState
  | 0 => g
  | k + 1 =>
    let r := dealPass g.Players g.Deck
    ({ g with Players := r.1, Deck := r.2 }).dealHoleCards k

/-- The statement `g.Players[pos].PlaceBet(amount)` of `StartNewHand`, its result ignored. -/
def GameState.postBlind (g : GameState) (pos : Int) (amount : Int) : Option GameState :=
  match playerAt g.Players pos with
  | none => none
  | some p => some { g with Players := g.Players.set pos.toNat (p.PlaceBet amount).2 }

/-- `StartNewHand`; `swaps` is the sequence of swaps the shuffle performs. -/
def GameState.StartNewHand (g : GameState) (swaps : List (Nat × Nat)) : Option GameState :=
  match NewDeck.Shuffle swaps with
  | none => none
  | some deck =>
    let g1 : GameState :=
      { g with Deck := deck, CommunityCards := [], CurrentPhase := PreFlop, Pot := 0,
               CurrentBet := 0, LastRaisePos := -1, MinRaise := g.BigBlind }
    let g2 := { g1 with Players := g1.Players.map Player.ResetForNewHand }
    if g2.Players.length = 0 then none
    else
      let g3 := { g2 with DealerPos := Int.tmod (g2.DealerPos + 1) (g2.Players.length : Int) }
      match g3.findNextActivePosition g3.DealerPos with
      | none => none
      | some sbPos =>
        match g3.postBlind sbPos g3.SmallBlind with
        | none => none
        | some g4 =>
          match g4.findNextActivePosition sbPos with
          | none => none
          | some bbPos =>
            match g4.postBlind bbPos g4.BigBlind with
            | none => none
            | some g5 =>
              let g6 := { g5 with CurrentBet := g5.BigBlind }
              let g7 := g6.dealHoleCards 2
              match g7.findNextActivePosition bbPos with
              | none => none
              | some pos => some { g7 with CurrentPos := pos }

/-- The seat `r` is what the clockwise scan from seat `q` over `ps` finds: an active seat if
there is one (the seat right after `q` if that one is active), else `q` itself. -/
def NextSeat (ps : List Player) (q r : Nat) : Prop :=
  r < ps.length ∧
  (seatActive ps r = true ∨ ∀ i, seatActive ps i = false) ∧
  (r = q → ∀ i, i ≠ q → seatActive ps i = false) ∧
  (seatActive ps ((q + 1) % ps.length) = true → r = (q + 1) % ps.length)

/-- The states in play: the result of `StartNewHand` on a table whose dealer seat index is not
negative, and every state that `ProcessAction` calls lead to from there. -/
inductive Played : GameState → Prop
  | start (g0 : GameState) (swaps : List (Nat × Nat)) (g : GameState) :
      0 ≤ g0.DealerPos → g0.StartNewHand swaps = some g → Played g
  | action (g : GameState) (a : PlayerAction) (amount : Int) (b : Bool) (g1 : GameState) :
      Played g → g.ProcessAction a amount = some (b, g1) → Played g1

/-- As `Played`, with direct calls of `DealFlop`, `DealTurn` and `DealRiver` as further steps. -/
inductive Reachable : GameState → Prop
  | start (g0 : GameState) (swaps : List (Nat × Nat)) (g : GameState) :
      0 ≤ g0.DealerPos → g0.StartNewHand swaps = some g → Reachable g
  | action (g : GameState) (a : PlayerAction) (amount : Int) (b : Bool) (g1 : GameState) :
      Reachable g → g.ProcessAction a amount = some (b, g1) → Reachable g1
  | flop (g g1 : GameState) : Reachable g → g.DealFlop = some g1 → Reachable g1
  | turn (g g1 : GameState) : Reachable g → g.DealTurn = some g1 → Reachable g1
  | river (g g1 : GameState) : Reachable g → g.DealRiver = some g1 → Reachable g1

/-- Four active seats on the flop, nothing bet yet on this street, seat 0 to act. -/
def table4 : GameState :=
  { Players := [seat "a" 1000 0 Active 0, seat "b" 1000 0 Active 1, seat "c" 1000 0 Active 2,
      seat "d" 1000 0 Active 3],
    Deck := { Cards := [⟨2, 0⟩, ⟨3, 0⟩, ⟨4, 0⟩, ⟨5, 0⟩, ⟨6, 0⟩, ⟨7, 0⟩] },
    CommunityCards := [⟨14, 1⟩, ⟨13, 1⟩, ⟨12, 1⟩], CurrentPhase := Flop, Pot := 60,
    CurrentBet := 0, SmallBlind := 10, BigBlind := 20, DealerPos := 3, CurrentPos := 0,
    LastRaisePos := -1, MinRaise := 20 }

/-- The flop after a pre-flop round in which all four seats put in 20: the street deal reset
`CurrentBet` to 0 while every player's `Bet` still holds the 20 of the previous street. -/
def tableStale : GameState :=
  { Players := [seat "a" 980 20 Active 0, seat "b" 980 20 Active 1, seat "c" 980 20 Active 2,
      seat "d" 980 20 Active 3],
    Deck := { Cards := [⟨2, 0⟩, ⟨3, 0⟩, ⟨4, 0⟩, ⟨5, 0⟩, ⟨6, 0⟩, ⟨7, 0⟩] },
    CommunityCards := [⟨14, 1⟩, ⟨13, 1⟩, ⟨12, 1⟩], CurrentPhase := Flop, Pot := 80,
    CurrentBet := 0, SmallBlind := 10, BigBlind := 20, DealerPos := 3, CurrentPos := 0,
    LastRaisePos := -1, MinRaise := 20 }

/-- Seat 0 has bet 50 on the flop; seat 1 is to act. -/
def tableBet : GameState :=
  { Players := [seat "a" 950 50 Active 0, seat "b" 1000 0 Active 1, seat "c" 1000 0 Active 2,
      seat "d" 1000 0 Active 3],
    Deck := { Cards := [⟨2, 0⟩, ⟨3, 0⟩, ⟨4, 0⟩, ⟨5, 0⟩, ⟨6, 0⟩, ⟨7, 0⟩] },
    CommunityCards := [⟨14, 1⟩, ⟨13, 1⟩, ⟨12, 1⟩], CurrentPhase := Flop, Pot := 110,
    CurrentBet := 50, SmallBlind := 10, BigBlind := 20, DealerPos := 3, CurrentPos := 1,
    LastRaisePos := 0, MinRaise := 50 }

/-- Seat 0 has bet 100 on the flop, seat 1 has called; seat 2, with 30 chips left, is to act
and the next active seat after it is seat 0, the last raiser. -/
def tableShort : GameState :=
  { Players := [seat "a" 900 100 Active 0, seat "b" 900 100 Active 1, seat "c" 30 0 Active 2],
    Deck := { Cards := [⟨2, 0⟩, ⟨3, 0⟩, ⟨4, 0⟩, ⟨5, 0⟩, ⟨6, 0⟩, ⟨7, 0⟩] },
    CommunityCards := [⟨14, 1⟩, ⟨13, 1⟩, ⟨12, 1⟩], CurrentPhase := Flop, Pot := 260,
    CurrentBet := 100, SmallBlind := 10, BigBlind := 20, DealerPos := 2, CurrentPos := 2,
    LastRaisePos := 0, MinRaise := 100 }

/-- As `tableShort` with a fourth seat between the short stack and the bettor, so that the
short all-in does not close the round. -/
def tableShortOpen : GameState :=
  { Players := [seat "a" 900 100 Active 0, seat "b" 900 100 Active 1, seat "c" 30 0 Active 2,
      seat "d" 1000 0 Active 3],
    Deck := { Cards := [⟨2, 0⟩, ⟨3, 0⟩, ⟨4, 0⟩, ⟨5, 0⟩, ⟨6, 0⟩, ⟨7, 0⟩] },
    CommunityCards := [⟨14, 1⟩, ⟨13, 1⟩, ⟨12, 1⟩], CurrentPhase := Flop, Pot := 260,
    CurrentBet := 100, SmallBlind := 10, BigBlind := 20, DealerPos := 3, CurrentPos := 2,
    LastRaisePos := 0, MinRaise := 100 }

/-- The river with the board out: seat 0 has bet 50, seats 1 and 2 have called, seat 3 is to
act; its call hands the action back to seat 0 and closes the last betting round. -/
def tableRiver : GameState :=
  { Players := [
      { seat "a" 950 50 Active 0 with Cards := [⟨Ace, Spades⟩, ⟨Ace, Hearts⟩] },
      { seat "b" 950 50 Active 1 with Cards := [⟨King, Spades⟩, ⟨Queen, Hearts⟩] },
      { seat "c" 950 50 Active 2 with Cards := [⟨Nine, Clubs⟩, ⟨Eight, Clubs⟩] },
      { seat "d" 1000 0 Active 3 with Cards := [⟨Seven, Diamonds⟩, ⟨Two, Spades⟩] }],
    Deck := { Cards := [⟨Two, Hearts⟩, ⟨Three, Hearts⟩] },
    CommunityCards := [⟨Ace, Diamonds⟩, ⟨Ace, Clubs⟩, ⟨Five, Hearts⟩, ⟨Ten, Diamonds⟩,
      ⟨Jack, Spades⟩],
    CurrentPhase := River, Pot := 150, CurrentBet := 50, SmallBlind := 10, BigBlind := 20,
    DealerPos := 3, CurrentPos := 3, LastRaisePos := 0, MinRaise := 50 }

/-- The seven cards Ah Kh Qh Jh Th 2c 3c. -/
def royalSeven : List Card :=
  [⟨Ace, Hearts⟩, ⟨King, Hearts⟩, ⟨Queen, Hearts⟩, ⟨Jack, Hearts⟩, ⟨Ten, Hearts⟩,
    ⟨Two, Clubs⟩, ⟨Three, Clubs⟩]

/-- The river with four active seats, a pot of 150, nothing bet on this street and seat 0 to
act. -/
def tableRiverOpen : GameState :=
  { Players := [seat "a" 950 0 Active 0, seat "b" 950 0 Active 1, seat "c" 950 0 Active 2,
      seat "d" 1000 0 Active 3],
    Deck := { Cards := [⟨Two, Hearts⟩, ⟨Three, Hearts⟩] },
    CommunityCards := [⟨Ace, Diamonds⟩, ⟨Ace, Clubs⟩, ⟨Five, Hearts⟩, ⟨Ten, Diamonds⟩,
      ⟨Jack, Spades⟩],
    CurrentPhase := River, Pot := 150, CurrentBet := 0, SmallBlind := 10, BigBlind := 20,
    DealerPos := 3, CurrentPos := 0, LastRaisePos := -1, MinRaise := 20 }

/-- The driver of a betting round: `k` successive `ProcessAction(Call, 0)` calls, each of them
accepted; `none` as soon as one is rejected or panics. -/
def GameState.callRound (g : GameState) : Nat → Option GameState
  | 0 => some g
  | k + 1 =>
    match g.callRound k with
    | none => none
    | some gk =>
      match gk.ProcessAction Call 0 with
      | some (true, g') => some g'
      | _ => none

/-- The state of a betting round opened by a bet of `amt` from seat `s` of `n`, after `k` calls:
same phase `ph`, the bet stands, seat `s` is the last raiser and still active, the seat
`s + 1 + k` is to act, and the seats that have not called yet are active and can cover the
call. -/
def CallInv (n s : Nat) (amt ph : Int) (k : Nat) (g : GameState) : Prop :=
  g.Players.length = n ∧ g.SeatsValid ∧ g.CurrentPhase = ph ∧ g.CurrentBet = amt ∧
  g.LastRaisePos = (s : Int) ∧ g.CurrentPos = (((s + 1 + k) % n : Nat) : Int) ∧
  seatActive g.Players s = true ∧
  ∀ j, k ≤ j → j + 1 < n →
    ∃ p, g.Players[(s + 1 + j) % n]? = some p ∧ p.Status = Active ∧ amt - p.Bet ≤ p.Chips

/-- The state `table4` after the bet of 40 by seat 0. -/
def table4Bet : GameState :=
  { table4 with
    Players := [seat "a" 960 40 Active 0, seat "b" 1000 0 Active 1, seat "c" 1000 0 Active 2,
      seat "d" 1000 0 Active 3],
    Pot := 100, CurrentBet := 40, CurrentPos := 1, LastRaisePos := 0, MinRaise := 40 }

/-- The state `tableBet` after the raise by 60 of seat 1. -/
def tableBetRaise : GameState :=
  { tableBet with
    Players := [seat "a" 950 50 Active 0, seat "b" 890 110 Active 1, seat "c" 1000 0 Active 2,
      seat "d" 1000 0 Active 3],
    Pot := 220, CurrentBet := 110, CurrentPos := 2, LastRaisePos := 1, MinRaise := 60 }

/-- The state `tableShortOpen` after the all-in of seat 2. -/
def tableShortOpenAllIn : GameState :=
  { tableShortOpen with
    Players := [seat "a" 900 100 Active 0, seat "b" 900 100 Active 1,
      seat "c" 0 30 AllInStatus 2, seat "d" 1000 0 Active 3],
    Pot := 290, CurrentPos := 3 }

/-- A run of the shuffle on 52 cards: for i = 51 down to 1 the card at i is swapped with the
card at i / 2. -/
def sampleSwaps : List (Nat × Nat) :=
  (List.range 51).map (fun k => (51 - k, (51 - k) / 2))

/-- Three seats before a hand, the player of seat 1 without chips, the button at seat 0. -/
def tableBusted : GameState :=
  NewGameState [NewPlayer "a" "a" 1000 0, NewPlayer "b" "b" 0 1, NewPlayer "c" "c" 1000 2] 10 20

/-- Three seats before a hand, every player with 1000 chips, blinds 10 and 20, the button at
seat 0. -/
def tableFresh : GameState :=
  NewGameState [NewPlayer "a" "a" 1000 0, NewPlayer "b" "b" 1000 1, NewPlayer "c" "c" 1000 2] 10 20

/-- The condition of the deal loop of `StartNewHand`: the player is active or all-in. -/
def inHand (p : Player) : Bool :=
  p.IsActive || p.Status == AllInStatus

/-- All cards of the table: the hole cards seat by seat, then the community cards, then the
deck. -/
def allCards (g : GameState) : List Card :=
  (g.Players.map (fun p => p.Cards)).flatten ++ g.CommunityCards ++ g.Deck.Cards

/-- From `g` to `g1` every seat keeps its hole cards, and the community cards followed by the
deck lose cards at most. -/
def CardsKept (g g1 : GameState) : Prop :=
  g1.Players.map (fun p => p.Cards) = g.Players.map (fun p => p.Cards) ∧
  (g1.CommunityCards ++ g1.Deck.Cards).Sublist (g.CommunityCards ++ g.Deck.Cards)

/-- The state after `StartNewHand` on `tableFresh` (the table itself if the call failed). -/
def handFresh : GameState :=
  (tableFresh.StartNewHand sampleSwaps).getD tableFresh

/-- The seat indices are valid and the acting seat is active, unless no seat is. -/
def Acting (g : GameState) : Prop :=
  g.SeatsValid ∧
  (seatActive g.Players g.CurrentPos.toNat = true ∨ ∀ i, seatActive g.Players i = false)

/-- From `g` to `g1` only the record of the acting seat may differ, and `Acting` is kept. -/
def SeatStep (g g1 : GameState) : Prop :=
  (∃ p1, g1.Players = g.Players.set g.CurrentPos.toNat p1) ∧ (Acting g → Acting g1)

/-- The hand on `tableFresh` after the first player to act (seat 1) has folded. -/
def handFolded : GameState :=
  ((handFresh.ProcessAction Fold 0).map Prod.snd).getD handFresh

/-- The state of `handFolded` after the next player (seat 2, the small blind) has called. -/
def handCalled : GameState :=
  ((handFolded.ProcessAction Call 0).map Prod.snd).getD handFolded

/-- Two seats before a hand, both players with 1000 chips, blinds 10 and 20, the button at
seat 0. -/
def tableHeadsUp : GameState :=
  NewGameState [NewPlayer "a" "a" 1000 0, NewPlayer "b" "b" 1000 1] 10 20

/-- The heads-up hand after `StartNewHand`: button and big blind at seat 1, small blind and
first action at seat 0. -/
def headsUpStart : GameState :=
  (tableHeadsUp.StartNewHand sampleSwaps).getD tableHeadsUp

/-- The heads-up hand after seat 0 has folded. -/
def headsUpFold1 : GameState :=
  ((headsUpStart.ProcessAction Fold 0).map Prod.snd).getD headsUpStart

/-- The heads-up hand after seat 1 has folded too: no player is active any more. -/
def headsUpFold2 : GameState :=
  ((headsUpFold1.ProcessAction Fold 0).map Prod.snd).getD headsUpFold1

/-- The heads-up hand after a further AllIn action. -/
def headsUpAllIn : GameState :=
  ((headsUpFold2.ProcessAction AllIn 0).map Prod.snd).getD headsUpFold2

/-- The chips on the table: the sum of all players' stacks plus the pot. -/
def totalChips (g : GameState) : Int :=
  (g.Players.map (fun p => p.Chips)).sum + g.Pot

/-- The states reached from `StartNewHand` (dealer index and blinds not negative) through
`ProcessAction` calls each made while at least one player is still active. -/
inductive PlayedLive : GameState → Prop
  | start (g0 : GameState) (swaps : List (Nat × Nat)) (g : GameState) :
      0 ≤ g0.DealerPos → 0 ≤ g0.SmallBlind → 0 ≤ g0.BigBlind →
      g0.StartNewHand swaps = some g → PlayedLive g
  | action (g : GameState) (a : PlayerAction) (amount : Int) (b : Bool) (g1 : GameState) :
      PlayedLive g → (∃ i, seatActive g.Players i = true) →
      g.ProcessAction a amount = some (b, g1) → PlayedLive g1

/-- The heads-up hand after seat 0 has gone all-in before the flop. -/
def headsUpShove : GameState :=
  ((headsUpStart.ProcessAction AllIn 0).map Prod.snd).getD headsUpStart

/-- The heads-up hand after seat 1 has gone all-in too, on the flop: no player is active. -/
def headsUpShove2 : GameState :=
  ((headsUpShove.ProcessAction AllIn 0).map Prod.snd).getD headsUpShove

/-- The heads-up hand after a further Call, made by the all-in player of seat 1. -/
def headsUpRefund : GameState :=
  ((headsUpShove2.ProcessAction Call 0).map Prod.snd).getD headsUpShove2

/-- The heads-up hand after seat 0 has raised by 20 before the flop. -/
def headsUpRaise : GameState :=
  ((headsUpStart.ProcessAction Raise 20).map Prod.snd).getD headsUpStart

/-- The heads-up hand on the flop, after seat 1 has called the raise. -/
def headsUpFlop : GameState :=
  ((headsUpRaise.ProcessAction Call 0).map Prod.snd).getD headsUpRaise

/-- The heads-up hand after seat 0 has called on the flop. -/
def headsUpFlopCall1 : GameState :=
  ((headsUpFlop.ProcessAction Call 0).map Prod.snd).getD headsUpFlop

/-- The heads-up hand after seat 1 has called on the flop too. -/
def headsUpFlopCall2 : GameState :=
  ((headsUpFlopCall1.ProcessAction Call 0).map Prod.snd).getD headsUpFlopCall1

/-! ## Go's 64-bit `int` -/

/-- Go's `int` is 64 bits wide on the targets this program is built for: an addition or
subtraction whose exact result leaves the range -2^63 .. 2^63 - 1 wraps around. `wrap64 x` is
the value the Go variable holds when the exact result is `x`. -/
def wrap64 (x : Int) : Int :=
  (x + 9223372036854775808) % 18446744073709551616 - 9223372036854775808

/-- The exact value `x` lies in the range of a Go `int`, so that computing it does not wrap. -/
def Fits (x : Int) : Prop :=
  -9223372036854775808 ≤ x ∧ x ≤ 9223372036854775807

instance (x : Int) : Decidable (Fits x) := by
  unfold Fits
  exact inferInstance

/-- The value `x` is at most 2^60 in absolute value: sums of up to four such values are
computed by Go without wrapping. -/
def Small (x : Int) : Prop :=
  -1152921504606846976 ≤ x ∧ x ≤ 1152921504606846976

instance (x : Int) : Decidable (Small x) := by
  unfold Small
  exact inferInstance

/-- `Player.PlaceBet` as Go computes it: `p.Bet += amount` and `p.Chips -= amount` wrap
around; the returned flag and the player after the call. -/
def Player.PlaceBet64 (p : Player) (amount : Int) : Bool × Player :=
  if amount > p.Chips then (false, p)
  else
    let p1 := { p with Bet := wrap64 (p.Bet + amount) }
    let p2 := { p1 with Chips := wrap64 (p1.Chips - amount) }
    if p2.Chips = 0 then (true, { p2 with Status := AllInStatus }) else (true, p2)

/-- The statement `g.Players[pos].PlaceBet(amount)` of `StartNewHand` as Go computes it. -/
def GameState.postBlind64 (g : GameState) (pos : Int) (amount : Int) : Option GameState :=
  match playerAt g.Players pos with
  | none => none
  | some p => some { g with Players := g.Players.set pos.toNat (p.PlaceBet64 amount).2 }

/-- `StartNewHand` as Go computes it: the blinds are posted with the wrapping `PlaceBet`;
`swaps` is the sequence of swaps the shuffle performs. -/
def GameState.StartNewHand64 (g : GameState) (swaps : List (Nat × Nat)) : Option GameState :=
  match NewDeck.Shuffle swaps with
  | none => none
  | some deck =>
    let g1 : GameState :=
      { g with Deck := deck, CommunityCards := [], CurrentPhase := PreFlop, Pot := 0,
               CurrentBet := 0, LastRaisePos := -1, MinRaise := g.BigBlind }
    let g2 := { g1 with Players := g1.Players.map Player.ResetForNewHand }
    if g2.Players.length = 0 then none
    else
      let g3 := { g2 with DealerPos := Int.tmod (g2.DealerPos + 1) (g2.Players.length : Int) }
      match g3.findNextActivePosition g3.DealerPos with
      | none => none
      | some sbPos =>
        match g3.postBlind64 sbPos g3.SmallBlind with
        | none => none
        | some g4 =>
          match g4.findNextActivePosition sbPos with
          | none => none
          | some bbPos =>
            match g4.postBlind64 bbPos g4.BigBlind with
            | none => none
            | some g5 =>
              let g6 := { g5 with CurrentBet := g5.BigBlind }
              let g7 := g6.dealHoleCards 2
              match g7.findNextActivePosition bbPos with
              | none => none
              | some pos => some { g7 with CurrentPos := pos }

/-- `ProcessAction` as Go computes it: the call amount, the raise amount, the pot and the
minimum raise of an all-in are sums and differences of 64-bit `int`s and wrap around, and the
bets go through the wrapping `PlaceBet`. -/
def GameState.ProcessAction64 (g : GameState) (action : PlayerAction) (amount : Int) :
    Option (Bool × GameState) :=
  match playerAt g.Players g.CurrentPos with
  | none => none
  | some player =>
    if action = Fold then
      (g.withPlayer player.Fold).roundClosure
    else if action = Check then
      if g.CurrentBet > player.Bet then some (false, g)
      else g.roundClosure
    else if action = Call then
      let callAmount := wrap64 (g.CurrentBet - player.Bet)
      let r := player.PlaceBet64 callAmount
      let g1 := g.withPlayer r.2
      if !r.1 then some (false, g1)
      else ({ g1 with Pot := wrap64 (g1.Pot + callAmount) }).roundClosure
    else if action = Bet then
      if g.CurrentBet > 0 then some (false, g)
      else if amount < g.BigBlind then some (false, g)
      else
        let r := player.PlaceBet64 amount
        let g1 := g.withPlayer r.2
        if !r.1 then some (false, g1)
        else
          let g2 := { g1 with Pot := wrap64 (g1.Pot + amount) }
          let g3 := { g2 with CurrentBet := amount }
          let g4 := { g3 with LastRaisePos := g3.CurrentPos }
          ({ g4 with MinRaise := amount }).roundClosure
    else if action = Raise then
      let raiseAmount := wrap64 (wrap64 (g.CurrentBet - player.Bet) + amount)
      if amount < g.MinRaise then some (false, g)
      else
        let r := player.PlaceBet64 raiseAmount
        let g1 := g.withPlayer r.2
        if !r.1 then some (false, g1)
        else
          let g2 := { g1 with Pot := wrap64 (g1.Pot + raiseAmount) }
          let g3 := { g2 with CurrentBet := r.2.Bet }
          let g4 := { g3 with LastRaisePos := g3.CurrentPos }
          ({ g4 with MinRaise := amount }).roundClosure
    else if action = AllIn then
      let allInAmount := player.Chips
      let r := player.PlaceBet64 allInAmount
      let g1 := g.withPlayer r.2
      let g2 := { g1 with Pot := wrap64 (g1.Pot + allInAmount) }
      if r.2.Bet > g2.CurrentBet then
        let g3 := { g2 with CurrentBet := r.2.Bet }
        let g4 := { g3 with LastRaisePos := g3.CurrentPos }
        let minRaise := wrap64 (g4.CurrentBet - wrap64 (g4.CurrentBet - allInAmount))
        ({ g4 with MinRaise := minRaise }).roundClosure
      else g2.roundClosure
    else g.roundClosure

/-- Every stack and bet of the table, the current bet, the pot and the blinds are at most 2^60
in absolute value. -/
def GameState.SmallValues (g : GameState) : Prop :=
  (∀ p ∈ g.Players, Small p.Chips ∧ Small p.Bet) ∧ Small g.CurrentBet ∧ Small g.Pot ∧
  Small g.SmallBlind ∧ Small g.BigBlind

instance (g : GameState) : Decidable g.SmallValues := by
  unfold GameState.SmallValues
  exact inferInstance

/-- The state of `tableBet` after the 64-bit `ProcessAction(Raise, 9223372036854775807)`. -/
def tableBetWrap : GameState :=
  ((tableBet.ProcessAction64 Raise 9223372036854775807).map Prod.snd).getD tableBet

/-- The state of `tableBet` after the 64-bit `ProcessAction(Raise, 60)`. -/
def tableBetRaise64 : GameState :=
  ((tableBet.ProcessAction64 Raise 60).map Prod.snd).getD tableBet

/-- As `table4`, with a stack of 40 at seat 0, the seat to act. -/
def table4Tight : GameState :=
  { table4 with
    Players := [seat "a" 40 0 Active 0, seat "b" 1000 0 Active 1, seat "c" 1000 0 Active 2,
      seat "d" 1000 0 Active 3] }

/-- The state of `table4Tight` after seat 0 has bet its whole stack of 40. -/
def table4TightBet : GameState :=
  ((table4Tight.ProcessAction Bet 40).map Prod.snd).getD table4Tight

/-- The state of `table4TightBet` after the three Calls of the other seats. -/
def table4TightCalls : GameState :=
  (table4TightBet.callRound 3).getD table4TightBet

/-! ## Basic facts about seats and bets -/

theorem playerAt_eq_some {ps : List Player} {i : Int} {p : Player}
    (h : playerAt ps i = some p) :
    0 ≤ i ∧ i.toNat < ps.length ∧ ps[i.toNat]? = some p := by
  unfold playerAt at h
  split_ifs at h with hi
  refine ⟨by omega, ?_, h⟩
  exact (List.getElem?_eq_some.mp h).1

theorem set_same {α : Type} : ∀ (l : List α) (i : Nat) (a : α), l[i]? = some a → l.set i a = l
  | [], _, _, _ => rfl
  | x :: xs, 0, a, h => by
    simp at h
    simp [h]
  | x :: xs, i + 1, a, h => by
    simp at h
    simp [set_same xs i a h]

theorem withPlayer_self {g : GameState} {p : Player}
    (h : playerAt g.Players g.CurrentPos = some p) : g.withPlayer p = g := by
  obtain ⟨_, _, hget⟩ := playerAt_eq_some h
  unfold GameState.withPlayer
  rw [set_same _ _ _ hget]

theorem PlaceBet_rejected {p : Player} {amount : Int}
    (h : (p.PlaceBet amount).1 = false) : p.Chips < amount ∧ (p.PlaceBet amount).2 = p := by
  unfold Player.PlaceBet at h ⊢
  by_cases hc : amount > p.Chips
  · simp [hc]
  · simp only [hc, if_false] at h
    split_ifs at h

theorem roundClosure_accepts {g g' : GameState} {b : Bool}
    (h : g.roundClosure = some (b, g')) : b = true := by
  unfold GameState.roundClosure at h
  split at h
  · simp at h
  · simp only at h
    split_ifs at h
    · split at h
      · simp at h
      · simp at h; exact h.1
    · simp at h; exact h.1

/-! ## The clockwise scan for the next active seat -/

theorem playerAt_natCast (ps : List Player) (i : Nat) : playerAt ps (i : Int) = ps[i]? := by
  unfold playerAt
  have : ¬ ((i : Int) < 0) := by omega
  simp [this]

theorem tmod_succ_natCast (i n : Nat) :
    Int.tmod ((i : Int) + 1) (n : Int) = (((i + 1) % n : Nat) : Int) := by
  have : ((i : Int) + 1) = ((i + 1 : Nat) : Int) := by push_cast; ring
  rw [this, Int.ofNat_tmod]

theorem findNextLoop_scan (ps : List Player) (pos : Int) :
    ∀ (k np : Nat), np < ps.length →
      (∃ d, d < k ∧ findNextLoop ps pos k (np : Int) = some (((np + d) % ps.length : Nat) : Int) ∧
        seatActive ps ((np + d) % ps.length) = true ∧
        ∀ j, j < d → seatActive ps ((np + j) % ps.length) = false) ∨
      (findNextLoop ps pos k (np : Int) = some pos ∧
        ∀ j, j < k → seatActive ps ((np + j) % ps.length) = false)
  | 0, np, _ => Or.inr ⟨rfl, fun j hj => absurd hj (Nat.not_lt_zero j)⟩
  | k + 1, np, hnp => by
    have hget : ps[np]? = some ps[np] := List.getElem?_eq_getElem hnp
    have hmod : np % ps.length = np := Nat.mod_eq_of_lt hnp
    by_cases hact : (ps[np]).IsActive = true
    · left
      refine ⟨0, Nat.succ_pos k, ?_, ?_, fun j hj => absurd hj (Nat.not_lt_zero j)⟩
      · simp [findNextLoop, playerAt_natCast, hget, hact, hmod]
      · simp [seatActive, hmod, hget, hact]
    · have hlen : 0 < ps.length := by omega
      have hnp1 : (np + 1) % ps.length < ps.length := Nat.mod_lt _ hlen
      have hstep : findNextLoop ps pos (k + 1) (np : Int) =
          findNextLoop ps pos k ((((np + 1) % ps.length : Nat)) : Int) := by
        simp [findNextLoop, playerAt_natCast, hget, hact, tmod_succ_natCast]
      have hshift : ∀ j, ((np + 1) % ps.length + j) % ps.length = (np + (j + 1)) % ps.length := by
        intro j
        rw [Nat.mod_add_mod]
        congr 1
        omega
      have h0 : seatActive ps ((np + 0) % ps.length) = false := by
        simp [seatActive, hmod, hget, hact]
      rcases findNextLoop_scan ps pos k ((np + 1) % ps.length) hnp1 with
        ⟨d, hd, hres, hA, hB⟩ | ⟨hres, hB⟩
      · left
        refine ⟨d + 1, by omega, ?_, ?_, ?_⟩
        · rw [hstep, hres, hshift]
        · rw [← hshift]; exact hA
        · intro j hj
          cases j with
          | zero => exact h0
          | succ j => rw [← hshift]; exact hB j (by omega)
      · right
        refine ⟨by rw [hstep, hres], ?_⟩
        intro j hj
        cases j with
        | zero => exact h0
        | succ j => rw [← hshift]; exact hB j (by omega)

theorem seatActive_of_length_le {ps : List Player} {i : Nat} (h : ps.length ≤ i) :
    seatActive ps i = false := by
  simp [seatActive, List.getElem?_eq_none h]

theorem seatActive_cons_succ (x : Player) (xs : List Player) (i : Nat) :
    seatActive (x :: xs) (i + 1) = seatActive xs i := by
  simp [seatActive]

theorem filter_nil_of_inactive : ∀ (ps : List Player),
    (∀ i, seatActive ps i = false) → ps.filter (fun p => p.IsActive) = []
  | [], _ => rfl
  | x :: xs, h => by
    have hx : x.IsActive = false := by simpa [seatActive] using h 0
    have hxs : ∀ i, seatActive xs i = false := fun i => by
      rw [← seatActive_cons_succ x xs i]; exact h (i + 1)
    simp [List.filter, hx, filter_nil_of_inactive xs hxs]

theorem filter_le_one_of_inactive : ∀ (ps : List Player) (q : Nat),
    (∀ i, i ≠ q → seatActive ps i = false) → (ps.filter (fun p => p.IsActive)).length ≤ 1
  | [], _, _ => by simp
  | x :: xs, 0, h => by
    have hxs : ∀ i, seatActive xs i = false := fun i => by
      rw [← seatActive_cons_succ x xs i]; exact h (i + 1) (by omega)
    have := filter_nil_of_inactive xs hxs
    by_cases hx : x.IsActive = true <;> simp [List.filter, hx, this]
  | x :: xs, q + 1, h => by
    have hx : x.IsActive = false := by simpa [seatActive] using h 0 (by omega)
    have hxs : ∀ i, i ≠ q → seatActive xs i = false := fun i hi => by
      rw [← seatActive_cons_succ x xs i]; exact h (i + 1) (by omega)
    have := filter_le_one_of_inactive xs q hxs
    simpa [List.filter, hx] using this

theorem filter_pos_of_active : ∀ (ps : List Player) (i : Nat),
    seatActive ps i = true → 0 < (ps.filter (fun p => p.IsActive)).length
  | [], i, h => by simp [seatActive] at h
  | x :: xs, 0, h => by
    have hx : x.IsActive = true := by simpa [seatActive] using h
    simp [List.filter, hx]
  | x :: xs, i + 1, h => by
    rw [seatActive_cons_succ] at h
    have := filter_pos_of_active xs i h
    by_cases hx : x.IsActive = true <;> simp [List.filter, hx]
    omega

/-- Replacing an active seat by an inactive player lowers the active count by one. -/
theorem filter_set_inactive : ∀ (ps : List Player) (q : Nat) (p : Player),
    seatActive ps q = true → p.IsActive = false →
    ((ps.set q p).filter (fun p => p.IsActive)).length + 1 =
      (ps.filter (fun p => p.IsActive)).length
  | [], q, p, h, _ => by simp [seatActive] at h
  | x :: xs, 0, p, h, hp => by
    have hx : x.IsActive = true := by simpa [seatActive] using h
    simp [List.filter, hx, hp]
  | x :: xs, q + 1, p, h, hp => by
    rw [seatActive_cons_succ] at h
    have := filter_set_inactive xs q p h hp
    by_cases hx : x.IsActive = true <;> simp [List.filter, hx] <;> omega

theorem mod_cover {n np i : Nat} (hnp : np < n) (hi : i < n) :
    ∃ j, j < n ∧ (np + j) % n = i := by
  by_cases h : np ≤ i
  · exact ⟨i - np, by omega, by rw [Nat.add_sub_cancel' h, Nat.mod_eq_of_lt hi]⟩
  · refine ⟨i + n - np, by omega, ?_⟩
    have : np + (i + n - np) = i + n := by omega
    rw [this, Nat.add_mod_right, Nat.mod_eq_of_lt hi]

theorem mod_cover_others {n q i : Nat} (hq : q < n) (hi : i < n) (hne : i ≠ q) :
    ∃ j, j < n - 1 ∧ (q + 1 + j) % n = i := by
  by_cases h : q < i
  · refine ⟨i - q - 1, by omega, ?_⟩
    have : q + 1 + (i - q - 1) = i := by omega
    rw [this, Nat.mod_eq_of_lt hi]
  · refine ⟨i + n - q - 1, by omega, ?_⟩
    have : q + 1 + (i + n - q - 1) = i + n := by omega
    rw [this, Nat.add_mod_right, Nat.mod_eq_of_lt hi]

theorem mod_back_to_self {n q d : Nat} (hq : q < n) (hd : d < n) (h : (q + 1 + d) % n = q) :
    d = n - 1 := by
  by_cases hlt : q + 1 + d < n
  · rw [Nat.mod_eq_of_lt hlt] at h; omega
  · have h2 : q + 1 + d = (q + 1 + d - n) + n := by omega
    rw [h2, Nat.add_mod_right, Nat.mod_eq_of_lt (by omega)] at h
    omega

/-- What `findNextActivePosition` returns from a seat `q` of a non-empty table. -/
theorem findNext_spec (g : GameState) (q : Nat) (hq : q < g.Players.length) :
    ∃ r : Nat, r < g.Players.length ∧ g.findNextActivePosition (q : Int) = some (r : Int) ∧
      (seatActive g.Players r = true ∨ ∀ i, seatActive g.Players i = false) ∧
      (r = q → ∀ i, i ≠ q → seatActive g.Players i = false) ∧
      (seatActive g.Players ((q + 1) % g.Players.length) = true →
        r = (q + 1) % g.Players.length) := by
  have hlen : 0 < g.Players.length := by omega
  have hnp : (q + 1) % g.Players.length < g.Players.length := Nat.mod_lt _ hlen
  have hfn : g.findNextActivePosition (q : Int) =
      findNextLoop g.Players (q : Int) g.Players.length
        ((((q + 1) % g.Players.length : Nat)) : Int) := by
    unfold GameState.findNextActivePosition
    rw [if_neg (by omega), tmod_succ_natCast]
  have hsh : ∀ j, ((q + 1) % g.Players.length + j) % g.Players.length =
      (q + 1 + j) % g.Players.length := fun j => by rw [Nat.mod_add_mod]
  rcases findNextLoop_scan g.Players (q : Int) g.Players.length _ hnp with
    ⟨d, hd, hres, hA, hB⟩ | ⟨hres, hB⟩
  · refine ⟨_, Nat.mod_lt _ hlen, by rw [hfn, hres], Or.inl hA, ?_, ?_⟩
    · intro hr i hi
      by_cases hin : i < g.Players.length
      · rw [hsh] at hr
        have hd1 := mod_back_to_self hq hd hr
        obtain ⟨j, hj, hji⟩ := mod_cover_others hq hin hi
        have := hB j (by omega)
        rw [hsh, hji] at this
        exact this
      · exact seatActive_of_length_le (by omega)
    · intro h1
      cases d with
      | zero => simp
      | succ d =>
        have := hB 0 (by omega)
        simp only [Nat.add_zero, Nat.mod_mod] at this
        rw [this] at h1
        cases h1
  · have hall : ∀ i, seatActive g.Players i = false := by
      intro i
      by_cases hin : i < g.Players.length
      · obtain ⟨j, hj, hji⟩ := mod_cover hnp hin
        have := hB j hj
        rw [hji] at this
        exact this
      · exact seatActive_of_length_le (by omega)
    refine ⟨q, hq, by rw [hfn, hres], Or.inr hall, fun _ i _ => hall i, ?_⟩
    intro h1
    rw [hall] at h1
    cases h1

theorem findNext_congr {g g' : GameState} (h : g'.Players = g.Players) (pos : Int) :
    g'.findNextActivePosition pos = g.findNextActivePosition pos := by
  unfold GameState.findNextActivePosition
  rw [h]

/-! ## Streets and the round closure -/

theorem dealCommunity_frame : ∀ (k : Nat) (g : GameState),
    ∃ d c, g.dealCommunity k = { g with Deck := d, CommunityCards := c }
  | 0, g => ⟨g.Deck, g.CommunityCards, rfl⟩
  | k + 1, g => by
    unfold GameState.dealCommunity
    simp only
    split_ifs
    · obtain ⟨d, c, h⟩ := dealCommunity_frame k
        { g with Deck := g.Deck.DrawOne.2,
                 CommunityCards := g.CommunityCards ++ [g.Deck.DrawOne.1.1] }
      exact ⟨d, c, h⟩
    · obtain ⟨d, c, h⟩ := dealCommunity_frame k { g with Deck := g.Deck.DrawOne.2 }
      exact ⟨d, c, h⟩

/-- A street deal from a valid dealer seat succeeds; it touches the deck, the community cards,
the phase, the current bet, the last raiser and the acting seat only. -/
theorem dealStreet_spec (g : GameState) (k : Nat) (phase : Int)
    (hd0 : 0 ≤ g.DealerPos) (hd1 : g.DealerPos < (g.Players.length : Int)) :
    ∃ d c, ∃ r : Nat, r < g.Players.length ∧
      (seatActive g.Players r = true ∨ ∀ i, seatActive g.Players i = false) ∧
      g.dealStreet k phase = some
        { g with Deck := d, CommunityCards := c, CurrentPhase := phase, CurrentBet := 0,
                 LastRaisePos := -1, CurrentPos := (r : Int) } := by
  obtain ⟨d, c, hdc⟩ := dealCommunity_frame k { g with Deck := g.Deck.DrawOne.2 }
  have hq : g.DealerPos.toNat < g.Players.length := by omega
  obtain ⟨r, hr, hfn, hact, _, _⟩ := findNext_spec g g.DealerPos.toNat hq
  rw [Int.toNat_of_nonneg hd0] at hfn
  refine ⟨d, c, r, hr, hact, ?_⟩
  unfold GameState.dealStreet
  simp only [hdc]
  have hc : GameState.findNextActivePosition
      { g with Deck := d, CommunityCards := c, CurrentPhase := phase, CurrentBet := 0,
               LastRaisePos := -1 } g.DealerPos = some (r : Int) := by
    rw [← hfn]; exact findNext_congr rfl _
  rw [hc]

/-- The effect of `advancePhase` from a valid dealer seat, by phase. -/
theorem advancePhase_spec (g : GameState)
    (hd0 : 0 ≤ g.DealerPos) (hd1 : g.DealerPos < (g.Players.length : Int)) :
    (0 ≤ g.CurrentPhase ∧ g.CurrentPhase < 3 ∧
      ∃ d c, ∃ r : Nat, r < g.Players.length ∧
        (seatActive g.Players r = true ∨ ∀ i, seatActive g.Players i = false) ∧
        g.advancePhase = some
          { g with Deck := d, CommunityCards := c, CurrentPhase := g.CurrentPhase + 1,
                   CurrentBet := 0, LastRaisePos := -1, CurrentPos := (r : Int) }) ∨
    (g.CurrentPhase = River ∧ g.advancePhase = some { g with CurrentPhase := Showdown }) ∨
    ((g.CurrentPhase < 0 ∨ 3 < g.CurrentPhase) ∧ g.advancePhase = some g) := by
  unfold GameState.advancePhase GameState.DealFlop GameState.DealTurn GameState.DealRiver
    GameState.determineWinners
  by_cases h0 : g.CurrentPhase = PreFlop
  · left
    have h0' : g.CurrentPhase = 0 := h0
    obtain ⟨d, c, r, hr, hact, hds⟩ := dealStreet_spec g 3 Flop hd0 hd1
    refine ⟨by omega, by omega, d, c, r, hr, hact, ?_⟩
    simp only [h0, if_true, ne_eq, not_true_eq_false, if_false, hds]
    rfl
  by_cases h1 : g.CurrentPhase = Flop
  · left
    have h1' : g.CurrentPhase = 1 := h1
    obtain ⟨d, c, r, hr, hact, hds⟩ := dealStreet_spec g 1 Turn hd0 hd1
    refine ⟨by omega, by omega, d, c, r, hr, hact, ?_⟩
    have hne : ¬ (Flop = PreFlop) := by decide
    simp only [h1, hne, if_true, ne_eq, not_true_eq_false, if_false, hds]
    rfl
  by_cases h2 : g.CurrentPhase = Turn
  · left
    have h2' : g.CurrentPhase = 2 := h2
    obtain ⟨d, c, r, hr, hact, hds⟩ := dealStreet_spec g 1 River hd0 hd1
    refine ⟨by omega, by omega, d, c, r, hr, hact, ?_⟩
    have hne : ¬ (Turn = PreFlop) := by decide
    have hne2 : ¬ (Turn = Flop) := by decide
    simp only [h2, hne, hne2, if_true, ne_eq, not_true_eq_false, if_false, hds]
    rfl
  by_cases h3 : g.CurrentPhase = River
  · right; left
    exact ⟨h3, by rw [if_neg h0, if_neg h1, if_neg h2, if_pos h3]⟩
  · right; right
    refine ⟨?_, by rw [if_neg h0, if_neg h1, if_neg h2, if_neg h3]⟩
    have e0 : g.CurrentPhase ≠ 0 := h0
    have e1 : g.CurrentPhase ≠ 1 := h1
    have e2 : g.CurrentPhase ≠ 2 := h2
    have e3 : g.CurrentPhase ≠ 3 := h3
    omega

theorem SeatsValid_toNat {g : GameState} (hv : g.SeatsValid) :
    g.CurrentPos.toNat < g.Players.length ∧ ((g.CurrentPos.toNat : Nat) : Int) = g.CurrentPos := by
  obtain ⟨h0, h1, _, _⟩ := hv
  exact ⟨by omega, Int.toNat_of_nonneg h0⟩

/-- The tail of `ProcessAction` on a table with valid seats: it always returns `true`; `r` is
the next acting seat found, and the round closes exactly when `r` is the last raiser or at most
one player is active. -/
theorem roundClosure_spec (g : GameState) (hv : g.SeatsValid) :
    ∃ (r : Nat) (g' : GameState), r < g.Players.length ∧
      g.findNextActivePosition g.CurrentPos = some (r : Int) ∧
      g.roundClosure = some (true, g') ∧
      (g'.Players = g.Players ∧ g'.Pot = g.Pot ∧ g'.MinRaise = g.MinRaise ∧
        g'.DealerPos = g.DealerPos ∧ g'.BigBlind = g.BigBlind ∧
        g'.SmallBlind = g.SmallBlind) ∧
      g'.SeatsValid ∧
      (seatActive g.Players g'.CurrentPos.toNat = true ∨ ∀ i, seatActive g.Players i = false) ∧
      (((r : Int) = g.LastRaisePos ∨ g.countActivePlayers ≤ 1) →
        (0 ≤ g.CurrentPhase ∧ g.CurrentPhase < 3 ∧ g'.CurrentPhase = g.CurrentPhase + 1 ∧
          g'.CurrentBet = 0 ∧ g'.LastRaisePos = -1) ∨
        (g.CurrentPhase = 3 ∧ g' = { g with CurrentPos := (r : Int), CurrentPhase := 4 }) ∨
        ((g.CurrentPhase < 0 ∨ 3 < g.CurrentPhase) ∧ g' = { g with CurrentPos := (r : Int) })) ∧
      (¬ ((r : Int) = g.LastRaisePos ∨ g.countActivePlayers ≤ 1) →
        g' = { g with CurrentPos := (r : Int) }) := by
  obtain ⟨hq, hcast⟩ := SeatsValid_toNat hv
  obtain ⟨hc0, hc1, hd0, hd1⟩ := hv
  obtain ⟨r, hr, hfn, hact, _, _⟩ := findNext_spec g g.CurrentPos.toNat hq
  rw [hcast] at hfn
  have hrv : GameState.SeatsValid { g with CurrentPos := (r : Int) } :=
    ⟨Int.natCast_nonneg r, Int.ofNat_lt.mpr hr, hd0, hd1⟩
  have hact' : seatActive g.Players ((r : Int)).toNat = true ∨
      ∀ i, seatActive g.Players i = false := by
    rw [Int.toNat_natCast]; exact hact
  by_cases hcl : (r : Int) = g.LastRaisePos ∨ g.countActivePlayers ≤ 1
  · have hcl' : (r : Int) = g.LastRaisePos ∨
        GameState.countActivePlayers { g with CurrentPos := (r : Int) } ≤ 1 := hcl
    have hunf : g.roundClosure =
        match GameState.advancePhase { g with CurrentPos := (r : Int) } with
        | none => none
        | some g2 => some (true, g2) := by
      unfold GameState.roundClosure
      simp only [hfn]
      rw [if_pos hcl']
    rcases advancePhase_spec { g with CurrentPos := (r : Int) } hd0 hd1 with
      ⟨hp0, hp1, d, c, r2, hr2, hact2, hadv⟩ | ⟨hp, hadv⟩ | ⟨hp, hadv⟩
    · refine ⟨r,
        { g with Deck := d, CommunityCards := c, CurrentPhase := g.CurrentPhase + 1,
                 CurrentBet := 0, LastRaisePos := -1, CurrentPos := (r2 : Int) },
        hr, hfn, by rw [hunf, hadv], ⟨rfl, rfl, rfl, rfl, rfl, rfl⟩,
        ⟨Int.natCast_nonneg r2, Int.ofNat_lt.mpr hr2, hd0, hd1⟩, ?_, ?_,
        fun hn => absurd hcl hn⟩
      · show seatActive g.Players ((r2 : Int)).toNat = true ∨ _
        rw [Int.toNat_natCast]; exact hact2
      · intro _
        exact Or.inl ⟨hp0, hp1, rfl, rfl, rfl⟩
    · refine ⟨r, { g with CurrentPos := (r : Int), CurrentPhase := 4 }, hr, hfn,
        by rw [hunf, hadv]; rfl, ⟨rfl, rfl, rfl, rfl, rfl, rfl⟩, hrv, hact', ?_,
        fun hn => absurd hcl hn⟩
      intro _
      exact Or.inr (Or.inl ⟨hp, rfl⟩)
    · refine ⟨r, { g with CurrentPos := (r : Int) }, hr, hfn,
        by rw [hunf, hadv], ⟨rfl, rfl, rfl, rfl, rfl, rfl⟩, hrv, hact', ?_,
        fun hn => absurd hcl hn⟩
      intro _
      exact Or.inr (Or.inr ⟨hp, rfl⟩)
  · have hcl' : ¬ ((r : Int) = g.LastRaisePos ∨
        GameState.countActivePlayers { g with CurrentPos := (r : Int) } ≤ 1) := hcl
    have hunf : g.roundClosure = some (true, { g with CurrentPos := (r : Int) }) := by
      unfold GameState.roundClosure
      simp only [hfn]
      rw [if_neg hcl']
    exact ⟨r, { g with CurrentPos := (r : Int) }, hr, hfn, hunf, ⟨rfl, rfl, rfl, rfl, rfl, rfl⟩,
      hrv, hact', fun h => absurd h hcl, fun _ => rfl⟩

/-- With two or more active players the seat found next is not the seat scanned from. -/
theorem findNext_ne_self {g : GameState} {q r : Nat} (hq : q < g.Players.length)
    (hfn : g.findNextActivePosition (q : Int) = some (r : Int))
    (hcount : 2 ≤ g.countActivePlayers) : r ≠ q := by
  obtain ⟨r', _, hfn', _, hself, _⟩ := findNext_spec g q hq
  rw [hfn] at hfn'
  have hrr : r = r' := by
    have := Option.some.inj hfn'
    omega
  intro hrq
  have h1 := filter_le_one_of_inactive g.Players q (hself (by omega))
  unfold GameState.countActivePlayers at hcount
  omega

/-- What the claims about single actions need from the round closure. -/
theorem roundClosure_summary (g : GameState) (hv : g.SeatsValid) :
    ∃ g', g.roundClosure = some (true, g') ∧ g'.Players = g.Players ∧ g'.Pot = g.Pot ∧
      g'.MinRaise = g.MinRaise ∧ g'.SeatsValid ∧
      (g'.CurrentPhase = g.CurrentPhase →
        g'.CurrentBet = g.CurrentBet ∧ g'.LastRaisePos = g.LastRaisePos) ∧
      (g.LastRaisePos = g.CurrentPos → 2 ≤ g.countActivePlayers →
        g'.CurrentPhase = g.CurrentPhase) := by
  obtain ⟨r, g', hr, hfn, hrc, ⟨hP, hPot, hMin, _, _, _⟩, hv', _, hclose, hopen⟩ :=
    roundClosure_spec g hv
  refine ⟨g', hrc, hP, hPot, hMin, hv', ?_, ?_⟩
  · intro hph
    by_cases hcl : (r : Int) = g.LastRaisePos ∨ g.countActivePlayers ≤ 1
    · rcases hclose hcl with ⟨_, _, h1, _, _⟩ | ⟨h3, hg⟩ | ⟨_, hg⟩
      · omega
      · rw [hg] at hph
        simp only at hph
        omega
      · rw [hg]; exact ⟨rfl, rfl⟩
    · rw [hopen hcl]; exact ⟨rfl, rfl⟩
  · intro hl hcount
    obtain ⟨hq, hcast⟩ := SeatsValid_toNat hv
    have hne : r ≠ g.CurrentPos.toNat := by
      apply findNext_ne_self hq _ hcount
      rw [hcast]; exact hfn
    have hcl : ¬ ((r : Int) = g.LastRaisePos ∨ g.countActivePlayers ≤ 1) := by
      rintro (h | h)
      · rw [hl, ← hcast] at h
        exact hne (Int.ofNat_inj.mp h)
      · omega
    rw [hopen hcl]

theorem withPlayer_SeatsValid {g : GameState} (hv : g.SeatsValid) (p : Player) :
    (g.withPlayer p).SeatsValid := by
  unfold GameState.SeatsValid GameState.withPlayer at *
  simpa using hv

theorem playerAt_withPlayer {g : GameState} (hv : g.SeatsValid) (p : Player) :
    playerAt (g.withPlayer p).Players g.CurrentPos = some p := by
  obtain ⟨hq, _⟩ := SeatsValid_toNat hv
  obtain ⟨h0, _, _, _⟩ := hv
  unfold playerAt GameState.withPlayer
  rw [if_neg (by omega)]
  simp [hq]

theorem PlaceBet_accepted {p : Player} {amount : Int} (h : amount ≤ p.Chips) :
    (p.PlaceBet amount).1 = true ∧ (p.PlaceBet amount).2.Chips = p.Chips - amount ∧
    (p.PlaceBet amount).2.Bet = p.Bet + amount ∧
    ((p.PlaceBet amount).2.Status =
      if p.Chips - amount = 0 then AllInStatus else p.Status) := by
  unfold Player.PlaceBet
  rw [if_neg (by omega)]
  by_cases hz : p.Chips - amount = 0 <;> simp [hz]

/-- `ProcessAction` with the acting player looked up and the `switch` resolved. -/
theorem ProcessAction_eq {g : GameState} {player : Player}
    (hp : playerAt g.Players g.CurrentPos = some player) (amount : Int) :
    g.ProcessAction Fold amount = (g.withPlayer player.Fold).roundClosure ∧
    g.ProcessAction Check amount =
      (if g.CurrentBet > player.Bet then some (false, g) else g.roundClosure) ∧
    g.ProcessAction Call amount =
      (if !(player.PlaceBet (g.CurrentBet - player.Bet)).1 then
        some (false, g.withPlayer (player.PlaceBet (g.CurrentBet - player.Bet)).2)
      else GameState.roundClosure
        { g.withPlayer (player.PlaceBet (g.CurrentBet - player.Bet)).2 with
          Pot := g.Pot + (g.CurrentBet - player.Bet) }) ∧
    g.ProcessAction Bet amount =
      (if g.CurrentBet > 0 then some (false, g)
      else if amount < g.BigBlind then some (false, g)
      else if !(player.PlaceBet amount).1 then
        some (false, g.withPlayer (player.PlaceBet amount).2)
      else GameState.roundClosure
        { g.withPlayer (player.PlaceBet amount).2 with
          Pot := g.Pot + amount, CurrentBet := amount, LastRaisePos := g.CurrentPos,
          MinRaise := amount }) ∧
    g.ProcessAction Raise amount =
      (if amount < g.MinRaise then some (false, g)
      else if !(player.PlaceBet (g.CurrentBet - player.Bet + amount)).1 then
        some (false, g.withPlayer (player.PlaceBet (g.CurrentBet - player.Bet + amount)).2)
      else GameState.roundClosure
        { g.withPlayer (player.PlaceBet (g.CurrentBet - player.Bet + amount)).2 with
          Pot := g.Pot + (g.CurrentBet - player.Bet + amount),
          CurrentBet := (player.PlaceBet (g.CurrentBet - player.Bet + amount)).2.Bet,
          LastRaisePos := g.CurrentPos, MinRaise := amount }) ∧
    g.ProcessAction AllIn amount =
      (if (player.PlaceBet player.Chips).2.Bet > g.CurrentBet then
        GameState.roundClosure
          { g.withPlayer (player.PlaceBet player.Chips).2 with
            Pot := g.Pot + player.Chips,
            CurrentBet := (player.PlaceBet player.Chips).2.Bet,
            LastRaisePos := g.CurrentPos,
            MinRaise := (player.PlaceBet player.Chips).2.Bet -
              ((player.PlaceBet player.Chips).2.Bet - player.Chips) }
      else GameState.roundClosure
        { g.withPlayer (player.PlaceBet player.Chips).2 with
          Pot := g.Pot + player.Chips }) := by
  unfold GameState.ProcessAction
  simp only [hp]
  refine ⟨?_, ?_, ?_, ?_, ?_, ?_⟩ <;>
    simp only [Fold, Check, Call, Bet, Raise, AllIn] <;> norm_num <;> rfl

/-! ## Rejected actions -/

/-- C1: whenever ProcessAction returns false the whole game state is the one it was called on,
and a Raise by less than MinRaise (at a seat that exists) returns false with that state. -/
theorem ProcessAction_rejected_unchanged (g : GameState) (action : PlayerAction)
    (amount : Int) :
    (∀ g', g.ProcessAction action amount = some (false, g') → g' = g) ∧
    (∀ p, playerAt g.Players g.CurrentPos = some p → amount < g.MinRaise →
      g.ProcessAction Raise amount = some (false, g)) := by
  constructor
  · intro g' h
    unfold GameState.ProcessAction at h
    split at h
    · simp at h
    · rename_i player hp
      have key : ∀ amt : Int, (!(player.PlaceBet amt).1) = true →
          g.withPlayer (player.PlaceBet amt).2 = g := by
        intro amt hb
        rw [(PlaceBet_rejected (by simpa using hb)).2, withPlayer_self hp]
      have noClose : ∀ (x : GameState), x.roundClosure = some (false, g') → False := by
        intro x hx
        have := roundClosure_accepts hx
        simp at this
      simp only at h
      split_ifs at h with h1 h2 h3 h4 h5 h6 h7 h8 h9 h10 h11 h12 h13 h14
      all_goals first
        | exact (noClose _ h).elim
        | (simp only [Option.some.injEq, Prod.mk.injEq, true_and] at h
           first
            | exact h.symm
            | (rw [← h]; apply key; assumption))
  · intro p hp hlt
    unfold GameState.ProcessAction
    simp [hp, Raise, Fold, Check, Call, Bet, hlt]

theorem ProcessAction_rejected_unchanged_witness :
    table4.ProcessAction Raise 5 = some (false, table4) ∧
    (table4.ProcessAction Raise 5 = some (false, table4) → table4 = table4) :=
  ⟨(ProcessAction_rejected_unchanged table4 Raise 5).2 (seat "a" 1000 0 Active 0)
      (by decide) (by decide),
   (ProcessAction_rejected_unchanged table4 Raise 5).1 table4⟩


/-! ## Check -/

/-- C2, amended: on a table with valid seats, Check is accepted exactly when CurrentBet is at
most the acting player's Bet (the guard rejects only a CurrentBet above that Bet), and a
rejected Check leaves the state unchanged. -/
theorem Check_accepted_iff (g : GameState) (amount : Int) (p : Player)
    (hv : g.SeatsValid) (hp : playerAt g.Players g.CurrentPos = some p) :
    ((∃ g', g.ProcessAction Check amount = some (true, g')) ↔ g.CurrentBet ≤ p.Bet) ∧
    (p.Bet < g.CurrentBet → g.ProcessAction Check amount = some (false, g)) := by
  have hE := (ProcessAction_eq hp amount).2.1
  obtain ⟨g', hrc, _⟩ := roundClosure_summary g hv
  refine ⟨⟨?_, ?_⟩, ?_⟩
  · rintro ⟨g1, h1⟩
    by_contra hlt
    rw [hE, if_pos (by omega)] at h1
    simp at h1
  · intro hle
    exact ⟨g', by rw [hE, if_neg (by omega), hrc]⟩
  · intro hlt
    rw [hE, if_pos (by omega)]

theorem Check_accepted_iff_witness :
    (∃ g', tableStale.ProcessAction Check 0 = some (true, g')) ∧
    tableBet.ProcessAction Check 0 = some (false, tableBet) :=
  ⟨(Check_accepted_iff tableStale 0 (seat "a" 980 20 Active 0) (by decide) (by decide)).1.mpr
     (by decide),
   (Check_accepted_iff tableBet 0 (seat "b" 1000 0 Active 1) (by decide) (by decide)).2
     (by decide)⟩

/-- C2 as stated fails: on the flop of `tableStale` the table's CurrentBet (0) differs from
the acting player's Bet (20), yet Check is accepted. -/
theorem Check_accepted_with_unequal_bets :
    tableStale.SeatsValid ∧
    playerAt tableStale.Players tableStale.CurrentPos = some (seat "a" 980 20 Active 0) ∧
    ¬ ((∃ g', tableStale.ProcessAction Check 0 = some (true, g')) ↔
        tableStale.CurrentBet = (seat "a" 980 20 Active 0).Bet) := by
  refine ⟨by decide, by decide, ?_⟩
  intro h
  have hacc : ∃ g', tableStale.ProcessAction Check 0 = some (true, g') :=
    ⟨{ tableStale with CurrentPos := 1 }, by decide⟩
  exact absurd (h.mp hacc) (by decide)

/-! ## Call -/

/-- C3: Call debits CurrentBet minus the acting player's Bet.  With a stack of at least that
difference the call is accepted, the stack goes down and the pot up by the difference and the
player's Bet becomes the CurrentBet before the action; with a smaller stack the call is
rejected and the state is unchanged. -/
theorem Call_debits_difference (g : GameState) (amount : Int) (p : Player)
    (hv : g.SeatsValid) (hp : playerAt g.Players g.CurrentPos = some p) :
    (g.CurrentBet - p.Bet ≤ p.Chips →
      ∃ g' p', g.ProcessAction Call amount = some (true, g') ∧
        playerAt g'.Players g.CurrentPos = some p' ∧
        p'.Chips = p.Chips - (g.CurrentBet - p.Bet) ∧
        g'.Pot = g.Pot + (g.CurrentBet - p.Bet) ∧
        p'.Bet = g.CurrentBet) ∧
    (p.Chips < g.CurrentBet - p.Bet → g.ProcessAction Call amount = some (false, g)) := by
  have hE := (ProcessAction_eq hp amount).2.2.1
  constructor
  · intro hle
    obtain ⟨hok, hchips, hbet, _⟩ := PlaceBet_accepted hle
    have hv1 : GameState.SeatsValid
        { g.withPlayer (p.PlaceBet (g.CurrentBet - p.Bet)).2 with
          Pot := g.Pot + (g.CurrentBet - p.Bet) } := withPlayer_SeatsValid hv _
    obtain ⟨g', hrc, hP, hPot, _⟩ := roundClosure_summary _ hv1
    refine ⟨g', (p.PlaceBet (g.CurrentBet - p.Bet)).2, ?_, ?_, hchips, hPot, ?_⟩
    · rw [hE, hok]; exact hrc
    · rw [hP]; exact playerAt_withPlayer hv _
    · rw [hbet]; ring
  · intro hlt
    have hrej : (p.PlaceBet (g.CurrentBet - p.Bet)).1 = false := by
      unfold Player.PlaceBet
      rw [if_pos (by omega)]
    rw [hE, hrej, (PlaceBet_rejected hrej).2, withPlayer_self hp]
    rfl

theorem Call_debits_difference_witness :
    (∃ g' p', tableBet.ProcessAction Call 0 = some (true, g') ∧
      playerAt g'.Players tableBet.CurrentPos = some p' ∧
      p'.Chips = (seat "b" 1000 0 Active 1).Chips -
        (tableBet.CurrentBet - (seat "b" 1000 0 Active 1).Bet) ∧
      g'.Pot = tableBet.Pot + (tableBet.CurrentBet - (seat "b" 1000 0 Active 1).Bet) ∧
      p'.Bet = tableBet.CurrentBet) ∧
    tableShort.ProcessAction Call 0 = some (false, tableShort) :=
  ⟨(Call_debits_difference tableBet 0 (seat "b" 1000 0 Active 1) (by decide) (by decide)).1
      (by decide),
   (Call_debits_difference tableShort 0 (seat "c" 30 0 Active 2) (by decide) (by decide)).2
      (by decide)⟩


/-! ## Bet, Raise and AllIn -/

theorem countActive_congr {g g' : GameState} (h : g'.Players = g.Players) :
    g'.countActivePlayers = g.countActivePlayers := by
  unfold GameState.countActivePlayers
  rw [h]

/-- C4: with CurrentBet at least 0, Bet is accepted exactly when CurrentBet is 0, the amount is
at least the big blind and at most the acting player's stack; an accepted Bet that leaves at
least two players Active sets CurrentBet and MinRaise to the amount, LastRaisePos to the
bettor's seat and adds the amount to the pot. -/
theorem Bet_accepted_iff (g : GameState) (amount : Int) (p : Player)
    (hv : g.SeatsValid) (hp : playerAt g.Players g.CurrentPos = some p)
    (hcb : 0 ≤ g.CurrentBet) :
    ((∃ g', g.ProcessAction Bet amount = some (true, g')) ↔
      (g.CurrentBet = 0 ∧ g.BigBlind ≤ amount ∧ amount ≤ p.Chips)) ∧
    (∀ g', g.ProcessAction Bet amount = some (true, g') → 2 ≤ g'.countActivePlayers →
      g'.CurrentBet = amount ∧ g'.LastRaisePos = g.CurrentPos ∧ g'.MinRaise = amount ∧
      g'.Pot = g.Pot + amount) := by
  have hE := (ProcessAction_eq hp amount).2.2.2.1
  have hv1 : GameState.SeatsValid
      { g.withPlayer (p.PlaceBet amount).2 with
        Pot := g.Pot + amount, CurrentBet := amount, LastRaisePos := g.CurrentPos,
        MinRaise := amount } := withPlayer_SeatsValid hv _
  obtain ⟨g1, hrc, hP, hPot, hMin, _, hsame, hkeep⟩ := roundClosure_summary _ hv1
  have hacc : g.CurrentBet = 0 → g.BigBlind ≤ amount → amount ≤ p.Chips →
      g.ProcessAction Bet amount = some (true, g1) := by
    intro h0 h1 h2
    rw [hE, if_neg (by omega), if_neg (by omega), (PlaceBet_accepted h2).1]
    exact hrc
  have hrej : ¬ (g.CurrentBet = 0 ∧ g.BigBlind ≤ amount ∧ amount ≤ p.Chips) →
      g.ProcessAction Bet amount = some (false, g) := by
    intro hn
    rw [hE]
    by_cases h0 : g.CurrentBet > 0
    · rw [if_pos h0]
    rw [if_neg h0]
    by_cases h1 : amount < g.BigBlind
    · rw [if_pos h1]
    rw [if_neg h1]
    have hb : (p.PlaceBet amount).1 = false := by
      unfold Player.PlaceBet
      rw [if_pos (by by_contra hc; exact hn ⟨by omega, by omega, by omega⟩)]
    rw [hb, (PlaceBet_rejected hb).2, withPlayer_self hp]
    rfl
  refine ⟨⟨?_, fun ⟨h0, h1, h2⟩ => ⟨g1, hacc h0 h1 h2⟩⟩, ?_⟩
  · rintro ⟨g', h⟩
    by_contra hn
    rw [hrej hn] at h
    simp at h
  · intro g' h hcount
    by_cases hc : g.CurrentBet = 0 ∧ g.BigBlind ≤ amount ∧ amount ≤ p.Chips
    · rw [hacc hc.1 hc.2.1 hc.2.2] at h
      have hg : g1 = g' := by simpa using h
      subst hg
      rw [countActive_congr hP] at hcount
      obtain ⟨h1, h2⟩ := hsame (hkeep rfl hcount)
      exact ⟨h1, h2, hMin, hPot⟩
    · rw [hrej hc] at h
      simp at h

theorem Bet_accepted_iff_witness :
    (∃ g', table4.ProcessAction Bet 40 = some (true, g')) ∧
    (table4Bet.CurrentBet = 40 ∧ table4Bet.LastRaisePos = table4.CurrentPos ∧
      table4Bet.MinRaise = 40 ∧ table4Bet.Pot = table4.Pot + 40) :=
  ⟨(Bet_accepted_iff table4 40 (seat "a" 1000 0 Active 0) (by decide) (by decide)
      (by decide)).1.mpr (by decide),
   (Bet_accepted_iff table4 40 (seat "a" 1000 0 Active 0) (by decide) (by decide)
      (by decide)).2 table4Bet (by decide) (by decide)⟩

/-- Raise over exact integers: it takes the amount as the increment above the current bet.  It is accepted exactly
when the amount is at least MinRaise and the stack covers CurrentBet - Bet + amount; then the
player pays that sum into the pot, the player's Bet is the old CurrentBet plus the amount,
MinRaise is the amount and, with at least two players Active afterwards, CurrentBet is that new
Bet and LastRaisePos is the raiser's seat. -/
theorem Raise_accepted_iff (g : GameState) (amount : Int) (p : Player)
    (hv : g.SeatsValid) (hp : playerAt g.Players g.CurrentPos = some p) :
    ((∃ g', g.ProcessAction Raise amount = some (true, g')) ↔
      (g.MinRaise ≤ amount ∧ g.CurrentBet - p.Bet + amount ≤ p.Chips)) ∧
    (∀ g', g.ProcessAction Raise amount = some (true, g') →
      (∃ p', playerAt g'.Players g.CurrentPos = some p' ∧
        p'.Chips = p.Chips - (g.CurrentBet - p.Bet + amount) ∧
        p'.Bet = g.CurrentBet + amount) ∧
      g'.Pot = g.Pot + (g.CurrentBet - p.Bet + amount) ∧ g'.MinRaise = amount ∧
      (2 ≤ g'.countActivePlayers →
        g'.CurrentBet = g.CurrentBet + amount ∧ g'.LastRaisePos = g.CurrentPos)) := by
  have hE := (ProcessAction_eq hp amount).2.2.2.2.1
  have hv1 : GameState.SeatsValid
      { g.withPlayer (p.PlaceBet (g.CurrentBet - p.Bet + amount)).2 with
        Pot := g.Pot + (g.CurrentBet - p.Bet + amount),
        CurrentBet := (p.PlaceBet (g.CurrentBet - p.Bet + amount)).2.Bet,
        LastRaisePos := g.CurrentPos, MinRaise := amount } := withPlayer_SeatsValid hv _
  obtain ⟨g1, hrc, hP, hPot, hMin, _, hsame, hkeep⟩ := roundClosure_summary _ hv1
  have hacc : g.MinRaise ≤ amount → g.CurrentBet - p.Bet + amount ≤ p.Chips →
      g.ProcessAction Raise amount = some (true, g1) := by
    intro h1 h2
    rw [hE, if_neg (by omega), (PlaceBet_accepted h2).1]
    exact hrc
  have hrej : ¬ (g.MinRaise ≤ amount ∧ g.CurrentBet - p.Bet + amount ≤ p.Chips) →
      g.ProcessAction Raise amount = some (false, g) := by
    intro hn
    rw [hE]
    by_cases h1 : amount < g.MinRaise
    · rw [if_pos h1]
    rw [if_neg h1]
    have hb : (p.PlaceBet (g.CurrentBet - p.Bet + amount)).1 = false := by
      unfold Player.PlaceBet
      rw [if_pos (by by_contra hc; exact hn ⟨by omega, by omega⟩)]
    rw [hb, (PlaceBet_rejected hb).2, withPlayer_self hp]
    rfl
  refine ⟨⟨?_, fun ⟨h1, h2⟩ => ⟨g1, hacc h1 h2⟩⟩, ?_⟩
  · rintro ⟨g', h⟩
    by_contra hn
    rw [hrej hn] at h
    simp at h
  · intro g' h
    by_cases hc : g.MinRaise ≤ amount ∧ g.CurrentBet - p.Bet + amount ≤ p.Chips
    · rw [hacc hc.1 hc.2] at h
      have hg : g1 = g' := by simpa using h
      subst hg
      obtain ⟨_, hchips, hbet, _⟩ := PlaceBet_accepted hc.2
      have hbet' : (p.PlaceBet (g.CurrentBet - p.Bet + amount)).2.Bet = g.CurrentBet + amount := by
        rw [hbet]; ring
      refine ⟨⟨_, by rw [hP]; exact playerAt_withPlayer hv _, hchips, hbet'⟩, hPot, hMin, ?_⟩
      intro hcount
      rw [countActive_congr hP] at hcount
      obtain ⟨h1, h2⟩ := hsame (hkeep rfl hcount)
      exact ⟨by rw [h1]; exact hbet', h2⟩
    · rw [hrej hc] at h
      simp at h

theorem Raise_accepted_iff_witness :
    (∃ g', tableBet.ProcessAction Raise 60 = some (true, g')) ∧
    ((∃ p', playerAt tableBetRaise.Players tableBet.CurrentPos = some p' ∧
        p'.Chips = (seat "b" 1000 0 Active 1).Chips -
          (tableBet.CurrentBet - (seat "b" 1000 0 Active 1).Bet + 60) ∧
        p'.Bet = tableBet.CurrentBet + 60) ∧
      tableBetRaise.Pot =
        tableBet.Pot + (tableBet.CurrentBet - (seat "b" 1000 0 Active 1).Bet + 60) ∧
      tableBetRaise.MinRaise = 60) ∧
    (tableBetRaise.CurrentBet = tableBet.CurrentBet + 60 ∧
      tableBetRaise.LastRaisePos = tableBet.CurrentPos) :=
  ⟨(Raise_accepted_iff tableBet 60 (seat "b" 1000 0 Active 1) (by decide) (by decide)).1.mpr
     (by decide),
   ⟨((Raise_accepted_iff tableBet 60 (seat "b" 1000 0 Active 1) (by decide) (by decide)).2
      tableBetRaise (by decide)).1,
    ((Raise_accepted_iff tableBet 60 (seat "b" 1000 0 Active 1) (by decide) (by decide)).2
      tableBetRaise (by decide)).2.1,
    ((Raise_accepted_iff tableBet 60 (seat "b" 1000 0 Active 1) (by decide) (by decide)).2
      tableBetRaise (by decide)).2.2.1⟩,
   ((Raise_accepted_iff tableBet 60 (seat "b" 1000 0 Active 1) (by decide) (by decide)).2
      tableBetRaise (by decide)).2.2.2 (by decide)⟩

/-- C6, amended: a short all-in (Bet plus stack below CurrentBet) is accepted, adds exactly the
remaining stack to the pot, leaves the player with stack 0 and status AllIn and never changes
MinRaise; CurrentBet and LastRaisePos are unchanged whenever the action does not move the
phase, that is, unless it closes the betting round and a new street is dealt. -/
theorem AllIn_short (g : GameState) (amount : Int) (p : Player)
    (hv : g.SeatsValid) (hp : playerAt g.Players g.CurrentPos = some p)
    (hshort : p.Bet + p.Chips < g.CurrentBet) :
    ∃ g' p', g.ProcessAction AllIn amount = some (true, g') ∧
      g'.Pot = g.Pot + p.Chips ∧
      playerAt g'.Players g.CurrentPos = some p' ∧ p'.Chips = 0 ∧ p'.Status = AllInStatus ∧
      g'.MinRaise = g.MinRaise ∧
      (g'.CurrentPhase = g.CurrentPhase →
        g'.CurrentBet = g.CurrentBet ∧ g'.LastRaisePos = g.LastRaisePos) := by
  have hE := (ProcessAction_eq hp amount).2.2.2.2.2
  obtain ⟨_, hchips, hbet, hstatus⟩ := PlaceBet_accepted (le_refl p.Chips)
  have hv1 : GameState.SeatsValid
      { g.withPlayer (p.PlaceBet p.Chips).2 with Pot := g.Pot + p.Chips } :=
    withPlayer_SeatsValid hv _
  obtain ⟨g1, hrc, hP, hPot, hMin, _, hsame, _⟩ := roundClosure_summary _ hv1
  refine ⟨g1, (p.PlaceBet p.Chips).2, ?_, hPot, ?_, ?_, ?_, hMin, hsame⟩
  · rw [hE, if_neg (by rw [hbet]; omega)]
    exact hrc
  · rw [hP]; exact playerAt_withPlayer hv _
  · rw [hchips]; ring
  · rw [hstatus, if_pos (by ring)]

theorem AllIn_short_witness :
    ∃ g' p', tableShortOpen.ProcessAction AllIn 0 = some (true, g') ∧
      g'.Pot = tableShortOpen.Pot + (seat "c" 30 0 Active 2).Chips ∧
      playerAt g'.Players tableShortOpen.CurrentPos = some p' ∧ p'.Chips = 0 ∧
      p'.Status = AllInStatus ∧ g'.MinRaise = tableShortOpen.MinRaise ∧
      g'.CurrentPhase = tableShortOpen.CurrentPhase ∧
      g'.CurrentBet = tableShortOpen.CurrentBet ∧
      g'.LastRaisePos = tableShortOpen.LastRaisePos := by
  obtain ⟨g', p', h, hpot, hpl, hch, hst, hmin, hkeep⟩ :=
    AllIn_short tableShortOpen 0 (seat "c" 30 0 Active 2) (by decide) (by decide) (by decide)
  have hrun : tableShortOpen.ProcessAction AllIn 0 = some (true, tableShortOpenAllIn) := by
    decide
  have hg : tableShortOpenAllIn = g' := by
    rw [hrun] at h
    simpa using h
  have hphase : g'.CurrentPhase = tableShortOpen.CurrentPhase := by
    rw [← hg]; decide
  exact ⟨g', p', h, hpot, hpl, hch, hst, hmin, hphase, hkeep hphase⟩

/-- C6 as stated fails: in `tableShort` the short all-in of seat 2 hands the action back to the
last raiser, the round closes, the turn is dealt and CurrentBet and LastRaisePos are reset. -/
theorem AllIn_short_resets_on_close :
    tableShort.SeatsValid ∧
    playerAt tableShort.Players tableShort.CurrentPos = some (seat "c" 30 0 Active 2) ∧
    (seat "c" 30 0 Active 2).Bet + (seat "c" 30 0 Active 2).Chips < tableShort.CurrentBet ∧
    ∃ g', tableShort.ProcessAction AllIn 0 = some (true, g') ∧
      2 ≤ g'.countActivePlayers ∧ g'.CurrentPhase = Turn ∧
      g'.CurrentBet = 0 ∧ tableShort.CurrentBet = 100 ∧
      g'.LastRaisePos = -1 ∧ tableShort.LastRaisePos = 0 := by
  refine ⟨by decide, by decide, by decide, ?_⟩
  refine ⟨{ tableShort with
      Players := [seat "a" 900 100 Active 0, seat "b" 900 100 Active 1,
        seat "c" 0 30 AllInStatus 2],
      Deck := { Cards := [⟨4, 0⟩, ⟨5, 0⟩, ⟨6, 0⟩, ⟨7, 0⟩] },
      CommunityCards := [⟨14, 1⟩, ⟨13, 1⟩, ⟨12, 1⟩, ⟨3, 0⟩],
      CurrentPhase := Turn, Pot := 290, CurrentBet := 0, LastRaisePos := -1,
      CurrentPos := 0 }, by decide, by decide, by decide, by decide, by decide, by decide,
    by decide⟩



/-! ## Showdown and hand evaluation -/

/-- C9, the code at the failing input: the call of seat 3 in `tableRiver` moves the phase from
River to Showdown, and afterwards the pot of 200 is still on the table while no stack has
grown (seat 3 paid its call of 50, the other stacks are as before): `determineWinners` hands
out nothing. -/
theorem showdown_leaves_pot_undistributed :
    ∃ g', tableRiver.ProcessAction Call 0 = some (true, g') ∧
      tableRiver.CurrentPhase = River ∧ g'.CurrentPhase = Showdown ∧
      tableRiver.Pot + 50 = 200 ∧ g'.Pot = 200 ∧
      tableRiver.Players.map (fun p => p.Chips) = [950, 950, 950, 1000] ∧
      g'.Players.map (fun p => p.Chips) = [950, 950, 950, 950] := by
  refine ⟨{ tableRiver with
      Players := [
        { seat "a" 950 50 Active 0 with Cards := [⟨Ace, Spades⟩, ⟨Ace, Hearts⟩] },
        { seat "b" 950 50 Active 1 with Cards := [⟨King, Spades⟩, ⟨Queen, Hearts⟩] },
        { seat "c" 950 50 Active 2 with Cards := [⟨Nine, Clubs⟩, ⟨Eight, Clubs⟩] },
        { seat "d" 950 50 Active 3 with Cards := [⟨Seven, Diamonds⟩, ⟨Two, Spades⟩] }],
      CurrentPhase := Showdown, Pot := 200, CurrentPos := 0 }, by decide, by decide, by decide,
    by decide, by decide, by decide, by decide⟩

/-- C10, the code at the failing input: on the seven cards Ah Kh Qh Jh Th 2c 3c `EvaluateHand`
returns the category HighCard, not RoyalFlush, because `checkRoyalFlush` is a placeholder. -/
theorem EvaluateHand_royalSeven :
    5 ≤ royalSeven.length ∧ (EvaluateHand royalSeven).Rank = HighCard ∧
    (EvaluateHand royalSeven).Rank ≠ RoyalFlush := by
  refine ⟨by decide, by decide, by decide⟩



/-! ## Folding down to one player -/

theorem seatActive_of_playerAt {ps : List Player} {i : Int} {p : Player}
    (hp : playerAt ps i = some p) (ha : p.Status = Active) : seatActive ps i.toNat = true := by
  obtain ⟨_, _, hget⟩ := playerAt_eq_some hp
  simp [seatActive, hget, Player.IsActive, ha]

theorem playerAt_of_seatActive {g : GameState} (hv : g.SeatsValid)
    (ha : seatActive g.Players g.CurrentPos.toNat = true) :
    ∃ p, playerAt g.Players g.CurrentPos = some p ∧ p.Status = Active := by
  obtain ⟨hq, _⟩ := SeatsValid_toNat hv
  refine ⟨g.Players[g.CurrentPos.toNat], ?_, ?_⟩
  · unfold playerAt
    rw [if_neg (by have := hv.1; omega), List.getElem?_eq_getElem hq]
  · simpa [seatActive, List.getElem?_eq_getElem hq, Player.IsActive] using ha

/-- One Fold by an active acting player: it is accepted, the active count drops by one, the
seat found next is active if anyone is, the phase stays or advances by one step (a new street
resets the last raiser to -1), and with no last raiser and two players left it stays. -/
theorem Fold_step (g : GameState) (amount : Int) (hv : g.SeatsValid)
    (hact : seatActive g.Players g.CurrentPos.toNat = true) :
    ∃ g', g.ProcessAction Fold amount = some (true, g') ∧ g'.SeatsValid ∧
      g'.countActivePlayers + 1 = g.countActivePlayers ∧
      (1 ≤ g'.countActivePlayers → seatActive g'.Players g'.CurrentPos.toNat = true) ∧
      ((g'.CurrentPhase = g.CurrentPhase ∧ g'.LastRaisePos = g.LastRaisePos) ∨
        (g'.CurrentPhase = g.CurrentPhase + 1 ∧ 0 ≤ g.CurrentPhase ∧ g.CurrentPhase ≤ 3 ∧
          (g.CurrentPhase < 3 → g'.LastRaisePos = -1))) ∧
      (2 ≤ g'.countActivePlayers → g.LastRaisePos = -1 →
        g'.CurrentPhase = g.CurrentPhase ∧ g'.LastRaisePos = -1) := by
  obtain ⟨p, hp, hpa⟩ := playerAt_of_seatActive hv hact
  have hE := (ProcessAction_eq hp amount).1
  have hfold : p.Fold.IsActive = false := by
    simp [Player.Fold, Player.IsActive, Folded, Active]
  have hv1 : (g.withPlayer p.Fold).SeatsValid := withPlayer_SeatsValid hv _
  obtain ⟨r, g', hr, hfn, hrc, ⟨hP, _, _, _, _, _⟩, hv', hnext, hclose, hopen⟩ :=
    roundClosure_spec _ hv1
  have hcount1 : (g.withPlayer p.Fold).countActivePlayers + 1 = g.countActivePlayers := by
    unfold GameState.countActivePlayers GameState.withPlayer
    have := filter_set_inactive g.Players g.CurrentPos.toNat p.Fold hact hfold
    simp only
    omega
  have hcount : g'.countActivePlayers = (g.withPlayer p.Fold).countActivePlayers :=
    countActive_congr hP
  refine ⟨g', by rw [hE]; exact hrc, hv', by omega, ?_, ?_, ?_⟩
  · intro h1
    rw [hP]
    rcases hnext with h | h
    · exact h
    · have := filter_nil_of_inactive _ h
      unfold GameState.countActivePlayers at hcount h1
      rw [hcount, this] at h1
      simp at h1
  · by_cases hcl : (r : Int) = (g.withPlayer p.Fold).LastRaisePos ∨
        (g.withPlayer p.Fold).countActivePlayers ≤ 1
    · rcases hclose hcl with ⟨h0, h3, h1, _, hl⟩ | ⟨h3, hg⟩ | ⟨_, hg⟩
      · have h3' : g.CurrentPhase < 3 := h3
        exact Or.inr ⟨h1, h0, by omega, fun _ => hl⟩
      · right
        have h3' : g.CurrentPhase = 3 := h3
        rw [hg]
        exact ⟨by simp only; omega, by omega, by omega, fun h => by omega⟩
      · left
        rw [hg]
        exact ⟨rfl, rfl⟩
    · left
      rw [hopen hcl]
      exact ⟨rfl, rfl⟩
  · intro h2 hl
    have hcl : ¬ ((r : Int) = (g.withPlayer p.Fold).LastRaisePos ∨
        (g.withPlayer p.Fold).countActivePlayers ≤ 1) := by
      rintro (h | h)
      · have : (g.withPlayer p.Fold).LastRaisePos = -1 := hl
        omega
      · omega
    rw [hopen hcl]
    exact ⟨rfl, hl⟩

/-- C8, amended: on a table with valid seats, exactly four Active players and an Active player
to act, three successive Folds are all accepted; afterwards exactly one player is Active,
IsHandOver() is true and the phase has advanced by at most two steps, so Showdown has not been
reached when the folds began in PreFlop or Flop. -/
theorem fold_to_one (g : GameState) (a1 a2 a3 : Int) (p : Player)
    (hv : g.SeatsValid) (hp : playerAt g.Players g.CurrentPos = some p)
    (hpa : p.Status = Active) (h4 : g.countActivePlayers = 4) :
    ∃ g1 g2 g3, g.ProcessAction Fold a1 = some (true, g1) ∧
      g1.ProcessAction Fold a2 = some (true, g2) ∧
      g2.ProcessAction Fold a3 = some (true, g3) ∧
      g3.countActivePlayers = 1 ∧ g3.IsHandOver = true ∧
      g3.CurrentPhase ≤ g.CurrentPhase + 2 ∧
      (g.CurrentPhase = PreFlop ∨ g.CurrentPhase = Flop → g3.CurrentPhase ≠ Showdown) := by
  obtain ⟨g1, hs1, hv1, hc1, ha1, hph1, _⟩ :=
    Fold_step g a1 hv (seatActive_of_playerAt hp hpa)
  obtain ⟨g2, hs2, hv2, hc2, ha2, hph2, hk2⟩ := Fold_step g1 a2 hv1 (ha1 (by omega))
  obtain ⟨g3, hs3, _, hc3, _, hph3, _⟩ := Fold_step g2 a3 hv2 (ha2 (by omega))
  have hone : g3.countActivePlayers = 1 := by omega
  have hk2' := hk2 (by omega)
  have hbound : g3.CurrentPhase ≤ g.CurrentPhase + 2 := by
    rcases hph1 with ⟨e1, l1⟩ | ⟨e1, _, _, l1⟩ <;>
    rcases hph2 with ⟨e2, l2⟩ | ⟨e2, _, _, l2⟩ <;>
    rcases hph3 with ⟨e3, l3⟩ | ⟨e3, _, _, l3⟩ <;>
    omega
  refine ⟨g1, g2, g3, hs1, hs2, hs3, hone, ?_, hbound, ?_⟩
  · unfold GameState.IsHandOver
    simp [hone]
  · intro hph
    have h0 : g.CurrentPhase = 0 ∨ g.CurrentPhase = 1 := hph
    have hS : Showdown = (4 : Int) := rfl
    rw [hS]
    omega

theorem fold_to_one_witness :
    ∃ g1 g2 g3, table4.ProcessAction Fold 0 = some (true, g1) ∧
      g1.ProcessAction Fold 0 = some (true, g2) ∧
      g2.ProcessAction Fold 0 = some (true, g3) ∧
      g3.countActivePlayers = 1 ∧ g3.IsHandOver = true ∧
      g3.CurrentPhase ≤ table4.CurrentPhase + 2 ∧ g3.CurrentPhase ≠ Showdown := by
  obtain ⟨g1, g2, g3, h1, h2, h3, hc, ho, hb, hs⟩ :=
    fold_to_one table4 0 0 0 (seat "a" 1000 0 Active 0) (by decide) (by decide) (by decide)
      (by decide)
  exact ⟨g1, g2, g3, h1, h2, h3, hc, ho, hb, hs (Or.inr (by decide))⟩

/-- C8 as stated fails: in `tableRiverOpen` (four Active players, pot 150) the three Folds of
seats 0, 1 and 2 end in phase Showdown, with the pot of 150 still on the table and the stack
of seat 3, the one player left, still 1000. -/
theorem fold_to_one_reaches_showdown :
    tableRiverOpen.SeatsValid ∧ tableRiverOpen.countActivePlayers = 4 ∧
    tableRiverOpen.Pot = 150 ∧
    playerAt tableRiverOpen.Players 3 = some (seat "d" 1000 0 Active 3) ∧
    ∃ g1 g2 g3, tableRiverOpen.ProcessAction Fold 0 = some (true, g1) ∧
      g1.ProcessAction Fold 0 = some (true, g2) ∧
      g2.ProcessAction Fold 0 = some (true, g3) ∧
      g3.IsHandOver = true ∧ g3.CurrentPhase = Showdown ∧ g3.Pot = 150 ∧
      g3.Players.filter (fun q => q.IsActive) = [seat "d" 1000 0 Active 3] := by
  refine ⟨by decide, by decide, by decide, by decide, ?_⟩
  refine ⟨{ tableRiverOpen with
      Players := [seat "a" 950 0 Folded 0, seat "b" 950 0 Active 1, seat "c" 950 0 Active 2,
        seat "d" 1000 0 Active 3],
      CurrentPos := 1 },
    { tableRiverOpen with
      Players := [seat "a" 950 0 Folded 0, seat "b" 950 0 Folded 1, seat "c" 950 0 Active 2,
        seat "d" 1000 0 Active 3],
      CurrentPos := 2 },
    { tableRiverOpen with
      Players := [seat "a" 950 0 Folded 0, seat "b" 950 0 Folded 1, seat "c" 950 0 Folded 2,
        seat "d" 1000 0 Active 3],
      CurrentPos := 3, CurrentPhase := Showdown },
    by decide, by decide, by decide, by decide, by decide, by decide, by decide⟩



/-! ## A bet and the calls that close the round -/

theorem mod_add_cases {s d n : Nat} (hs : s < n) (hd : d < n) :
    ((s + d) % n = s + d ∧ s + d < n) ∨ ((s + d) % n = s + d - n ∧ n ≤ s + d) := by
  by_cases h : s + d < n
  · exact Or.inl ⟨Nat.mod_eq_of_lt h, h⟩
  · right
    refine ⟨?_, by omega⟩
    have h2 : s + d = (s + d - n) + n := by omega
    rw [h2, Nat.add_mod_right, Nat.mod_eq_of_lt (by omega)]
    omega

theorem filter_two_of_active : ∀ (ps : List Player) (i j : Nat), i < j →
    seatActive ps i = true → seatActive ps j = true →
    2 ≤ (ps.filter (fun p => p.IsActive)).length
  | [], i, _, _, h, _ => by simp [seatActive] at h
  | x :: xs, 0, j + 1, _, hi, hj => by
    have hx : x.IsActive = true := by simpa [seatActive] using hi
    rw [seatActive_cons_succ] at hj
    have := filter_pos_of_active xs j hj
    simp [List.filter, hx]
    omega
  | x :: xs, i + 1, j + 1, hij, hi, hj => by
    rw [seatActive_cons_succ] at hi hj
    have := filter_two_of_active xs i j (by omega) hi hj
    by_cases hx : x.IsActive = true <;> simp [List.filter, hx] <;> omega

theorem seatActive_set_ne (ps : List Player) {c i : Nat} (p : Player) (h : c ≠ i) :
    seatActive (ps.set c p) i = seatActive ps i := by
  simp [seatActive, List.getElem?_set_ne h]

theorem seatActive_of_getElem? {ps : List Player} {i : Nat} {p : Player}
    (h : ps[i]? = some p) (ha : p.Status = Active) : seatActive ps i = true := by
  simp [seatActive, h, Player.IsActive, ha]

/-- The round closure when the seat right after the acting seat `c` is active: that seat is
next; the round stays open if it is not the last raiser and two players are active, and the
phase advances by one step if it is the last raiser. -/
theorem roundClosure_next (g : GameState) (hv : g.SeatsValid) (c : Nat)
    (hc : g.CurrentPos = (c : Int))
    (hnx : seatActive g.Players ((c + 1) % g.Players.length) = true) :
    ∃ g', g.roundClosure = some (true, g') ∧ g'.Players = g.Players ∧ g'.SeatsValid ∧
      ((((c + 1) % g.Players.length : Nat) : Int) ≠ g.LastRaisePos →
        2 ≤ g.countActivePlayers →
        g' = { g with CurrentPos := (((c + 1) % g.Players.length : Nat) : Int) }) ∧
      ((((c + 1) % g.Players.length : Nat) : Int) = g.LastRaisePos →
        0 ≤ g.CurrentPhase → g.CurrentPhase ≤ 3 → g'.CurrentPhase = g.CurrentPhase + 1) := by
  obtain ⟨hq, hcast⟩ := SeatsValid_toNat hv
  have hcq : g.CurrentPos.toNat = c := by omega
  obtain ⟨r, g', hr, hfn, hrc, ⟨hP, _⟩, hv', _, hclose, hopen⟩ := roundClosure_spec g hv
  obtain ⟨r2, _, hfn2, _, _, himm⟩ := findNext_spec g c (by omega)
  rw [hc, hfn2] at hfn
  have hr2 : r2 = r := by
    have := Option.some.inj hfn
    omega
  have hrn : r = (c + 1) % g.Players.length := by
    rw [← hr2]; exact himm hnx
  refine ⟨g', hrc, hP, hv', ?_, ?_⟩
  · intro hne hcount
    rw [← hrn] at hne ⊢
    exact hopen (by rintro (h | h) <;> [exact hne h; omega])
  · intro heq h0 h3
    rw [← hrn] at heq
    rcases hclose (Or.inl heq) with ⟨_, _, h1, _⟩ | ⟨_, hg⟩ | ⟨hbad, _⟩
    · exact h1
    · rw [hg]
      simp only
      omega
    · omega



theorem two_active_of_seats {g : GameState} {i j : Nat} (hij : i ≠ j)
    (hi : seatActive g.Players i = true) (hj : seatActive g.Players j = true) :
    2 ≤ g.countActivePlayers := by
  unfold GameState.countActivePlayers
  rcases Nat.lt_or_gt_of_ne hij with h | h
  · have := filter_two_of_active g.Players i j h hi hj
    omega
  · have := filter_two_of_active g.Players j i h hj hi
    omega

/-- The round closure right after seat `c` has acted in a round opened by seat `s`, when the
seat after `c` is active: if that seat is not `s` the round stays open and it is to act, and
if it is `s` the phase advances by one step. -/
theorem closure_after_seat {n s c : Nat} {ph : Int} (pre : GameState)
    (hlen : pre.Players.length = n) (hv : pre.SeatsValid)
    (hcp : pre.CurrentPos = (c : Int)) (hl : pre.LastRaisePos = (s : Int))
    (hphase : pre.CurrentPhase = ph) (hph0 : 0 ≤ ph) (hph3 : ph ≤ 3)
    (hsA : seatActive pre.Players s = true)
    (hnx : seatActive pre.Players ((c + 1) % n) = true) :
    ∃ g', pre.roundClosure = some (true, g') ∧ g'.Players = pre.Players ∧ g'.SeatsValid ∧
      ((c + 1) % n ≠ s → g' = { pre with CurrentPos := (((c + 1) % n : Nat) : Int) }) ∧
      ((c + 1) % n = s → g'.CurrentPhase = ph + 1) := by
  obtain ⟨g', hrc, hP, hv', hopen, hclose⟩ :=
    roundClosure_next pre hv c hcp (by rw [hlen]; exact hnx)
  rw [hlen] at hopen hclose
  refine ⟨g', hrc, hP, hv', ?_, ?_⟩
  · intro hne
    exact hopen (by rw [hl]; omega) (two_active_of_seats (Ne.symm hne) hsA hnx)
  · intro heq
    rw [← hphase]
    exact hclose (by rw [hl]; omega) (by omega) (by omega)

theorem Call_step {n s k : Nat} {amt ph : Int} {g : GameState}
    (hinv : CallInv n s amt ph k g) (hs : s < n) (hk : k + 1 < n)
    (hph0 : 0 ≤ ph) (hph3 : ph ≤ 3) (a : Int) :
    ∃ g', g.ProcessAction Call a = some (true, g') ∧
      (k + 2 < n → CallInv n s amt ph (k + 1) g') ∧
      (k + 2 = n → g'.CurrentPhase = ph + 1) := by
  obtain ⟨hlen, hv, hphase, hcb, hl, hcp, hsA, hun⟩ := hinv
  obtain ⟨p, hget, hpa, hchips⟩ := hun k (le_refl k) hk
  have hcn : (s + 1 + k) % n < n := Nat.mod_lt _ (by omega)
  have hp : playerAt g.Players g.CurrentPos = some p := by
    rw [hcp, playerAt_natCast]; exact hget
  have hE := (ProcessAction_eq hp a).2.2.1
  have hle : g.CurrentBet - p.Bet ≤ p.Chips := by rw [hcb]; exact hchips
  obtain ⟨hok, _, _, _⟩ := PlaceBet_accepted hle
  rw [hok] at hE
  have hcq : g.CurrentPos.toNat = (s + 1 + k) % n := by omega
  obtain ⟨pre, hpre⟩ : ∃ pre : GameState, pre =
      { g.withPlayer (p.PlaceBet (g.CurrentBet - p.Bet)).2 with
        Pot := g.Pot + (g.CurrentBet - p.Bet) } := ⟨_, rfl⟩
  have hPl : pre.Players = g.Players.set ((s + 1 + k) % n) (p.PlaceBet (g.CurrentBet - p.Bet)).2 := by
    rw [hpre, ← hcq]; rfl
  have hvpre : pre.SeatsValid := by rw [hpre]; exact withPlayer_SeatsValid hv _
  have hprelen : pre.Players.length = n := by rw [hPl, List.length_set]; exact hlen
  have hmodk : ∀ j, j + 1 < n → (s + 1 + j) % n ≠ s ∧
      (∀ i, i + 1 < n → i ≠ j → (s + 1 + i) % n ≠ (s + 1 + j) % n) := by
    intro j hj
    have hj' := mod_add_cases hs (show j + 1 < n by omega)
    rw [show s + (j + 1) = s + 1 + j by omega] at hj'
    refine ⟨by omega, ?_⟩
    intro i hi hij
    have hi' := mod_add_cases hs (show i + 1 < n by omega)
    rw [show s + (i + 1) = s + 1 + i by omega] at hi'
    omega
  have hcs : (s + 1 + k) % n ≠ s := (hmodk k hk).1
  have hnxeq : ((s + 1 + k) % n + 1) % n = (s + 1 + (k + 1)) % n := by
    rw [Nat.mod_add_mod]; rfl
  have hsApre : seatActive pre.Players s = true := by
    rw [hPl, seatActive_set_ne _ _ hcs]; exact hsA
  have hnx : seatActive pre.Players (((s + 1 + k) % n + 1) % n) = true := by
    rw [hnxeq]
    by_cases hlast : k + 2 < n
    · obtain ⟨q, hq, hqa, _⟩ := hun (k + 1) (by omega) hlast
      rw [hPl, seatActive_set_ne _ _ ((hmodk (k + 1) hlast).2 k hk (by omega))]
      exact seatActive_of_getElem? hq hqa
    · have hkn : s + 1 + (k + 1) = s + n := by omega
      rw [hkn, Nat.add_mod_right, Nat.mod_eq_of_lt hs]
      exact hsApre
  obtain ⟨g', hrc, hP, hv', hopen, hclose⟩ :=
    closure_after_seat pre hprelen hvpre (by rw [hpre]; exact hcp)
      (by rw [hpre]; exact hl) (by rw [hpre]; exact hphase) hph0 hph3 hsApre hnx
  refine ⟨g', by rw [hE, ← hpre]; exact hrc, ?_, ?_⟩
  · intro hlast
    have hne : ((s + 1 + k) % n + 1) % n ≠ s := by
      rw [hnxeq]; exact (hmodk (k + 1) hlast).1
    have hg' := hopen hne
    refine ⟨by rw [hP]; exact hprelen, hv', ?_, ?_, ?_, ?_, by rw [hP]; exact hsApre, ?_⟩
    · rw [hg', hpre]; exact hphase
    · rw [hg', hpre]; exact hcb
    · rw [hg', hpre]; exact hl
    · rw [hg', ← hnxeq]
    · intro j hkj hj
      obtain ⟨q, hq, hqa, hqc⟩ := hun j (by omega) hj
      refine ⟨q, ?_, hqa, hqc⟩
      rw [hP, hPl, List.getElem?_set_ne ((hmodk j hj).2 k hk (by omega))]
      exact hq
  · intro hlast
    apply hclose
    rw [hnxeq]
    have hkn : s + 1 + (k + 1) = s + n := by omega
    rw [hkn, Nat.add_mod_right, Nat.mod_eq_of_lt hs]


theorem Bet_opens {n s : Nat} (g : GameState) (amt : Int) (p : Player)
    (hlen : g.Players.length = n) (hn : 2 ≤ n) (hv : g.SeatsValid)
    (hcp : g.CurrentPos = (s : Int)) (hp : playerAt g.Players g.CurrentPos = some p)
    (hall : ∀ q ∈ g.Players, q.Status = Active)
    (hph0 : 0 ≤ g.CurrentPhase) (hph3 : g.CurrentPhase ≤ 3)
    (hcb : g.CurrentBet = 0) (hbb : g.BigBlind ≤ amt) (hchips : amt < p.Chips)
    (hothers : ∀ i q, i ≠ s → g.Players[i]? = some q → amt - q.Bet ≤ q.Chips) :
    ∃ g0, g.ProcessAction Bet amt = some (true, g0) ∧ CallInv n s amt g.CurrentPhase 0 g0 := by
  obtain ⟨hq, hcast⟩ := SeatsValid_toNat hv
  have hs : s < n := by omega
  have hcq : g.CurrentPos.toNat = s := by omega
  have hE := (ProcessAction_eq hp amt).2.2.2.1
  obtain ⟨hok, _, _, hstat⟩ := PlaceBet_accepted (le_of_lt hchips)
  rw [if_neg (by omega), if_neg (by omega), hok] at hE
  obtain ⟨_, _, hgetp⟩ := playerAt_eq_some hp
  have hpa : p.Status = Active := hall p (List.getElem?_mem hgetp)
  rw [if_neg (by omega), hpa] at hstat
  obtain ⟨pre, hpre⟩ : ∃ pre : GameState, pre =
      { g.withPlayer (p.PlaceBet amt).2 with
        Pot := g.Pot + amt, CurrentBet := amt, LastRaisePos := g.CurrentPos,
        MinRaise := amt } := ⟨_, rfl⟩
  have hPl : pre.Players = g.Players.set s (p.PlaceBet amt).2 := by
    rw [hpre, ← hcq]; rfl
  have hvpre : pre.SeatsValid := by rw [hpre]; exact withPlayer_SeatsValid hv _
  have hprelen : pre.Players.length = n := by rw [hPl, List.length_set]; exact hlen
  have hmod : ∀ j, j + 1 < n → (s + 1 + j) % n ≠ s ∧ (s + 1 + j) % n < n := by
    intro j hj
    have hj' := mod_add_cases hs (show j + 1 < n by omega)
    rw [show s + (j + 1) = s + 1 + j by omega] at hj'
    exact ⟨by omega, by omega⟩
  have hsApre : seatActive pre.Players s = true := by
    apply seatActive_of_getElem? _ hstat
    rw [hPl, List.getElem?_set_self (by omega)]
  have huncalled : ∀ j, j + 1 < n →
      ∃ q, pre.Players[(s + 1 + j) % n]? = some q ∧ q.Status = Active ∧ amt - q.Bet ≤ q.Chips := by
    intro j hj
    obtain ⟨hne, hlt⟩ := hmod j hj
    obtain ⟨q, hget⟩ : ∃ q, g.Players[(s + 1 + j) % n]? = some q :=
      ⟨_, List.getElem?_eq_getElem (by omega)⟩
    refine ⟨q, ?_, hall _ (List.getElem?_mem hget), hothers _ _ hne hget⟩
    rw [hPl, List.getElem?_set_ne (Ne.symm hne)]
    exact hget
  have hnx : seatActive pre.Players ((s + 1) % n) = true := by
    obtain ⟨q, hq1, hq2, _⟩ := huncalled 0 (by omega)
    exact seatActive_of_getElem? hq1 hq2
  obtain ⟨g0, hrc, hP, hv0, hopen, _⟩ :=
    @closure_after_seat n s s g.CurrentPhase pre hprelen hvpre (by subst hpre; exact hcp)
      (by subst hpre; exact hcp) (by subst hpre; rfl) hph0 hph3 hsApre hnx
  have hg0 := hopen (hmod 0 (by omega)).1
  refine ⟨g0, by rw [hE, ← hpre]; exact hrc, by rw [hP]; exact hprelen, hv0, ?_, ?_, ?_, ?_,
    by rw [hP]; exact hsApre, ?_⟩
  · subst hg0 hpre; rfl
  · subst hg0 hpre; rfl
  · subst hg0 hpre; exact hcp
  · subst hg0; rfl
  · intro j _ hj
    rw [hP]
    exact huncalled j hj

/-- C7, amended: on a table of n >= 2 players, all Active, with valid seats, a phase before
Showdown, CurrentBet 0 and seat s to act, where the bettor's stack exceeds the bet (so that
the bettor stays Active) and every other stack covers the call: the Bet of seat s is accepted and leaves the phase as it was; the n-1 Calls
that follow are all accepted, the k-th of them made by seat s+k clockwise; the phase is still
the same after each of the first n-2 Calls, and after the last Call it has advanced by exactly
one step. -/
theorem bet_then_calls_close_round (g : GameState) (amt : Int) (p : Player)
    (hn : 2 ≤ g.Players.length) (hv : g.SeatsValid)
    (hp : playerAt g.Players g.CurrentPos = some p)
    (hall : ∀ q ∈ g.Players, q.Status = Active)
    (hph0 : PreFlop ≤ g.CurrentPhase) (hph3 : g.CurrentPhase < Showdown)
    (hcb : g.CurrentBet = 0) (hbb : g.BigBlind ≤ amt) (hchips : amt < p.Chips)
    (hothers : ∀ (i : Nat) q, (i : Int) ≠ g.CurrentPos → g.Players[i]? = some q →
      amt - q.Bet ≤ q.Chips) :
    ∃ g0, g.ProcessAction Bet amt = some (true, g0) ∧ g0.CurrentPhase = g.CurrentPhase ∧
      (∀ k, k + 1 < g.Players.length →
        ∃ gk, g0.callRound k = some gk ∧ gk.CurrentPhase = g.CurrentPhase ∧
          gk.CurrentPos = (((g.CurrentPos.toNat + 1 + k) % g.Players.length : Nat) : Int)) ∧
      (∃ gl, g0.callRound (g.Players.length - 1) = some gl ∧
        gl.CurrentPhase = g.CurrentPhase + 1) := by
  obtain ⟨hq, hcast⟩ := SeatsValid_toNat hv
  have h0 : 0 ≤ g.CurrentPhase := hph0
  have h3 : g.CurrentPhase ≤ 3 := by
    have : g.CurrentPhase < 4 := hph3
    omega
  obtain ⟨g0, hbet, hinv0⟩ :=
    Bet_opens g amt p rfl hn hv hcast.symm hp hall h0 h3 hcb hbb hchips
      (fun i q hi hget => hothers i q (by omega) hget)
  have hrun : ∀ k, k + 1 < g.Players.length →
      ∃ gk, g0.callRound k = some gk ∧
        CallInv g.Players.length g.CurrentPos.toNat amt g.CurrentPhase k gk := by
    intro k
    induction k with
    | zero => exact fun _ => ⟨g0, rfl, hinv0⟩
    | succ k ih =>
      intro hk
      obtain ⟨gk, hgk, hinvk⟩ := ih (by omega)
      obtain ⟨g', hstep, hnext, _⟩ := Call_step hinvk hq (by omega) h0 h3 0
      refine ⟨g', ?_, hnext hk⟩
      simp only [GameState.callRound, hgk, hstep]
  refine ⟨g0, hbet, hinv0.2.2.1, ?_, ?_⟩
  · intro k hk
    obtain ⟨gk, hgk, hinvk⟩ := hrun k hk
    exact ⟨gk, hgk, hinvk.2.2.1, hinvk.2.2.2.2.2.1⟩
  · obtain ⟨gk, hgk, hinvk⟩ := hrun (g.Players.length - 2) (by omega)
    obtain ⟨g', hstep, _, hlast⟩ := Call_step hinvk hq (by omega) h0 h3 0
    refine ⟨g', ?_, hlast (by omega)⟩
    have hk : g.Players.length - 1 = (g.Players.length - 2) + 1 := by omega
    rw [hk]
    simp only [GameState.callRound, hgk, hstep]

theorem bet_then_calls_close_round_witness :
    ∃ g0, table4.ProcessAction Bet 40 = some (true, g0) ∧
      g0.CurrentPhase = table4.CurrentPhase ∧
      (∀ k, k + 1 < table4.Players.length →
        ∃ gk, g0.callRound k = some gk ∧ gk.CurrentPhase = table4.CurrentPhase ∧
          gk.CurrentPos =
            (((table4.CurrentPos.toNat + 1 + k) % table4.Players.length : Nat) : Int)) ∧
      (∃ gl, g0.callRound (table4.Players.length - 1) = some gl ∧
        gl.CurrentPhase = table4.CurrentPhase + 1) :=
  bet_then_calls_close_round table4 40 (seat "a" 1000 0 Active 0) (by decide) (by decide)
    (by decide) (by decide) (by decide) (by decide) (by decide) (by decide) (by decide)
    (fun _ q _ hget =>
      (by decide : ∀ q ∈ table4.Players, (40 : Int) - q.Bet ≤ q.Chips) q
        (List.getElem?_mem hget))



/-! ## Comparing hands -/

/-- C11: CompareHands is the lexicographic comparison of (Rank, Value): 1 when the first Rank
is greater and -1 when it is smaller, whatever the Values (so a FourOfAKind beats a Flush);
with equal Ranks it is 1, -1 or 0 as the first Value is greater, smaller or equal; and it is 0
exactly when Rank and Value are both equal. -/
theorem CompareHands_lexicographic (a b : HandEvaluation) :
    (a.Rank > b.Rank → CompareHands a b = 1) ∧
    (a.Rank < b.Rank → CompareHands a b = -1) ∧
    (a.Rank = FourOfAKind → b.Rank = Flush → CompareHands a b = 1) ∧
    (a.Rank = b.Rank → a.Value > b.Value → CompareHands a b = 1) ∧
    (a.Rank = b.Rank → a.Value < b.Value → CompareHands a b = -1) ∧
    (a.Rank = b.Rank → a.Value = b.Value → CompareHands a b = 0) ∧
    (CompareHands a b = 0 ↔ a.Rank = b.Rank ∧ a.Value = b.Value) := by
  have hF : FourOfAKind = (7 : Int) := rfl
  have hL : Flush = (5 : Int) := rfl
  unfold CompareHands
  refine ⟨?_, ?_, ?_, ?_, ?_, ?_, ?_⟩
  · intro h; rw [if_pos h]
  · intro h; rw [if_neg (by omega), if_pos h]
  · intro h1 h2
    rw [hF] at h1
    rw [hL] at h2
    rw [if_pos (by omega)]
  · intro h1 h2; rw [if_neg (by omega), if_neg (by omega), if_pos h2]
  · intro h1 h2; rw [if_neg (by omega), if_neg (by omega), if_neg (by omega), if_pos h2]
  · intro h1 h2
    rw [if_neg (by omega), if_neg (by omega), if_neg (by omega), if_neg (by omega)]
  · constructor
    · intro h
      by_contra hne
      split_ifs at h <;> omega
    · rintro ⟨h1, h2⟩
      rw [if_neg (by omega), if_neg (by omega), if_neg (by omega), if_neg (by omega)]

theorem CompareHands_lexicographic_witness :
    CompareHands ⟨FourOfAKind, [], 2⟩ ⟨Flush, [], 1400⟩ = 1 ∧
    CompareHands ⟨Flush, [], 1400⟩ ⟨FourOfAKind, [], 2⟩ = -1 ∧
    CompareHands ⟨Pair, [], 9⟩ ⟨Pair, [], 7⟩ = 1 ∧
    CompareHands ⟨Pair, [], 7⟩ ⟨Pair, [], 9⟩ = -1 ∧
    CompareHands ⟨Pair, [], 7⟩ ⟨Pair, [⟨Two, Clubs⟩], 7⟩ = 0 :=
  ⟨(CompareHands_lexicographic ⟨FourOfAKind, [], 2⟩ ⟨Flush, [], 1400⟩).2.2.1 rfl rfl,
   (CompareHands_lexicographic ⟨Flush, [], 1400⟩ ⟨FourOfAKind, [], 2⟩).2.1 (by decide),
   (CompareHands_lexicographic ⟨Pair, [], 9⟩ ⟨Pair, [], 7⟩).2.2.2.1 rfl (by decide),
   (CompareHands_lexicographic ⟨Pair, [], 7⟩ ⟨Pair, [], 9⟩).2.2.2.2.1 rfl (by decide),
   (CompareHands_lexicographic ⟨Pair, [], 7⟩ ⟨Pair, [⟨Two, Clubs⟩], 7⟩).2.2.2.2.2.1 rfl rfl⟩

/-- C12: CompareHands is a total order on (Rank, Value): CompareHands(a, a) is 0,
CompareHands(a, b) is the negation of CompareHands(b, a), and CompareHands(a, b) >= 0 with
CompareHands(b, c) >= 0 gives CompareHands(a, c) >= 0; the result is 1, 0 or -1; it is 0 only
for equal Rank and Value, and it is >= 0 exactly when (Rank, Value) of the first hand is at
least that of the second in the lexicographic order. -/
theorem CompareHands_total_order (a b c : HandEvaluation) :
    CompareHands a a = 0 ∧
    CompareHands a b = -CompareHands b a ∧
    (CompareHands a b ≥ 0 → CompareHands b c ≥ 0 → CompareHands a c ≥ 0) ∧
    (CompareHands a b = 1 ∨ CompareHands a b = 0 ∨ CompareHands a b = -1) ∧
    (CompareHands a b = 0 ↔ a.Rank = b.Rank ∧ a.Value = b.Value) ∧
    (CompareHands a b ≥ 0 ↔ (b.Rank < a.Rank ∨ (a.Rank = b.Rank ∧ b.Value ≤ a.Value))) ∧
    (CompareHands a b = 1 ↔ (b.Rank < a.Rank ∨ (a.Rank = b.Rank ∧ b.Value < a.Value))) := by
  unfold CompareHands
  refine ⟨?_, ?_, ?_, ?_, ?_, ?_, ?_⟩
  · split_ifs <;> omega
  · split_ifs <;> omega
  · split_ifs <;> omega
  · split_ifs <;> omega
  · constructor
    · intro h
      by_contra hne
      split_ifs at h <;> omega
    · intro h
      split_ifs <;> omega
  · constructor
    · intro h
      by_contra hne
      split_ifs at h <;> omega
    · intro h
      split_ifs <;> omega
  · constructor
    · intro h
      by_contra hne
      split_ifs at h <;> omega
    · intro h
      split_ifs <;> omega

theorem CompareHands_total_order_witness :
    CompareHands ⟨Flush, [], 3⟩ ⟨Flush, [], 3⟩ = 0 ∧
    CompareHands ⟨Flush, [], 3⟩ ⟨Pair, [], 9⟩ = -CompareHands ⟨Pair, [], 9⟩ ⟨Flush, [], 3⟩ ∧
    CompareHands ⟨Flush, [], 3⟩ ⟨HighCard, [], 14⟩ ≥ 0 :=
  ⟨(CompareHands_total_order ⟨Flush, [], 3⟩ ⟨Pair, [], 9⟩ ⟨HighCard, [], 14⟩).1,
   (CompareHands_total_order ⟨Flush, [], 3⟩ ⟨Pair, [], 9⟩ ⟨HighCard, [], 14⟩).2.1,
   (CompareHands_total_order ⟨Flush, [], 3⟩ ⟨Pair, [], 9⟩ ⟨HighCard, [], 14⟩).2.2.1
     (by decide) (by decide)⟩

/-! ## Placing a bet -/

/-- PlaceBet over exact integers: it returns false exactly when the amount exceeds the stack, and then the player
is unchanged; otherwise it returns true, the stack goes down and the bet up by the amount
(their sum is preserved), the status is AllIn when the resulting stack is 0 and the old status
otherwise, and nothing else about the player changes. -/
theorem PlaceBet_spec (p : Player) (amount : Int) :
    ((p.PlaceBet amount).1 = false ↔ amount > p.Chips) ∧
    (amount > p.Chips → (p.PlaceBet amount).2 = p) ∧
    (amount ≤ p.Chips →
      (p.PlaceBet amount).1 = true ∧
      (p.PlaceBet amount).2.Chips = p.Chips - amount ∧
      (p.PlaceBet amount).2.Bet = p.Bet + amount ∧
      (p.PlaceBet amount).2.Chips + (p.PlaceBet amount).2.Bet = p.Chips + p.Bet ∧
      ((p.PlaceBet amount).2.Chips = 0 → (p.PlaceBet amount).2.Status = AllInStatus) ∧
      ((p.PlaceBet amount).2.Chips ≠ 0 → (p.PlaceBet amount).2.Status = p.Status) ∧
      (p.PlaceBet amount).2.ID = p.ID ∧ (p.PlaceBet amount).2.Name = p.Name ∧
      (p.PlaceBet amount).2.Cards = p.Cards ∧ (p.PlaceBet amount).2.Position = p.Position) := by
  unfold Player.PlaceBet
  by_cases hc : amount > p.Chips
  · rw [if_pos hc]
    exact ⟨⟨fun _ => hc, fun _ => rfl⟩, fun _ => rfl, fun h => absurd hc (by omega)⟩
  · rw [if_neg hc]
    by_cases hz : p.Chips - amount = 0
    · rw [if_pos hz]
      refine ⟨⟨fun h => (by cases h), fun h => absurd h hc⟩, fun h => absurd h hc, fun _ => ?_⟩
      exact ⟨rfl, rfl, rfl, by show p.Chips - amount + (p.Bet + amount) = _; omega,
        fun _ => rfl, fun h => absurd hz h, rfl, rfl, rfl, rfl⟩
    · rw [if_neg hz]
      refine ⟨⟨fun h => (by cases h), fun h => absurd h hc⟩, fun h => absurd h hc, fun _ => ?_⟩
      exact ⟨rfl, rfl, rfl, by show p.Chips - amount + (p.Bet + amount) = _; omega,
        fun h => absurd h hz, fun _ => rfl, rfl, rfl, rfl, rfl⟩

theorem PlaceBet_spec_witness :
    ((seat "c" 30 0 Active 2).PlaceBet 50).2 = seat "c" 30 0 Active 2 ∧
    ((seat "c" 30 0 Active 2).PlaceBet 30).2.Status = AllInStatus ∧
    ((seat "c" 30 0 Active 2).PlaceBet 10).2.Status = Active :=
  ⟨(PlaceBet_spec (seat "c" 30 0 Active 2) 50).2.1 (by decide),
   ((PlaceBet_spec (seat "c" 30 0 Active 2) 30).2.2 (by decide)).2.2.2.2.1 (by decide),
   ((PlaceBet_spec (seat "c" 30 0 Active 2) 10).2.2 (by decide)).2.2.2.2.2.1 (by decide)⟩



/-! ## The deck -/

/-- C19: NewDeck has exactly 52 cards, pairwise distinct; it holds every card with rank 2..14
and suit 0..3; and its order is fixed, suit by suit with the ranks ascending: the card of rank
r and suit s sits at index 13 * s + (r - 2). -/
theorem NewDeck_spec :
    NewDeck.Cards.length = 52 ∧ NewDeck.Cards.Nodup ∧
    (∀ r s : Int, Two ≤ r → r ≤ Ace → Spades ≤ s → s ≤ Clubs →
      (⟨r, s⟩ : Card) ∈ NewDeck.Cards ∧
      NewDeck.Cards[(13 * s + (r - 2)).toNat]? = some ⟨r, s⟩) ∧
    NewDeck.Cards = (List.range 52).map
      (fun i => (⟨Two + ((i % 13 : Nat) : Int), Spades + ((i / 13 : Nat) : Int)⟩ : Card)) := by
  refine ⟨by decide, by decide, ?_, by decide⟩
  intro r s hr2 hr14 hs0 hs3
  have hr2' : (2 : Int) ≤ r := hr2
  have hr14' : r ≤ (14 : Int) := hr14
  have hs0' : (0 : Int) ≤ s := hs0
  have hs3' : s ≤ (3 : Int) := hs3
  have hs : s = 0 ∨ s = 1 ∨ s = 2 ∨ s = 3 := by omega
  have hr : r = 2 ∨ r = 3 ∨ r = 4 ∨ r = 5 ∨ r = 6 ∨ r = 7 ∨ r = 8 ∨ r = 9 ∨ r = 10 ∨
      r = 11 ∨ r = 12 ∨ r = 13 ∨ r = 14 := by omega
  rcases hs with rfl | rfl | rfl | rfl <;>
    rcases hr with rfl | rfl | rfl | rfl | rfl | rfl | rfl | rfl | rfl | rfl | rfl | rfl | rfl <;>
    exact ⟨by decide, by decide⟩

theorem NewDeck_spec_witness :
    (⟨Queen, Hearts⟩ : Card) ∈ NewDeck.Cards ∧
    NewDeck.Cards[(13 * Hearts + (Queen - 2)).toNat]? = some ⟨Queen, Hearts⟩ :=
  NewDeck_spec.2.2.1 Queen Hearts (by decide) (by decide) (by decide) (by decide)

theorem swap_perm {d d1 : Deck} {i j : Nat} (h : d.swap i j = some d1) :
    d1.Cards.Perm d.Cards := by
  unfold Deck.swap at h
  split at h
  · rename_i a b ha hb
    have hd : d1.Cards = (d.Cards.set i b).set j a := by
      have := Option.some.inj h
      rw [← this]
    obtain ⟨hi, hai⟩ := List.getElem?_eq_some.mp ha
    obtain ⟨hj, hbj⟩ := List.getElem?_eq_some.mp hb
    rw [hd, List.perm_iff_count]
    intro x
    have hj1 : j < (d.Cards.set i b).length := by rw [List.length_set]; exact hj
    have hmid : (d.Cards.set i b)[j] = b := by
      rw [List.getElem_set]
      split
      · rfl
      · exact hbj
    rw [List.count_set _ _ _ _ hj1, List.count_set _ _ _ _ hi, hmid, hai]
    have hpos : (if (a == x) = true then 1 else 0) ≤ d.Cards.count x := by
      split
      · rename_i hax
        have hax' : a = x := by simpa using hax
        have hmem : x ∈ d.Cards := hax' ▸ List.getElem?_mem ha
        exact List.count_pos_iff.mpr hmem
      · exact Nat.zero_le _
    omega
  · simp at h

/-- C20: for every deck and every sequence of index swaps that are all in range, Shuffle
returns a deck whose cards are a permutation of the input cards, of the same length. -/
theorem Shuffle_perm : ∀ (swaps : List (Nat × Nat)) (d : Deck),
    (∀ s ∈ swaps, s.1 < d.Cards.length ∧ s.2 < d.Cards.length) →
    ∃ d1, d.Shuffle swaps = some d1 ∧ d1.Cards.Perm d.Cards ∧
      d1.Cards.length = d.Cards.length
  | [], d, _ => ⟨d, rfl, List.Perm.refl _, rfl⟩
  | (i, j) :: rest, d, h => by
    obtain ⟨hi, hj⟩ := h (i, j) (List.mem_cons_self _ _)
    have hsw : d.swap i j =
        some { Cards := (d.Cards.set i d.Cards[j]).set j d.Cards[i] } := by
      unfold Deck.swap
      rw [List.getElem?_eq_getElem hi, List.getElem?_eq_getElem hj]
    have hp := swap_perm hsw
    have hrest : ∀ s ∈ rest,
        s.1 < ((d.Cards.set i d.Cards[j]).set j d.Cards[i]).length ∧
        s.2 < ((d.Cards.set i d.Cards[j]).set j d.Cards[i]).length := by
      intro s hs
      rw [List.length_set, List.length_set]
      exact h s (List.mem_cons_of_mem _ hs)
    obtain ⟨d1, hd1, hperm, hlen⟩ := Shuffle_perm rest _ hrest
    refine ⟨d1, ?_, hperm.trans hp, by rw [hlen, List.length_set, List.length_set]⟩
    show (match d.swap i j with
      | none => none
      | some d2 => d2.Shuffle rest) = some d1
    rw [hsw]
    exact hd1

theorem Shuffle_perm_witness :
    ∃ d1, NewDeck.Shuffle [(51, 3), (50, 50), (49, 0)] = some d1 ∧
      d1.Cards.Perm NewDeck.Cards ∧ d1.Cards.length = NewDeck.Cards.length :=
  Shuffle_perm [(51, 3), (50, 50), (49, 0)] NewDeck (by decide)



/-! ## Starting a hand -/

theorem findNext_nextSeat (g : GameState) (q : Nat) (hq : q < g.Players.length) :
    ∃ r : Nat, g.findNextActivePosition (q : Int) = some (r : Int) ∧ NextSeat g.Players q r := by
  obtain ⟨r, hr, hfn, h1, h2, h3⟩ := findNext_spec g q hq
  exact ⟨r, hfn, hr, h1, h2, h3⟩

theorem postBlind_eq (g : GameState) (pos : Nat) (amount : Int) (p : Player)
    (hp : g.Players[pos]? = some p) :
    g.postBlind (pos : Int) amount =
      some { g with Players := g.Players.set pos (p.PlaceBet amount).2 } := by
  unfold GameState.postBlind
  rw [playerAt_natCast, hp]
  simp only [Int.toNat_natCast]

theorem dealPass_length : ∀ (ps : List Player) (d : Deck), (dealPass ps d).1.length = ps.length
  | [], _ => rfl
  | p :: ps, d => by
    unfold dealPass
    split_ifs <;> simp [dealPass_length ps]

/-- A deal pass changes no player's status, stack or bet. -/
theorem dealPass_stake : ∀ (ps : List Player) (d : Deck),
    (dealPass ps d).1.map (fun p => (p.Status, p.Chips, p.Bet)) =
      ps.map (fun p => (p.Status, p.Chips, p.Bet))
  | [], _ => rfl
  | p :: ps, d => by
    unfold dealPass
    by_cases h : (p.IsActive || p.Status == AllInStatus) = true
    · rw [if_pos h]
      by_cases hd : d.DrawOne.1.2 = true <;> simp [hd, dealPass_stake ps]
    · rw [if_neg h]
      simp [dealPass_stake ps]

theorem dealHoleCards_frame : ∀ (k : Nat) (g : GameState),
    ∃ P D, g.dealHoleCards k = { g with Players := P, Deck := D } ∧
      P.map (fun p => (p.Status, p.Chips, p.Bet)) =
        g.Players.map (fun p => (p.Status, p.Chips, p.Bet))
  | 0, g => ⟨g.Players, g.Deck, rfl, rfl⟩
  | k + 1, g => by
    obtain ⟨P, D, h, hP⟩ := dealHoleCards_frame k
      { g with Players := (dealPass g.Players g.Deck).1, Deck := (dealPass g.Players g.Deck).2 }
    refine ⟨P, D, ?_, ?_⟩
    · show GameState.dealHoleCards _ k = _
      rw [h]
    · rw [hP]
      exact dealPass_stake _ _

theorem stake_getElem? {ps qs : List Player}
    (h : ps.map (fun p => (p.Status, p.Chips, p.Bet)) =
      qs.map (fun p => (p.Status, p.Chips, p.Bet))) (i : Nat) :
    (ps[i]?).map (fun p => (p.Status, p.Chips, p.Bet)) =
      (qs[i]?).map (fun p => (p.Status, p.Chips, p.Bet)) := by
  rw [← List.getElem?_map, ← List.getElem?_map, h]

theorem seatActive_of_stake {ps qs : List Player}
    (h : ps.map (fun p => (p.Status, p.Chips, p.Bet)) =
      qs.map (fun p => (p.Status, p.Chips, p.Bet))) (i : Nat) :
    seatActive ps i = seatActive qs i := by
  have hi := stake_getElem? h i
  unfold seatActive
  cases hp : ps[i]? <;> cases hq : qs[i]? <;> rw [hp, hq] at hi <;> simp at hi ⊢
  simp [Player.IsActive, hi.1]



theorem stake_length {ps qs : List Player}
    (h : ps.map (fun p => (p.Status, p.Chips, p.Bet)) =
      qs.map (fun p => (p.Status, p.Chips, p.Bet))) : ps.length = qs.length := by
  have := congrArg List.length h
  simpa using this

/-- `StartNewHand` on a non-empty table with a non-negative dealer index and a shuffle that
stays in range: it succeeds, and the seats it picks are the ones the clockwise scans find. -/
theorem StartNewHand_spec (g : GameState) (swaps : List (Nat × Nat)) (deck : Deck)
    (hne : g.Players ≠ []) (hd : 0 ≤ g.DealerPos) (hsh : NewDeck.Shuffle swaps = some deck) :
    ∃ (sb bb pos : Nat) (psb pbb : Player) (P1 P2 : List Player) (g7 : GameState),
      NextSeat (g.Players.map Player.ResetForNewHand)
        ((g.DealerPos.toNat + 1) % g.Players.length) sb ∧
      (g.Players.map Player.ResetForNewHand)[sb]? = some psb ∧
      P1 = (g.Players.map Player.ResetForNewHand).set sb (psb.PlaceBet g.SmallBlind).2 ∧
      NextSeat P1 sb bb ∧ P1[bb]? = some pbb ∧
      P2 = P1.set bb (pbb.PlaceBet g.BigBlind).2 ∧
      g7 = GameState.dealHoleCards
        { Players := P2, Deck := deck, CommunityCards := [], CurrentPhase := PreFlop,
          Pot := 0, CurrentBet := g.BigBlind, SmallBlind := g.SmallBlind,
          BigBlind := g.BigBlind,
          DealerPos := (((g.DealerPos.toNat + 1) % g.Players.length : Nat) : Int),
          CurrentPos := g.CurrentPos, LastRaisePos := -1, MinRaise := g.BigBlind } 2 ∧
      NextSeat g7.Players bb pos ∧
      g.StartNewHand swaps = some { g7 with CurrentPos := (pos : Int) } := by
  have hn : 0 < g.Players.length := List.length_pos.mpr hne
  have hmod : Int.tmod (g.DealerPos + 1) (g.Players.length : Int) =
      (((g.DealerPos.toNat + 1) % g.Players.length : Nat) : Int) := by
    rw [← tmod_succ_natCast, Int.toNat_of_nonneg hd]
  have hdlt : (g.DealerPos.toNat + 1) % g.Players.length < g.Players.length := Nat.mod_lt _ hn
  obtain ⟨G3, hG3⟩ : ∃ G3 : GameState, G3 =
      { Players := g.Players.map Player.ResetForNewHand, Deck := deck, CommunityCards := [],
        CurrentPhase := PreFlop, Pot := 0, CurrentBet := 0, SmallBlind := g.SmallBlind,
        BigBlind := g.BigBlind,
        DealerPos := (((g.DealerPos.toNat + 1) % g.Players.length : Nat) : Int),
        CurrentPos := g.CurrentPos, LastRaisePos := -1, MinRaise := g.BigBlind } := ⟨_, rfl⟩
  have hG3P : G3.Players = g.Players.map Player.ResetForNewHand := by rw [hG3]
  obtain ⟨sb, hfn1, hns1⟩ := findNext_nextSeat G3 ((g.DealerPos.toNat + 1) % g.Players.length)
    (by rw [hG3P, List.length_map]; exact hdlt)
  rw [hG3P] at hns1
  obtain ⟨psb, hpsb⟩ : ∃ p, (g.Players.map Player.ResetForNewHand)[sb]? = some p :=
    ⟨_, List.getElem?_eq_getElem hns1.1⟩
  have hpb1 := postBlind_eq G3 sb g.SmallBlind psb (by rw [hG3P]; exact hpsb)
  obtain ⟨G4, hG4⟩ : ∃ G4 : GameState, G4 =
      { G3 with Players := G3.Players.set sb (psb.PlaceBet g.SmallBlind).2 } := ⟨_, rfl⟩
  have hG4P : G4.Players =
      (g.Players.map Player.ResetForNewHand).set sb (psb.PlaceBet g.SmallBlind).2 := by
    rw [hG4, hG3P]
  obtain ⟨bb, hfn2, hns2⟩ := findNext_nextSeat G4 sb
    (by rw [hG4P, List.length_set]; exact hns1.1)
  rw [hG4P] at hns2
  obtain ⟨pbb, hpbb⟩ : ∃ p,
      ((g.Players.map Player.ResetForNewHand).set sb (psb.PlaceBet g.SmallBlind).2)[bb]? =
        some p := ⟨_, List.getElem?_eq_getElem hns2.1⟩
  have hpb2 := postBlind_eq G4 bb g.BigBlind pbb (by rw [hG4P]; exact hpbb)
  obtain ⟨G6, hG6⟩ : ∃ G6 : GameState, G6 =
      { Players := ((g.Players.map Player.ResetForNewHand).set sb
          (psb.PlaceBet g.SmallBlind).2).set bb (pbb.PlaceBet g.BigBlind).2,
        Deck := deck, CommunityCards := [], CurrentPhase := PreFlop,
        Pot := 0, CurrentBet := g.BigBlind, SmallBlind := g.SmallBlind,
        BigBlind := g.BigBlind,
        DealerPos := (((g.DealerPos.toNat + 1) % g.Players.length : Nat) : Int),
        CurrentPos := g.CurrentPos, LastRaisePos := -1, MinRaise := g.BigBlind } := ⟨_, rfl⟩
  obtain ⟨P, D, hdeal, hstake⟩ := dealHoleCards_frame 2 G6
  have hlen7 : (G6.dealHoleCards 2).Players.length = G6.Players.length := by
    rw [hdeal]; exact stake_length hstake
  obtain ⟨pos, hfn3, hns3⟩ := findNext_nextSeat (G6.dealHoleCards 2) bb
    (by rw [hlen7, hG6]; simpa using hns2.1)
  refine ⟨sb, bb, pos, psb, pbb, _, _, G6.dealHoleCards 2, hns1, hpsb, rfl, hns2, hpbb, rfl,
    by rw [hG6], hns3, ?_⟩
  unfold GameState.StartNewHand
  simp only [hsh, List.length_map, hmod]
  rw [if_neg (by omega)]
  rw [hG3] at hfn1 hpb1 hG4
  simp only [hfn1, hpb1]
  rw [hG4] at hfn2 hpb2
  simp only [hfn2, hpb2]
  rw [hG6] at hfn3
  simp only [hfn3]
  rw [hG6]



theorem Shuffle_some : ∀ (swaps : List (Nat × Nat)) (d : Deck),
    (∀ s ∈ swaps, s.1 < d.Cards.length ∧ s.2 < d.Cards.length) →
    ∃ d1, d.Shuffle swaps = some d1 ∧ d1.Cards.Perm d.Cards
  | [], d, _ => ⟨d, rfl, List.Perm.refl _⟩
  | (i, j) :: rest, d, h => by
    obtain ⟨hi, hj⟩ := h (i, j) (List.mem_cons_self _ _)
    obtain ⟨d2, hd2⟩ : ∃ d2, d.swap i j = some d2 := by
      unfold Deck.swap
      rw [List.getElem?_eq_getElem hi, List.getElem?_eq_getElem hj]
      exact ⟨_, rfl⟩
    have hp := swap_perm hd2
    obtain ⟨d1, hd1, hperm⟩ := Shuffle_some rest d2 (fun s hs => by
      rw [hp.length_eq]
      exact h s (List.mem_cons_of_mem _ hs))
    refine ⟨d1, ?_, hperm.trans hp⟩
    unfold Deck.Shuffle
    rw [hd2]
    exact hd1

theorem NewDeck_length : NewDeck.Cards.length = 52 := by decide

/-- The dealer seat and the blinds of the state `StartNewHand` returns. -/
theorem StartNewHand_frame (g : GameState) (swaps : List (Nat × Nat))
    (hne : g.Players ≠ []) (hd : 0 ≤ g.DealerPos)
    (hsw : ∀ s ∈ swaps, s.1 < 52 ∧ s.2 < 52) :
    ∃ g1, g.StartNewHand swaps = some g1 ∧
      g1.DealerPos = (((g.DealerPos.toNat + 1) % g.Players.length : Nat) : Int) ∧
      g1.SmallBlind = g.SmallBlind ∧ g1.BigBlind = g.BigBlind ∧
      g1.CurrentBet = g.BigBlind ∧ g1.Pot = 0 ∧ g1.CurrentPhase = PreFlop ∧
      g1.CommunityCards = [] ∧ g1.LastRaisePos = -1 ∧ g1.MinRaise = g.BigBlind := by
  obtain ⟨deck, hsh, _⟩ := Shuffle_some swaps NewDeck (by rw [NewDeck_length]; exact hsw)
  obtain ⟨sb, bb, pos, psb, pbb, P1, P2, g7, _, _, _, _, _, _, hg7, _, hstart⟩ :=
    StartNewHand_spec g swaps deck hne hd hsh
  obtain ⟨P, D, hdeal, _⟩ := dealHoleCards_frame 2
    { Players := P2, Deck := deck, CommunityCards := [], CurrentPhase := PreFlop,
      Pot := 0, CurrentBet := g.BigBlind, SmallBlind := g.SmallBlind,
      BigBlind := g.BigBlind,
      DealerPos := (((g.DealerPos.toNat + 1) % g.Players.length : Nat) : Int),
      CurrentPos := g.CurrentPos, LastRaisePos := -1, MinRaise := g.BigBlind }
  rw [hdeal] at hg7
  refine ⟨_, hstart, ?_⟩
  rw [hg7]
  exact ⟨rfl, rfl, rfl, rfl, rfl, rfl, rfl, rfl, rfl⟩

/-- C16, amended: on every table with at least one seat and a dealer index that is not
negative, StartNewHand moves the dealer seat to the seat right after it clockwise,
(DealerPos + 1) mod n, whether or not the player of that seat has chips. -/
theorem StartNewHand_button (g : GameState) (swaps : List (Nat × Nat))
    (hne : g.Players ≠ []) (hd : 0 ≤ g.DealerPos)
    (hsw : ∀ s ∈ swaps, s.1 < 52 ∧ s.2 < 52) :
    ∃ g1, g.StartNewHand swaps = some g1 ∧
      g1.DealerPos = (g.DealerPos + 1) % (g.Players.length : Int) := by
  obtain ⟨g1, h, hdp, _⟩ := StartNewHand_frame g swaps hne hd hsw
  refine ⟨g1, h, ?_⟩
  rw [hdp]
  have hcast : ((g.DealerPos.toNat : Nat) : Int) = g.DealerPos := Int.toNat_of_nonneg hd
  push_cast
  rw [hcast]

theorem StartNewHand_button_witness :
    ∃ g1, tableBusted.StartNewHand sampleSwaps = some g1 ∧
      g1.DealerPos = (tableBusted.DealerPos + 1) % (tableBusted.Players.length : Int) :=
  StartNewHand_button tableBusted sampleSwaps (by decide) (by decide) (by decide)

/-- C16 as stated fails: in `tableBusted` the button is at seat 0 and the player of seat 1 has
no chips; after StartNewHand the dealer seat is seat 1, whose player is Out with stack 0,
not seat 2, the first seat clockwise with chips. -/
theorem StartNewHand_button_on_empty_stack :
    tableBusted.DealerPos = 0 ∧
    tableBusted.Players.map (fun p => p.Chips) = [1000, 0, 1000] ∧
    (tableBusted.StartNewHand sampleSwaps).map
      (fun g1 => (g1.DealerPos, g1.Players.map (fun p => (p.Chips + p.Bet, p.Status)))) =
      some (1, [(1000, Active), (0, Out), (1000, Active)]) := by
  refine ⟨by decide, by decide, by decide⟩

/-! ## The blinds -/

theorem Reset_of_pos {p : Player} (h : 0 < p.Chips) :
    p.ResetForNewHand = { p with Cards := [], Bet := 0, Status := Active } := by
  unfold Player.ResetForNewHand
  simp only
  rw [if_pos h]

theorem seatActive_of_all {ps : List Player} (h : ∀ p ∈ ps, p.Status = Active) {i : Nat}
    (hi : i < ps.length) : seatActive ps i = true :=
  seatActive_of_getElem? (List.getElem?_eq_getElem hi)
    (h _ (List.getElem?_mem (List.getElem?_eq_getElem hi)))

theorem nextSeat_of_all {ps : List Player} (h : ∀ p ∈ ps, p.Status = Active) {q r : Nat}
    (hns : NextSeat ps q r) (hpos : 0 < ps.length) : r = (q + 1) % ps.length :=
  hns.2.2.2 (seatActive_of_all h (Nat.mod_lt _ hpos))

theorem succ_mod_ne {n s : Nat} (hn : 2 ≤ n) (hs : s < n) : s ≠ (s + 1) % n := by
  intro h
  rcases Nat.lt_or_ge (s + 1) n with h1 | h1
  · rw [Nat.mod_eq_of_lt h1] at h; omega
  · have h2 : s + 1 = n := by omega
    rw [h2, Nat.mod_self] at h; omega

theorem all_of_stake {ps qs : List Player}
    (h : ps.map (fun p => (p.Status, p.Chips, p.Bet)) =
      qs.map (fun p => (p.Status, p.Chips, p.Bet)))
    (hq : ∀ p ∈ qs, p.Status = Active) : ∀ p ∈ ps, p.Status = Active := by
  intro p hp
  have hm : (p.Status, p.Chips, p.Bet) ∈ ps.map (fun p => (p.Status, p.Chips, p.Bet)) :=
    List.mem_map.mpr ⟨p, hp, rfl⟩
  rw [h] at hm
  obtain ⟨q, hq1, hqe⟩ := List.mem_map.mp hm
  have hs : q.Status = p.Status := congrArg Prod.fst hqe
  rw [← hs]
  exact hq q hq1

theorem findNext_of_all (g : GameState) (h : ∀ p ∈ g.Players, p.Status = Active) (q : Nat)
    (hq : q < g.Players.length) :
    g.findNextActivePosition (q : Int) = some (((q + 1) % g.Players.length : Nat) : Int) := by
  obtain ⟨r, hfn, hns⟩ := findNext_nextSeat g q hq
  rw [hfn, nextSeat_of_all h hns (by omega)]

/-- C15: on a table of n >= 2 players who all have a stack above BigBlind >= SmallBlind > 0,
StartNewHand (dealer index not negative, shuffle in range) returns a state with dealer seat d
in which every player is Active, the seat sb = d + 1 mod n, which is the first Active seat
clockwise after d, has Bet = SmallBlind and its stack reduced by SmallBlind, the seat
bb = sb + 1 mod n, the first Active seat clockwise after sb, has Bet = BigBlind and its stack
reduced by BigBlind, every other seat has Bet = 0 and its stack untouched, CurrentBet is
BigBlind, and the acting seat is the first Active seat clockwise after bb. -/
theorem StartNewHand_blinds (g : GameState) (swaps : List (Nat × Nat))
    (hn : 2 ≤ g.Players.length) (hchips : ∀ p ∈ g.Players, g.BigBlind < p.Chips)
    (hsb : 0 < g.SmallBlind) (hbb : g.SmallBlind ≤ g.BigBlind)
    (hd : 0 ≤ g.DealerPos) (hsw : ∀ s ∈ swaps, s.1 < 52 ∧ s.2 < 52) :
    ∃ (g1 : GameState) (d sb bb : Nat),
      g.StartNewHand swaps = some g1 ∧
      d = (g.DealerPos.toNat + 1) % g.Players.length ∧
      sb = (d + 1) % g.Players.length ∧ bb = (sb + 1) % g.Players.length ∧ sb ≠ bb ∧
      g1.DealerPos = (d : Int) ∧
      g1.Players.length = g.Players.length ∧
      (∀ p ∈ g1.Players, p.Status = Active) ∧
      g1.findNextActivePosition (d : Int) = some (sb : Int) ∧
      g1.findNextActivePosition (sb : Int) = some (bb : Int) ∧
      g1.findNextActivePosition (bb : Int) = some g1.CurrentPos ∧
      g1.CurrentPos = (((bb + 1) % g.Players.length : Nat) : Int) ∧
      g1.CurrentBet = g.BigBlind ∧
      (∀ (i : Nat) (p0 : Player), g.Players[i]? = some p0 →
        ∃ p1, g1.Players[i]? = some p1 ∧
          (i = sb → p1.Bet = g.SmallBlind ∧ p1.Chips = p0.Chips - g.SmallBlind) ∧
          (i = bb → p1.Bet = g.BigBlind ∧ p1.Chips = p0.Chips - g.BigBlind) ∧
          (i ≠ sb → i ≠ bb → p1.Bet = 0 ∧ p1.Chips = p0.Chips)) := by
  have hne : g.Players ≠ [] := by
    intro h; rw [h] at hn; simp at hn
  have hpos : 0 < g.Players.length := by omega
  obtain ⟨deck, hsh, _⟩ := Shuffle_some swaps NewDeck (by rw [NewDeck_length]; exact hsw)
  obtain ⟨sb, bb, pos, psb, pbb, P1, P2, g7, hns1, hpsb, hP1, hns2, hpbb, hP2, hg7, hns3,
    hstart⟩ := StartNewHand_spec g swaps deck hne hd hsh
  obtain ⟨P, D, hdeal, hstake0⟩ := dealHoleCards_frame 2
    { Players := P2, Deck := deck, CommunityCards := [], CurrentPhase := PreFlop,
      Pot := 0, CurrentBet := g.BigBlind, SmallBlind := g.SmallBlind,
      BigBlind := g.BigBlind,
      DealerPos := (((g.DealerPos.toNat + 1) % g.Players.length : Nat) : Int),
      CurrentPos := g.CurrentPos, LastRaisePos := -1, MinRaise := g.BigBlind }
  have hstake : P.map (fun p => (p.Status, p.Chips, p.Bet)) =
      P2.map (fun p => (p.Status, p.Chips, p.Bet)) := hstake0
  rw [hdeal] at hg7
  have hg7P : g7.Players = P := by rw [hg7]
  have hRlen : (g.Players.map Player.ResetForNewHand).length = g.Players.length :=
    List.length_map _ _
  have hR : ∀ (i : Nat) (p0 : Player), g.Players[i]? = some p0 →
      (g.Players.map Player.ResetForNewHand)[i]? =
        some { p0 with Cards := [], Bet := 0, Status := Active } := by
    intro i p0 h0
    have hc := hchips p0 (List.getElem?_mem h0)
    rw [List.getElem?_map, h0, Option.map_some', Reset_of_pos (by omega)]
  have hRall : ∀ p ∈ g.Players.map Player.ResetForNewHand, p.Status = Active := by
    intro p hp
    obtain ⟨p0, hp0, rfl⟩ := List.mem_map.mp hp
    have hc := hchips p0 hp0
    rw [Reset_of_pos (by omega)]
  -- the small blind
  have hsbeq := nextSeat_of_all hRall hns1 (by rw [hRlen]; exact hpos)
  rw [hRlen] at hsbeq
  have hsblt : sb < g.Players.length := by rw [hsbeq]; exact Nat.mod_lt _ hpos
  obtain ⟨s0, hs0⟩ : ∃ s0, g.Players[sb]? = some s0 := ⟨_, List.getElem?_eq_getElem hsblt⟩
  have hpsb1 : psb = { s0 with Cards := [], Bet := 0, Status := Active } := by
    have h1 := hR sb s0 hs0
    rw [hpsb] at h1
    exact Option.some.inj h1
  have hs0c := hchips s0 (List.getElem?_mem hs0)
  have hpsbC : psb.Chips = s0.Chips := by rw [hpsb1]
  have hpsbB : psb.Bet = 0 := by rw [hpsb1]
  have hpsbS : psb.Status = Active := by rw [hpsb1]
  obtain ⟨_, haC, haB, haS⟩ := @PlaceBet_accepted psb g.SmallBlind (by omega)
  rw [if_neg (by omega), hpsbS] at haS
  rw [hpsbC] at haC
  rw [hpsbB] at haB
  have hP1all : ∀ p ∈ P1, p.Status = Active := by
    intro p hp
    rw [hP1] at hp
    rcases List.mem_or_eq_of_mem_set hp with h | h
    · exact hRall p h
    · rw [h]; exact haS
  have hP1len : P1.length = g.Players.length := by rw [hP1, List.length_set, hRlen]
  -- the big blind
  have hbbeq := nextSeat_of_all hP1all hns2 (by rw [hP1len]; exact hpos)
  rw [hP1len] at hbbeq
  have hbblt : bb < g.Players.length := by rw [hbbeq]; exact Nat.mod_lt _ hpos
  have hsbbb : sb ≠ bb := by rw [hbbeq]; exact succ_mod_ne hn hsblt
  obtain ⟨b0, hb0⟩ : ∃ b0, g.Players[bb]? = some b0 := ⟨_, List.getElem?_eq_getElem hbblt⟩
  have hpbb1 : pbb = { b0 with Cards := [], Bet := 0, Status := Active } := by
    have h1 := hR bb b0 hb0
    rw [hP1, List.getElem?_set_ne hsbbb, h1] at hpbb
    exact (Option.some.inj hpbb).symm
  have hb0c := hchips b0 (List.getElem?_mem hb0)
  have hpbbC : pbb.Chips = b0.Chips := by rw [hpbb1]
  have hpbbB : pbb.Bet = 0 := by rw [hpbb1]
  have hpbbS : pbb.Status = Active := by rw [hpbb1]
  obtain ⟨_, hbC, hbB, hbS⟩ := @PlaceBet_accepted pbb g.BigBlind (by omega)
  rw [if_neg (by omega), hpbbS] at hbS
  rw [hpbbC] at hbC
  rw [hpbbB] at hbB
  have hP2all : ∀ p ∈ P2, p.Status = Active := by
    intro p hp
    rw [hP2] at hp
    rcases List.mem_or_eq_of_mem_set hp with h | h
    · exact hP1all p h
    · rw [h]; exact hbS
  have hP2len : P2.length = g.Players.length := by rw [hP2, List.length_set, hP1len]
  -- the state returned
  have hPall : ∀ p ∈ P, p.Status = Active := all_of_stake hstake hP2all
  have hPlen : P.length = g.Players.length := by rw [stake_length hstake, hP2len]
  rw [hg7P] at hns3
  have hposeq := nextSeat_of_all hPall hns3 (by rw [hPlen]; exact hpos)
  rw [hPlen] at hposeq
  have hdlt : (g.DealerPos.toNat + 1) % g.Players.length < g.Players.length :=
    Nat.mod_lt _ hpos
  have hfind : ∀ q : Nat, q < g.Players.length →
      GameState.findNextActivePosition { g7 with CurrentPos := (pos : Int) } (q : Int) =
        some (((q + 1) % g.Players.length : Nat) : Int) := by
    intro q hq
    have h1 := findNext_of_all { g7 with CurrentPos := (pos : Int) }
      (by show ∀ p ∈ g7.Players, p.Status = Active; rw [hg7P]; exact hPall) q
      (by show q < g7.Players.length; rw [hg7P, hPlen]; exact hq)
    rw [h1]
    show some (((q + 1) % g7.Players.length : Nat) : Int) = _
    rw [hg7P, hPlen]
  refine ⟨{ g7 with CurrentPos := (pos : Int) }, (g.DealerPos.toNat + 1) % g.Players.length,
    sb, bb, hstart, rfl, hsbeq, hbbeq, hsbbb, by rw [hg7], by
      show g7.Players.length = _
      rw [hg7P, hPlen], by
      show ∀ p ∈ g7.Players, p.Status = Active
      rw [hg7P]; exact hPall, ?_, ?_, ?_, by
      show (pos : Int) = _
      rw [hposeq], by rw [hg7], ?_⟩
  · rw [hfind _ hdlt, ← hsbeq]
  · rw [hfind _ hsblt, ← hbbeq]
  · rw [hfind _ hbblt, ← hposeq]
  · intro i p0 h0
    have hi : i < g.Players.length := (List.getElem?_eq_some.mp h0).1
    have hst : (P[i]?).map (fun p => (p.Status, p.Chips, p.Bet)) =
        (P2[i]?).map (fun p => (p.Status, p.Chips, p.Bet)) := stake_getElem? hstake i
    obtain ⟨p1, hp1⟩ : ∃ p1, P[i]? = some p1 :=
      ⟨_, List.getElem?_eq_getElem (by rw [hPlen]; exact hi)⟩
    rw [hp1] at hst
    refine ⟨p1, by show g7.Players[i]? = _; rw [hg7P]; exact hp1, ?_, ?_, ?_⟩
    · intro hisb
      have h2 : P2[i]? = some (psb.PlaceBet g.SmallBlind).2 := by
        rw [hP2, List.getElem?_set_ne (by omega), hP1, hisb,
          List.getElem?_set_self (by rw [hRlen]; exact hsblt)]
      rw [h2] at hst
      have h3 := Option.some.inj hst
      have h4 : p1.Chips = (psb.PlaceBet g.SmallBlind).2.Chips := congrArg (fun t => t.2.1) h3
      have h5 : p1.Bet = (psb.PlaceBet g.SmallBlind).2.Bet := congrArg (fun t => t.2.2) h3
      have h6 : s0 = p0 := by
        rw [hisb, hs0] at h0; exact Option.some.inj h0
      rw [h4, h5, haC, haB, h6]
      exact ⟨by omega, rfl⟩
    · intro hibb
      have h2 : P2[i]? = some (pbb.PlaceBet g.BigBlind).2 := by
        rw [hP2, hibb, List.getElem?_set_self (by rw [hP1len]; exact hbblt)]
      rw [h2] at hst
      have h3 := Option.some.inj hst
      have h4 : p1.Chips = (pbb.PlaceBet g.BigBlind).2.Chips := congrArg (fun t => t.2.1) h3
      have h5 : p1.Bet = (pbb.PlaceBet g.BigBlind).2.Bet := congrArg (fun t => t.2.2) h3
      have h6 : b0 = p0 := by
        rw [hibb, hb0] at h0; exact Option.some.inj h0
      rw [h4, h5, hbC, hbB, h6]
      exact ⟨by omega, rfl⟩
    · intro h1 h2
      have h3 : P2[i]? = some { p0 with Cards := [], Bet := 0, Status := Active } := by
        rw [hP2, List.getElem?_set_ne (by omega), hP1, List.getElem?_set_ne (by omega)]
        exact hR i p0 h0
      rw [h3] at hst
      have h4 := Option.some.inj hst
      exact ⟨congrArg (fun t => t.2.2) h4, congrArg (fun t => t.2.1) h4⟩

theorem StartNewHand_blinds_witness :
    ∃ (g1 : GameState) (d sb bb : Nat),
      tableFresh.StartNewHand sampleSwaps = some g1 ∧
      d = (tableFresh.DealerPos.toNat + 1) % tableFresh.Players.length ∧
      sb = (d + 1) % tableFresh.Players.length ∧
      bb = (sb + 1) % tableFresh.Players.length ∧ sb ≠ bb ∧
      g1.DealerPos = (d : Int) ∧
      g1.Players.length = tableFresh.Players.length ∧
      (∀ p ∈ g1.Players, p.Status = Active) ∧
      g1.findNextActivePosition (d : Int) = some (sb : Int) ∧
      g1.findNextActivePosition (sb : Int) = some (bb : Int) ∧
      g1.findNextActivePosition (bb : Int) = some g1.CurrentPos ∧
      g1.CurrentPos = (((bb + 1) % tableFresh.Players.length : Nat) : Int) ∧
      g1.CurrentBet = tableFresh.BigBlind ∧
      (∀ (i : Nat) (p0 : Player), tableFresh.Players[i]? = some p0 →
        ∃ p1, g1.Players[i]? = some p1 ∧
          (i = sb → p1.Bet = tableFresh.SmallBlind ∧
            p1.Chips = p0.Chips - tableFresh.SmallBlind) ∧
          (i = bb → p1.Bet = tableFresh.BigBlind ∧
            p1.Chips = p0.Chips - tableFresh.BigBlind) ∧
          (i ≠ sb → i ≠ bb → p1.Bet = 0 ∧ p1.Chips = p0.Chips)) :=
  StartNewHand_blinds tableFresh sampleSwaps (by decide) (by decide) (by decide) (by decide)
    (by decide) (by decide)

/-! ## The deal of the hole cards -/

theorem dealPass_cards : ∀ (ps : List Player) (d : Deck),
    (ps.filter inHand).length ≤ d.Cards.length →
    (dealPass ps d).2.Cards = d.Cards.drop (ps.filter inHand).length ∧
    ((dealPass ps d).1.filter inHand).map (fun p => p.Cards) =
      List.zipWith (fun x c => x ++ [c]) ((ps.filter inHand).map (fun p => p.Cards))
        d.Cards ∧
    (dealPass ps d).1.filter (fun p => !inHand p) = ps.filter (fun p => !inHand p)
  | [], d, _ => ⟨rfl, by simp [dealPass], rfl⟩
  | p :: ps, d, h => by
    by_cases hp : inHand p = true
    · have hp1 : (p.IsActive || p.Status == AllInStatus) = true := hp
      rw [List.filter_cons_of_pos hp] at h
      obtain ⟨c, cs, hcs⟩ : ∃ c cs, d.Cards = c :: cs := by
        cases hc : d.Cards with
        | nil => rw [hc] at h; simp at h
        | cons c cs => exact ⟨c, cs, rfl⟩
      have hdraw : d.DrawOne = ((c, true), { Cards := cs }) := by
        unfold Deck.DrawOne
        rw [hcs]
      rw [hcs] at h
      obtain ⟨h1, h2, h3⟩ := dealPass_cards ps { Cards := cs }
        (by simpa using h)
      have hp2 : inHand { p with Cards := p.Cards ++ [c] } = true := hp
      unfold dealPass
      rw [if_pos hp1]
      simp only [hdraw, if_true]
      rw [List.filter_cons_of_pos hp, List.filter_cons_of_pos hp2, hcs]
      refine ⟨?_, ?_, ?_⟩
      · rw [h1]; rfl
      · rw [List.map_cons, List.map_cons, List.zipWith_cons_cons, h2]
      · rw [List.filter_cons_of_neg (by simp [hp2]), List.filter_cons_of_neg (by simp [hp]), h3]
    · have hp1 : ¬ (p.IsActive || p.Status == AllInStatus) = true := hp
      rw [List.filter_cons_of_neg hp] at h
      obtain ⟨h1, h2, h3⟩ := dealPass_cards ps d h
      unfold dealPass
      rw [if_neg hp1]
      simp only
      rw [List.filter_cons_of_neg hp, List.filter_cons_of_neg hp]
      refine ⟨h1, h2, ?_⟩
      rw [List.filter_cons_of_pos (by simp [hp]), List.filter_cons_of_pos (by simp [hp]), h3]

/-- The two deal passes over a table whose players hold no cards, with enough cards in the
deck: with `m` players in the hand, the `k`-th of them gets cards `k` and `m + k` of the deck,
the others get none, and the deck loses its first `2 * m` cards. -/
theorem dealHoleCards_two (g : GameState) (hc : ∀ p ∈ g.Players, p.Cards = [])
    (hm : 2 * (g.Players.filter inHand).length ≤ g.Deck.Cards.length) :
    ((g.dealHoleCards 2).Players.filter inHand).length = (g.Players.filter inHand).length ∧
    (g.dealHoleCards 2).Deck.Cards = g.Deck.Cards.drop (2 * (g.Players.filter inHand).length) ∧
    (∀ k, k < (g.Players.filter inHand).length → ∃ p c1 c2,
      ((g.dealHoleCards 2).Players.filter inHand)[k]? = some p ∧
      g.Deck.Cards[k]? = some c1 ∧
      g.Deck.Cards[(g.Players.filter inHand).length + k]? = some c2 ∧ p.Cards = [c1, c2]) ∧
    (∀ p ∈ (g.dealHoleCards 2).Players, inHand p = false → p.Cards = []) := by
  obtain ⟨a1, a2, a3⟩ := dealPass_cards g.Players g.Deck (by omega)
  have hlen1 : ((dealPass g.Players g.Deck).1.filter inHand).length =
      (g.Players.filter inHand).length := by
    have h := congrArg List.length a2
    rw [List.length_map, List.length_zipWith, List.length_map] at h
    omega
  obtain ⟨b1, b2, b3⟩ := dealPass_cards (dealPass g.Players g.Deck).1 (dealPass g.Players g.Deck).2
    (by rw [hlen1, a1, List.length_drop]; omega)
  have hlen2 : ((dealPass (dealPass g.Players g.Deck).1 (dealPass g.Players g.Deck).2).1.filter
      inHand).length = (g.Players.filter inHand).length := by
    have h := congrArg List.length b2
    rw [List.length_map, List.length_zipWith, List.length_map, hlen1, a1, List.length_drop] at h
    omega
  have hP : (g.dealHoleCards 2).Players =
      (dealPass (dealPass g.Players g.Deck).1 (dealPass g.Players g.Deck).2).1 := rfl
  have hD : (g.dealHoleCards 2).Deck =
      (dealPass (dealPass g.Players g.Deck).1 (dealPass g.Players g.Deck).2).2 := rfl
  rw [hP, hD]
  refine ⟨hlen2, ?_, ?_, ?_⟩
  · rw [b1, hlen1, a1, List.drop_drop]
    congr 1
    omega
  · intro k hk
    obtain ⟨c1, hc1⟩ : ∃ c1, g.Deck.Cards[k]? = some c1 :=
      ⟨_, List.getElem?_eq_getElem (by omega)⟩
    obtain ⟨c2, hc2⟩ : ∃ c2, g.Deck.Cards[(g.Players.filter inHand).length + k]? = some c2 :=
      ⟨_, List.getElem?_eq_getElem (by omega)⟩
    obtain ⟨p0, hp0⟩ : ∃ p0, (g.Players.filter inHand)[k]? = some p0 :=
      ⟨_, List.getElem?_eq_getElem hk⟩
    have hp0c : p0.Cards = [] := hc p0 (List.mem_of_mem_filter (List.getElem?_mem hp0))
    have h1 : (((dealPass g.Players g.Deck).1.filter inHand).map (fun p => p.Cards))[k]? =
        some [c1] := by
      rw [a2, List.getElem?_zipWith, List.getElem?_map, hp0, hc1]
      simp [hp0c]
    have h2 : (((dealPass (dealPass g.Players g.Deck).1 (dealPass g.Players g.Deck).2).1.filter
        inHand).map (fun p => p.Cards))[k]? = some [c1, c2] := by
      rw [b2, List.getElem?_zipWith, h1, a1, List.getElem?_drop, hc2]
      rfl
    rw [List.getElem?_map] at h2
    obtain ⟨p, hp, hpc⟩ := Option.map_eq_some'.mp h2
    exact ⟨p, c1, c2, hp, hc1, hc2, hpc⟩
  · intro p hp hin
    have h1 : p ∈ (dealPass (dealPass g.Players g.Deck).1 (dealPass g.Players g.Deck).2).1.filter
        (fun p => !inHand p) := List.mem_filter.mpr ⟨hp, by simp [hin]⟩
    rw [b3, a3] at h1
    exact hc p (List.mem_of_mem_filter h1)

theorem inHand_iff (p : Player) :
    inHand p = true ↔ (p.Status = Active ∨ p.Status = AllInStatus) := by
  simp [inHand, Player.IsActive]

theorem Reset_Cards (p : Player) : p.ResetForNewHand.Cards = [] := by
  unfold Player.ResetForNewHand
  simp only
  split_ifs <;> rfl

theorem PlaceBet_Cards (p : Player) (amount : Int) : (p.PlaceBet amount).2.Cards = p.Cards := by
  unfold Player.PlaceBet
  simp only
  split_ifs <;> rfl

/-- C17: on a table of 1 to 10 players (dealer index not negative, shuffle in range),
StartNewHand returns a state in which every player whose status is Active or AllIn holds
exactly 2 hole cards and every other player holds none; with m players in the hand, the k-th
of them in seat order (0-based) holds the cards k and m + k of the shuffled deck, in this
order, and the deck is left with the remaining 52 - 2m cards in order. -/
theorem StartNewHand_deal (g : GameState) (swaps : List (Nat × Nat))
    (hne : g.Players ≠ []) (h10 : g.Players.length ≤ 10) (hd : 0 ≤ g.DealerPos)
    (hsw : ∀ s ∈ swaps, s.1 < 52 ∧ s.2 < 52) :
    ∃ (deck : Deck) (g1 : GameState) (m : Nat),
      NewDeck.Shuffle swaps = some deck ∧ g.StartNewHand swaps = some g1 ∧
      m = (g1.Players.filter inHand).length ∧
      (∀ p ∈ g1.Players, (p.Status = Active ∨ p.Status = AllInStatus) → p.Cards.length = 2) ∧
      (∀ p ∈ g1.Players, ¬ (p.Status = Active ∨ p.Status = AllInStatus) → p.Cards = []) ∧
      (∀ k, k < m → ∃ p c1 c2, (g1.Players.filter inHand)[k]? = some p ∧
        deck.Cards[k]? = some c1 ∧ deck.Cards[m + k]? = some c2 ∧ p.Cards = [c1, c2]) ∧
      g1.Deck.Cards = deck.Cards.drop (2 * m) ∧ g1.Deck.Cards.length = 52 - 2 * m := by
  obtain ⟨deck, hsh, hperm⟩ := Shuffle_some swaps NewDeck (by rw [NewDeck_length]; exact hsw)
  have hdl : deck.Cards.length = 52 := by rw [hperm.length_eq, NewDeck_length]
  obtain ⟨sb, bb, pos, psb, pbb, P1, P2, g7, _, hpsb, hP1, _, hpbb, hP2, hg7, _, hstart⟩ :=
    StartNewHand_spec g swaps deck hne hd hsh
  have hP1c : ∀ p ∈ P1, p.Cards = [] := by
    intro p hp
    rw [hP1] at hp
    rcases List.mem_or_eq_of_mem_set hp with h | h
    · obtain ⟨p0, _, rfl⟩ := List.mem_map.mp h
      exact Reset_Cards p0
    · rw [h, PlaceBet_Cards]
      obtain ⟨p0, _, hp0⟩ := List.mem_map.mp (List.getElem?_mem hpsb)
      rw [← hp0]
      exact Reset_Cards p0
  have hP2c : ∀ p ∈ P2, p.Cards = [] := by
    intro p hp
    rw [hP2] at hp
    rcases List.mem_or_eq_of_mem_set hp with h | h
    · exact hP1c p h
    · rw [h, PlaceBet_Cards]
      exact hP1c pbb (List.getElem?_mem hpbb)
  have hP2len : P2.length = g.Players.length := by
    rw [hP2, List.length_set, hP1, List.length_set, List.length_map]
  have hm10 : (P2.filter inHand).length ≤ 10 :=
    Nat.le_trans (List.length_filter_le _ _) (by rw [hP2len]; exact h10)
  obtain ⟨t1, t2, t3, t4⟩ := dealHoleCards_two
    { Players := P2, Deck := deck, CommunityCards := [], CurrentPhase := PreFlop,
      Pot := 0, CurrentBet := g.BigBlind, SmallBlind := g.SmallBlind,
      BigBlind := g.BigBlind,
      DealerPos := (((g.DealerPos.toNat + 1) % g.Players.length : Nat) : Int),
      CurrentPos := g.CurrentPos, LastRaisePos := -1, MinRaise := g.BigBlind }
    hP2c (by show 2 * (P2.filter inHand).length ≤ deck.Cards.length; omega)
  rw [← hg7] at t1 t2 t3 t4
  have t1' : (g7.Players.filter inHand).length = (P2.filter inHand).length := t1
  have t2' : g7.Deck.Cards = deck.Cards.drop (2 * (P2.filter inHand).length) := t2
  have t3' : ∀ k, k < (P2.filter inHand).length → ∃ p c1 c2,
      (g7.Players.filter inHand)[k]? = some p ∧ deck.Cards[k]? = some c1 ∧
      deck.Cards[(P2.filter inHand).length + k]? = some c2 ∧ p.Cards = [c1, c2] := t3
  refine ⟨deck, { g7 with CurrentPos := (pos : Int) }, (P2.filter inHand).length, hsh, hstart,
    t1'.symm, ?_, ?_, t3', t2', ?_⟩
  · intro p hp hs
    have hin : p ∈ g7.Players.filter inHand := List.mem_filter.mpr ⟨hp, (inHand_iff p).mpr hs⟩
    obtain ⟨k, hk⟩ := List.mem_iff_getElem?.mp hin
    have hklt : k < (P2.filter inHand).length := by
      rw [← t1']
      exact (List.getElem?_eq_some.mp hk).1
    obtain ⟨q, c1, c2, hq, _, _, hqc⟩ := t3' k hklt
    rw [hk] at hq
    rw [Option.some.inj hq, hqc]
    rfl
  · intro p hp hs
    apply t4 p hp
    cases hin : inHand p
    · rfl
    · exact absurd ((inHand_iff p).mp hin) hs
  · show g7.Deck.Cards.length = _
    rw [t2', List.length_drop, hdl]

theorem StartNewHand_deal_witness :
    ∃ (deck : Deck) (g1 : GameState) (m : Nat),
      NewDeck.Shuffle sampleSwaps = some deck ∧ tableBusted.StartNewHand sampleSwaps = some g1 ∧
      m = (g1.Players.filter inHand).length ∧
      (∀ p ∈ g1.Players, (p.Status = Active ∨ p.Status = AllInStatus) → p.Cards.length = 2) ∧
      (∀ p ∈ g1.Players, ¬ (p.Status = Active ∨ p.Status = AllInStatus) → p.Cards = []) ∧
      (∀ k, k < m → ∃ p c1 c2, (g1.Players.filter inHand)[k]? = some p ∧
        deck.Cards[k]? = some c1 ∧ deck.Cards[m + k]? = some c2 ∧ p.Cards = [c1, c2]) ∧
      g1.Deck.Cards = deck.Cards.drop (2 * m) ∧ g1.Deck.Cards.length = 52 - 2 * m :=
  StartNewHand_deal tableBusted sampleSwaps (by decide) (by decide) (by decide) (by decide)

/-! ## No card twice -/

theorem kept_refl (g : GameState) : CardsKept g g :=
  ⟨rfl, List.Sublist.refl _⟩

theorem kept_trans {a b c : GameState} (h1 : CardsKept a b) (h2 : CardsKept b c) :
    CardsKept a c :=
  ⟨h2.1.trans h1.1, h2.2.trans h1.2⟩

theorem kept_allCards {g g1 : GameState} (h : CardsKept g g1) :
    (allCards g1).Sublist (allCards g) := by
  unfold allCards
  rw [List.append_assoc, List.append_assoc, h.1]
  exact List.Sublist.append (List.Sublist.refl _) h.2

theorem DrawOne_nil {d : Deck} (h : d.Cards = []) :
    d.DrawOne = (({ Rank := 0, Suit := 0 }, false), d) := by
  unfold Deck.DrawOne
  rw [h]

theorem DrawOne_cons {d : Deck} {c : Card} {cs : List Card} (h : d.Cards = c :: cs) :
    d.DrawOne = ((c, true), { Cards := cs }) := by
  unfold Deck.DrawOne
  rw [h]

theorem DrawOne_sublist (d : Deck) : d.DrawOne.2.Cards.Sublist d.Cards := by
  cases hc : d.Cards with
  | nil => rw [DrawOne_nil hc, hc]
  | cons c cs =>
    rw [DrawOne_cons hc]
    exact List.sublist_cons_self c cs

theorem dealCommunity_cards : ∀ (k : Nat) (g : GameState),
    (g.dealCommunity k).Players = g.Players ∧
    (g.dealCommunity k).CommunityCards ++ (g.dealCommunity k).Deck.Cards =
      g.CommunityCards ++ g.Deck.Cards
  | 0, g => ⟨rfl, rfl⟩
  | k + 1, g => by
    unfold GameState.dealCommunity
    simp only
    cases hc : g.Deck.Cards with
    | nil =>
      rw [DrawOne_nil hc]
      obtain ⟨h1, h2⟩ := dealCommunity_cards k { g with Deck := g.Deck }
      simp only [Bool.false_eq_true, if_false]
      exact ⟨h1, by rw [h2, hc]⟩
    | cons c cs =>
      rw [DrawOne_cons hc]
      obtain ⟨h1, h2⟩ := dealCommunity_cards k
        { g with Deck := { Cards := cs }, CommunityCards := g.CommunityCards ++ [c] }
      simp only [if_true]
      refine ⟨h1, ?_⟩
      rw [h2]
      simp

theorem dealStreet_cards {g g1 : GameState} {k : Nat} {phase : Int}
    (h : g.dealStreet k phase = some g1) : CardsKept g g1 := by
  unfold GameState.dealStreet at h
  simp only at h
  split at h
  · cases h
  · obtain ⟨h1, h2⟩ := dealCommunity_cards k { g with Deck := g.Deck.DrawOne.2 }
    cases h
    refine ⟨congrArg (List.map (fun p => p.Cards)) h1, ?_⟩
    show ((GameState.dealCommunity { g with Deck := g.Deck.DrawOne.2 } k).CommunityCards ++
      (GameState.dealCommunity { g with Deck := g.Deck.DrawOne.2 } k).Deck.Cards).Sublist _
    rw [h2]
    exact List.Sublist.append (List.Sublist.refl _) (DrawOne_sublist g.Deck)

theorem DealFlop_cards {g g1 : GameState} (h : g.DealFlop = some g1) : CardsKept g g1 := by
  unfold GameState.DealFlop at h
  split_ifs at h
  · cases h; exact kept_refl g
  · exact dealStreet_cards h

theorem DealTurn_cards {g g1 : GameState} (h : g.DealTurn = some g1) : CardsKept g g1 := by
  unfold GameState.DealTurn at h
  split_ifs at h
  · cases h; exact kept_refl g
  · exact dealStreet_cards h

theorem DealRiver_cards {g g1 : GameState} (h : g.DealRiver = some g1) : CardsKept g g1 := by
  unfold GameState.DealRiver at h
  split_ifs at h
  · cases h; exact kept_refl g
  · exact dealStreet_cards h

theorem advancePhase_cards {g g1 : GameState} (h : g.advancePhase = some g1) :
    CardsKept g g1 := by
  unfold GameState.advancePhase at h
  split_ifs at h
  · exact DealFlop_cards h
  · exact DealTurn_cards h
  · exact DealRiver_cards h
  · cases h; exact kept_refl g
  · cases h; exact kept_refl g

theorem roundClosure_cards {g g1 : GameState} {b : Bool}
    (h : g.roundClosure = some (b, g1)) : CardsKept g g1 := by
  unfold GameState.roundClosure at h
  split at h
  · cases h
  · rename_i pos _
    simp only at h
    split_ifs at h
    · split at h
      · cases h
      · rename_i g2 hadv
        cases h
        have k1 : CardsKept g { g with CurrentPos := pos } := ⟨rfl, List.Sublist.refl _⟩
        exact kept_trans k1 (advancePhase_cards hadv)
    · cases h
      exact ⟨rfl, List.Sublist.refl _⟩

theorem kept_withPlayer {g : GameState} {player p1 : Player}
    (hp : playerAt g.Players g.CurrentPos = some player) (hc : p1.Cards = player.Cards) :
    CardsKept g (g.withPlayer p1) := by
  obtain ⟨_, _, hget⟩ := playerAt_eq_some hp
  refine ⟨?_, List.Sublist.refl _⟩
  show (g.Players.set g.CurrentPos.toNat p1).map (fun p => p.Cards) = _
  rw [List.map_set]
  apply set_same
  rw [List.getElem?_map, hget, hc]
  rfl

theorem kept_of_closure {g x g1 : GameState} {b : Bool}
    (h : x.roundClosure = some (b, g1)) (hx : CardsKept g x) : CardsKept g g1 :=
  kept_trans hx (roundClosure_cards h)

theorem kept_of_some {g x g1 : GameState} {b c : Bool}
    (h : some (c, x) = some (b, g1)) (hx : CardsKept g x) : CardsKept g g1 := by
  cases h
  exact hx

theorem kept_fields {g x y : GameState} (hy : CardsKept g y) (hP : x.Players = y.Players)
    (hC : x.CommunityCards = y.CommunityCards) (hD : x.Deck = y.Deck) : CardsKept g x := by
  unfold CardsKept at hy ⊢
  rw [hP, hC, hD]
  exact hy

theorem ProcessAction_cards {g g1 : GameState} {a : PlayerAction} {amount : Int} {b : Bool}
    (h : g.ProcessAction a amount = some (b, g1)) : CardsKept g g1 := by
  unfold GameState.ProcessAction at h
  split at h
  · cases h
  · rename_i player hp
    have k0 := kept_refl g
    have kF : CardsKept g (g.withPlayer player.Fold) := kept_withPlayer hp rfl
    have kB : ∀ amt, CardsKept g (g.withPlayer (player.PlaceBet amt).2) :=
      fun amt => kept_withPlayer hp (PlaceBet_Cards player amt)
    simp only at h
    split_ifs at h
    all_goals first
      | exact kept_of_some h k0
      | exact kept_of_closure h k0
      | exact kept_of_some h (kB _)
      | exact kept_of_closure h kF
      | exact kept_of_closure h (kept_fields (kB _) rfl rfl rfl)

theorem flatten_nil_of_all {ps : List Player} (h : ∀ p ∈ ps, p.Cards = []) :
    (ps.map (fun p => p.Cards)).flatten = [] := by
  induction ps with
  | nil => rfl
  | cons p ps ih =>
    rw [List.map_cons, List.flatten_cons, h p (List.mem_cons_self _ _),
      ih (fun q hq => h q (List.mem_cons_of_mem _ hq))]
    rfl

theorem dealPass_perm : ∀ (ps : List Player) (d : Deck),
    (((dealPass ps d).1.map (fun p => p.Cards)).flatten ++ (dealPass ps d).2.Cards).Perm
      ((ps.map (fun p => p.Cards)).flatten ++ d.Cards)
  | [], d => List.Perm.refl _
  | p :: ps, d => by
    unfold dealPass
    by_cases hp : (p.IsActive || p.Status == AllInStatus) = true
    · rw [if_pos hp]
      cases hc : d.Cards with
      | nil =>
        rw [DrawOne_nil hc]
        have ih := dealPass_perm ps d
        rw [hc] at ih
        simp only [Bool.false_eq_true, if_false, List.map_cons, List.flatten_cons,
          List.append_assoc]
        exact List.Perm.append_left _ ih
      | cons c cs =>
        rw [DrawOne_cons hc]
        have ih := dealPass_perm ps { Cards := cs }
        simp only [if_true, List.map_cons, List.flatten_cons]
        rw [List.perm_iff_count] at ih ⊢
        intro x
        have hx := ih x
        simp only [List.count_append, List.count_cons, List.count_nil] at hx ⊢
        omega
    · rw [if_neg hp]
      have ih := dealPass_perm ps d
      simp only [List.map_cons, List.flatten_cons, List.append_assoc]
      exact List.Perm.append_left _ ih

theorem dealHoleCards_perm : ∀ (k : Nat) (g : GameState),
    (allCards (g.dealHoleCards k)).Perm (allCards g)
  | 0, g => List.Perm.refl _
  | k + 1, g => by
    have ih := dealHoleCards_perm k
      { g with Players := (dealPass g.Players g.Deck).1, Deck := (dealPass g.Players g.Deck).2 }
    have hstep : (allCards
        { g with Players := (dealPass g.Players g.Deck).1,
                 Deck := (dealPass g.Players g.Deck).2 }).Perm (allCards g) := by
      have hp := dealPass_perm g.Players g.Deck
      unfold allCards
      rw [List.perm_iff_count] at hp ⊢
      intro x
      have hx := hp x
      simp only [List.count_append] at hx ⊢
      omega
    exact ih.trans hstep

theorem Shuffle_perm_of_some : ∀ (swaps : List (Nat × Nat)) (d d1 : Deck),
    d.Shuffle swaps = some d1 → d1.Cards.Perm d.Cards
  | [], d, d1, h => by
    cases h
    exact List.Perm.refl _
  | (i, j) :: rest, d, d1, h => by
    unfold Deck.Shuffle at h
    split at h
    · cases h
    · rename_i d2 hd2
      exact (Shuffle_perm_of_some rest d2 d1 h).trans (swap_perm hd2)

/-- After `StartNewHand` the cards of the table are the 52 cards of a new deck. -/
theorem StartNewHand_allCards {g g1 : GameState} {swaps : List (Nat × Nat)}
    (hd : 0 ≤ g.DealerPos) (h : g.StartNewHand swaps = some g1) :
    (allCards g1).Perm NewDeck.Cards := by
  obtain ⟨deck, hsh⟩ : ∃ deck, NewDeck.Shuffle swaps = some deck := by
    cases hs : NewDeck.Shuffle swaps with
    | none =>
      unfold GameState.StartNewHand at h
      rw [hs] at h
      cases h
    | some deck => exact ⟨deck, rfl⟩
  have hne : g.Players ≠ [] := by
    intro hnil
    unfold GameState.StartNewHand at h
    rw [hsh] at h
    simp [hnil] at h
  obtain ⟨sb, bb, pos, psb, pbb, P1, P2, g7, _, hpsb, hP1, _, hpbb, hP2, hg7, _, hstart⟩ :=
    StartNewHand_spec g swaps deck hne hd hsh
  have hP1c : ∀ p ∈ P1, p.Cards = [] := by
    intro p hp
    rw [hP1] at hp
    rcases List.mem_or_eq_of_mem_set hp with h | h
    · obtain ⟨p0, _, rfl⟩ := List.mem_map.mp h
      exact Reset_Cards p0
    · rw [h, PlaceBet_Cards]
      obtain ⟨p0, _, hp0⟩ := List.mem_map.mp (List.getElem?_mem hpsb)
      rw [← hp0]
      exact Reset_Cards p0
  have hP2c : ∀ p ∈ P2, p.Cards = [] := by
    intro p hp
    rw [hP2] at hp
    rcases List.mem_or_eq_of_mem_set hp with h | h
    · exact hP1c p h
    · rw [h, PlaceBet_Cards]
      exact hP1c pbb (List.getElem?_mem hpbb)
  rw [hstart] at h
  cases h
  show (allCards g7).Perm _
  rw [hg7]
  refine (dealHoleCards_perm 2 _).trans ?_
  unfold allCards
  simp only [flatten_nil_of_all hP2c, List.nil_append]
  exact Shuffle_perm_of_some swaps NewDeck deck hsh

theorem Reachable_subperm {g : GameState} (h : Reachable g) :
    (allCards g).Subperm NewDeck.Cards := by
  induction h with
  | start g0 swaps g hd hs => exact (StartNewHand_allCards hd hs).subperm
  | action g a amount b g1 _ hstep ih =>
    exact (kept_allCards (ProcessAction_cards hstep)).subperm.trans ih
  | flop g g1 _ hstep ih => exact (kept_allCards (DealFlop_cards hstep)).subperm.trans ih
  | turn g g1 _ hstep ih => exact (kept_allCards (DealTurn_cards hstep)).subperm.trans ih
  | river g g1 _ hstep ih => exact (kept_allCards (DealRiver_cards hstep)).subperm.trans ih

/-- C18: in every state reachable from StartNewHand by ProcessAction, DealFlop, DealTurn and
DealRiver calls, whatever swaps the shuffle made, the hole cards of all players, the community
cards and the deck taken together hold no card twice and are a sub-multiset of the 52 cards
of a new deck; so the hole cards of different seats, the community cards and the deck are
pairwise disjoint. -/
theorem Reachable_cards_distinct (g : GameState) (h : Reachable g) :
    (allCards g).Nodup ∧ (allCards g).Subperm NewDeck.Cards ∧
    (g.Players.map (fun p => p.Cards)).Pairwise List.Disjoint ∧
    (∀ p ∈ g.Players, p.Cards.Nodup ∧
      ∀ c ∈ p.Cards, c ∉ g.CommunityCards ∧ c ∉ g.Deck.Cards) ∧
    g.CommunityCards.Nodup ∧ g.Deck.Cards.Nodup ∧
    (∀ c ∈ g.CommunityCards, c ∉ g.Deck.Cards) := by
  have hsub := Reachable_subperm h
  have hnd : (allCards g).Nodup := by
    obtain ⟨l, hp, hs⟩ := hsub
    exact hp.nodup_iff.mp (hs.nodup (by decide))
  refine ⟨hnd, hsub, ?_⟩
  unfold allCards at hnd
  rw [List.nodup_append, List.nodup_append, List.nodup_flatten] at hnd
  obtain ⟨⟨⟨hn1, hpw⟩, hcn, hd1⟩, hdn, hd2⟩ := hnd
  refine ⟨hpw, ?_, hcn, hdn, ?_⟩
  · intro p hp
    have hmem : p.Cards ∈ g.Players.map (fun p => p.Cards) := List.mem_map.mpr ⟨p, hp, rfl⟩
    refine ⟨hn1 _ hmem, fun c hc => ?_⟩
    have hflat : c ∈ (g.Players.map (fun p => p.Cards)).flatten :=
      List.mem_flatten.mpr ⟨_, hmem, hc⟩
    exact ⟨fun hcc => hd1 hflat hcc,
      fun hcd => hd2 (List.mem_append_left _ hflat) hcd⟩
  · intro c hc hcd
    exact hd2 (List.mem_append_right _ hc) hcd

theorem Reachable_cards_distinct_witness :
    Reachable handFresh ∧ (allCards handFresh).Nodup ∧
    (allCards handFresh).Subperm NewDeck.Cards ∧
    (handFresh.Players.map (fun p => p.Cards)).Pairwise List.Disjoint ∧
    (∀ p ∈ handFresh.Players, p.Cards.Nodup ∧
      ∀ c ∈ p.Cards, c ∉ handFresh.CommunityCards ∧ c ∉ handFresh.Deck.Cards) ∧
    handFresh.CommunityCards.Nodup ∧ handFresh.Deck.Cards.Nodup ∧
    (∀ c ∈ handFresh.CommunityCards, c ∉ handFresh.Deck.Cards) :=
  ⟨Reachable.start tableFresh sampleSwaps handFresh (by decide) (by decide),
   Reachable_cards_distinct handFresh
     (Reachable.start tableFresh sampleSwaps handFresh (by decide) (by decide))⟩

/-! ## Folded players -/

theorem step_same {g g1 : GameState} {b c : Bool} {player : Player}
    (hp : playerAt g.Players g.CurrentPos = some player)
    (h : some (c, g) = some (b, g1)) : SeatStep g g1 := by
  cases h
  obtain ⟨_, _, hget⟩ := playerAt_eq_some hp
  exact ⟨⟨player, (set_same _ _ _ hget).symm⟩, fun ha => ha⟩

theorem step_rejected {g g1 : GameState} {b c : Bool} {player : Player} {amt : Int}
    (hp : playerAt g.Players g.CurrentPos = some player)
    (hrej : (!(player.PlaceBet amt).1) = true)
    (h : some (c, g.withPlayer (player.PlaceBet amt).2) = some (b, g1)) : SeatStep g g1 := by
  have h1 : (player.PlaceBet amt).1 = false := by simpa using hrej
  rw [(PlaceBet_rejected h1).2, withPlayer_self hp] at h
  exact step_same hp h

theorem step_closure {g x g1 : GameState} {b : Bool} {p1 : Player} (hv : g.SeatsValid)
    (h : x.roundClosure = some (b, g1))
    (hP : x.Players = g.Players.set g.CurrentPos.toNat p1) (hC : x.CurrentPos = g.CurrentPos)
    (hD : x.DealerPos = g.DealerPos) : SeatStep g g1 := by
  have hxv : x.SeatsValid := by
    unfold GameState.SeatsValid at hv ⊢
    rw [hP, hC, hD, List.length_set]
    exact hv
  obtain ⟨r, g2, _, _, hrc, ⟨hP2, _⟩, hv2, hact2, _⟩ := roundClosure_spec x hxv
  rw [hrc] at h
  cases h
  refine ⟨⟨p1, by rw [hP2, hP]⟩, fun _ => ⟨hv2, ?_⟩⟩
  rw [hP2]
  exact hact2

theorem step_closure_self {g g1 : GameState} {b : Bool} {player : Player}
    (hp : playerAt g.Players g.CurrentPos = some player) (hv : g.SeatsValid)
    (h : g.roundClosure = some (b, g1)) : SeatStep g g1 := by
  obtain ⟨_, _, hget⟩ := playerAt_eq_some hp
  exact step_closure hv h (set_same _ _ _ hget).symm rfl rfl

/-- A call of `ProcessAction` on a table with valid seats changes no seat but the acting one,
and the seat it leaves to act is active if any seat is. -/
theorem ProcessAction_step {g g1 : GameState} {a : PlayerAction} {amount : Int} {b : Bool}
    (hv : g.SeatsValid) (h : g.ProcessAction a amount = some (b, g1)) : SeatStep g g1 := by
  unfold GameState.ProcessAction at h
  split at h
  · cases h
  · rename_i player hp
    simp only at h
    split_ifs at h
    all_goals first
      | exact step_same hp h
      | exact step_rejected hp (by assumption) h
      | exact step_closure_self hp hv h
      | exact step_closure hv h rfl rfl rfl

theorem StartNewHand_acting {g g1 : GameState} {swaps : List (Nat × Nat)}
    (hd : 0 ≤ g.DealerPos) (h : g.StartNewHand swaps = some g1) : Acting g1 := by
  obtain ⟨deck, hsh⟩ : ∃ deck, NewDeck.Shuffle swaps = some deck := by
    cases hs : NewDeck.Shuffle swaps with
    | none =>
      unfold GameState.StartNewHand at h
      rw [hs] at h
      cases h
    | some deck => exact ⟨deck, rfl⟩
  have hne : g.Players ≠ [] := by
    intro hnil
    unfold GameState.StartNewHand at h
    rw [hsh] at h
    simp [hnil] at h
  have hpos : 0 < g.Players.length := List.length_pos.mpr hne
  obtain ⟨sb, bb, pos, psb, pbb, P1, P2, g7, _, _, hP1, _, _, hP2, hg7, hns3, hstart⟩ :=
    StartNewHand_spec g swaps deck hne hd hsh
  obtain ⟨P, D, hdeal, hstake0⟩ := dealHoleCards_frame 2
    { Players := P2, Deck := deck, CommunityCards := [], CurrentPhase := PreFlop,
      Pot := 0, CurrentBet := g.BigBlind, SmallBlind := g.SmallBlind,
      BigBlind := g.BigBlind,
      DealerPos := (((g.DealerPos.toNat + 1) % g.Players.length : Nat) : Int),
      CurrentPos := g.CurrentPos, LastRaisePos := -1, MinRaise := g.BigBlind }
  have hstake : P.map (fun p => (p.Status, p.Chips, p.Bet)) =
      P2.map (fun p => (p.Status, p.Chips, p.Bet)) := hstake0
  have hPlen : P.length = g.Players.length := by
    rw [stake_length hstake, hP2, List.length_set, hP1, List.length_set, List.length_map]
  rw [hdeal] at hg7
  rw [hstart] at h
  cases h
  have hg7P : g7.Players = P := by rw [hg7]
  have hg7D : g7.DealerPos = (((g.DealerPos.toNat + 1) % g.Players.length : Nat) : Int) := by
    rw [hg7]
  have hdlt : (g.DealerPos.toNat + 1) % g.Players.length < g.Players.length :=
    Nat.mod_lt _ hpos
  obtain ⟨hposlt, hact, _, _⟩ := hns3
  rw [hg7P] at hposlt hact
  rw [hPlen] at hposlt
  refine ⟨?_, ?_⟩
  · show 0 ≤ (pos : Int) ∧ (pos : Int) < (g7.Players.length : Int) ∧
      0 ≤ g7.DealerPos ∧ g7.DealerPos < (g7.Players.length : Int)
    rw [hg7P, hPlen, hg7D]
    omega
  · show seatActive g7.Players (pos : Int).toNat = true ∨ ∀ i, seatActive g7.Players i = false
    rw [hg7P, Int.toNat_natCast]
    exact hact

theorem Played_acting {g : GameState} (h : Played g) : Acting g := by
  induction h with
  | start g0 swaps g hd hs => exact StartNewHand_acting hd hs
  | action g a amount b g1 _ hstep ih => exact (ProcessAction_step ih.1 hstep).2 ih

/-- C14, amended: in every state reached from StartNewHand through ProcessAction calls in
which at least one player is still Active, a further ProcessAction call, whatever its action,
amount and result, leaves every Folded player as it is (status Folded, stack, bet and cards
unchanged), and the state it returns is again such a reached state. -/
theorem folded_untouched (g g1 : GameState) (a : PlayerAction) (amount : Int) (b : Bool)
    (hpl : Played g) (hact : ∃ i, seatActive g.Players i = true)
    (h : g.ProcessAction a amount = some (b, g1)) :
    Played g1 ∧
    ∀ (i : Nat) (p : Player), g.Players[i]? = some p → p.Status = Folded →
      g1.Players[i]? = some p := by
  refine ⟨Played.action g a amount b g1 hpl h, ?_⟩
  obtain ⟨hv, hcur⟩ := Played_acting hpl
  have hcur1 : seatActive g.Players g.CurrentPos.toNat = true := by
    rcases hcur with h1 | h1
    · exact h1
    · obtain ⟨i, hi⟩ := hact
      rw [h1 i] at hi
      cases hi
  obtain ⟨⟨p1, hP⟩, _⟩ := ProcessAction_step hv h
  intro i p hp hf
  have hne : g.CurrentPos.toNat ≠ i := by
    intro heq
    rw [heq] at hcur1
    unfold seatActive at hcur1
    rw [hp] at hcur1
    have hs : p.Status = Active := by simpa [Player.IsActive] using hcur1
    rw [hf] at hs
    cases hs
  rw [hP, List.getElem?_set_ne hne]
  exact hp

theorem folded_untouched_witness :
    Played handCalled ∧
    ∀ (i : Nat) (p : Player), handFolded.Players[i]? = some p → p.Status = Folded →
      handCalled.Players[i]? = some p :=
  folded_untouched handFolded handCalled Call 0 true
    (Played.action handFresh Fold 0 true handFolded
      (Played.start tableFresh sampleSwaps handFresh (by decide) (by decide)) (by decide))
    ⟨2, by decide⟩ (by decide)

/-- C14 as stated fails: heads-up, both players fold one after the other; the state reached
has no Active player and its acting seat is seat 1, whose player is Folded with stack 980 and
bet 20. A further ProcessAction(AllIn) is accepted and leaves that player with status AllIn,
stack 0 and bet 1000. -/
theorem folded_player_goes_all_in :
    tableHeadsUp.StartNewHand sampleSwaps = some headsUpStart ∧
    headsUpStart.ProcessAction Fold 0 = some (true, headsUpFold1) ∧
    headsUpFold1.ProcessAction Fold 0 = some (true, headsUpFold2) ∧
    headsUpFold2.CurrentPos = 1 ∧
    headsUpFold2.Players.map (fun p => (p.Status, p.Chips, p.Bet)) =
      [(Folded, 990, 10), (Folded, 980, 20)] ∧
    headsUpFold2.ProcessAction AllIn 0 = some (true, headsUpAllIn) ∧
    headsUpAllIn.Players.map (fun p => (p.Status, p.Chips, p.Bet)) =
      [(Folded, 990, 10), (AllInStatus, 0, 1000)] := by
  refine ⟨by decide, by decide, by decide, by decide, by decide, by decide, by decide⟩

/-! ## The shape of a step -/

theorem dealStreet_shape {g g1 : GameState} {k : Nat} {phase : Int}
    (h : g.dealStreet k phase = some g1) :
    ∃ d c pos, g1 =
      { g with Deck := d, CommunityCards := c, CurrentPhase := phase, CurrentBet := 0,
               LastRaisePos := -1, CurrentPos := pos } := by
  obtain ⟨d, c, hdc⟩ := dealCommunity_frame k { g with Deck := g.Deck.DrawOne.2 }
  unfold GameState.dealStreet at h
  simp only [hdc] at h
  split at h
  · cases h
  · cases h
    exact ⟨d, c, _, rfl⟩

/-- What `advancePhase` can do to a state: nothing, a street deal that moves the phase one
step on, or the move from River to Showdown. -/
theorem advancePhase_shape {g g1 : GameState} (h : g.advancePhase = some g1) :
    g1 = g ∨
    (∃ d c pos, 0 ≤ g.CurrentPhase ∧ g.CurrentPhase < 3 ∧ g1 =
      { g with Deck := d, CommunityCards := c, CurrentPhase := g.CurrentPhase + 1,
               CurrentBet := 0, LastRaisePos := -1, CurrentPos := pos }) ∨
    (g.CurrentPhase = River ∧ g1 = { g with CurrentPhase := Showdown }) := by
  unfold GameState.advancePhase GameState.DealFlop GameState.DealTurn GameState.DealRiver
    GameState.determineWinners at h
  by_cases h0 : g.CurrentPhase = PreFlop
  · have h0i : g.CurrentPhase = 0 := h0
    rw [if_pos h0, if_neg (by simp [h0])] at h
    obtain ⟨d, c, pos, hg⟩ := dealStreet_shape h
    exact Or.inr (Or.inl ⟨d, c, pos, by omega, by omega, by rw [hg, h0]; rfl⟩)
  rw [if_neg h0] at h
  by_cases h1 : g.CurrentPhase = Flop
  · have h1i : g.CurrentPhase = 1 := h1
    rw [if_pos h1, if_neg (by simp [h1])] at h
    obtain ⟨d, c, pos, hg⟩ := dealStreet_shape h
    exact Or.inr (Or.inl ⟨d, c, pos, by omega, by omega, by rw [hg, h1]; rfl⟩)
  rw [if_neg h1] at h
  by_cases h2 : g.CurrentPhase = Turn
  · have h2i : g.CurrentPhase = 2 := h2
    rw [if_pos h2, if_neg (by simp [h2])] at h
    obtain ⟨d, c, pos, hg⟩ := dealStreet_shape h
    exact Or.inr (Or.inl ⟨d, c, pos, by omega, by omega, by rw [hg, h2]; rfl⟩)
  rw [if_neg h2] at h
  by_cases h3 : g.CurrentPhase = River
  · rw [if_pos h3] at h
    cases h
    exact Or.inr (Or.inr ⟨h3, rfl⟩)
  · rw [if_neg h3] at h
    cases h
    exact Or.inl rfl

/-- What the round closure leaves alone, and what it can do to the phase and the current bet. -/
theorem roundClosure_frame {g g1 : GameState} {b : Bool}
    (h : g.roundClosure = some (b, g1)) :
    b = true ∧ g1.Players = g.Players ∧ g1.Pot = g.Pot ∧ g1.MinRaise = g.MinRaise ∧
    g1.SmallBlind = g.SmallBlind ∧ g1.BigBlind = g.BigBlind ∧ g1.DealerPos = g.DealerPos ∧
    (g1.CurrentPhase = g.CurrentPhase ∨
      (0 ≤ g.CurrentPhase ∧ g.CurrentPhase ≤ 3 ∧ g1.CurrentPhase = g.CurrentPhase + 1)) ∧
    (g1.CurrentBet = g.CurrentBet ∨ g1.CurrentBet = 0) := by
  unfold GameState.roundClosure at h
  split at h
  · cases h
  · rename_i pos _
    simp only at h
    split_ifs at h
    · split at h
      · cases h
      · rename_i g2 hadv
        cases h
        rcases advancePhase_shape hadv with hg | ⟨d, c, p2, hp0, hp3, hg⟩ | ⟨hr, hg⟩
        · rw [hg]
          exact ⟨rfl, rfl, rfl, rfl, rfl, rfl, rfl, Or.inl rfl, Or.inl rfl⟩
        · rw [hg]
          exact ⟨rfl, rfl, rfl, rfl, rfl, rfl, rfl, Or.inr ⟨hp0, by
            have : g.CurrentPhase < 3 := hp3
            omega, rfl⟩, Or.inr rfl⟩
        · rw [hg]
          have hr3 : g.CurrentPhase = 3 := hr
          exact ⟨rfl, rfl, rfl, rfl, rfl, rfl, rfl, Or.inr ⟨by omega, by omega, by
            show Showdown = g.CurrentPhase + 1
            rw [hr3]; rfl⟩, Or.inl rfl⟩
    · cases h
      exact ⟨rfl, rfl, rfl, rfl, rfl, rfl, rfl, Or.inl rfl, Or.inl rfl⟩

theorem PlaceBet_true {p : Player} {amt : Int} (h : (p.PlaceBet amt).1 = true) :
    amt ≤ p.Chips := by
  by_contra hc
  have h1 : amt > p.Chips := by omega
  unfold Player.PlaceBet at h
  rw [if_pos h1] at h
  cases h

/-- The shape of every `ProcessAction` call that returns: either it is rejected and the state
is the one given, or the acting player's record is replaced (by the folded player, by itself,
or by the player after an accepted `PlaceBet` whose amount goes to the pot), some of Pot,
CurrentBet, LastRaisePos and MinRaise are set, and the round closure follows. -/
theorem ProcessAction_shape {g g1 : GameState} {a : PlayerAction} {amount : Int} {b : Bool}
    (h : g.ProcessAction a amount = some (b, g1)) :
    ∃ player, playerAt g.Players g.CurrentPos = some player ∧
      ((b = false ∧ g1 = g) ∨
       ∃ (p1 : Player) (pot cb lr mr : Int),
        GameState.roundClosure
          { g.withPlayer p1 with Pot := pot, CurrentBet := cb, LastRaisePos := lr,
                                 MinRaise := mr } = some (b, g1) ∧
        ((p1 = player.Fold ∧ pot = g.Pot ∧ cb = g.CurrentBet ∧ mr = g.MinRaise) ∨
         (p1 = player ∧ pot = g.Pot ∧ cb = g.CurrentBet ∧ mr = g.MinRaise) ∨
         (∃ amt, amt ≤ player.Chips ∧ p1 = (player.PlaceBet amt).2 ∧ pot = g.Pot + amt ∧
           (0 ≤ g.CurrentBet → 0 ≤ g.MinRaise → 0 ≤ g.BigBlind → 0 ≤ player.Chips →
             0 ≤ player.Bet → 0 ≤ cb ∧ 0 ≤ mr ∧ 0 ≤ player.Bet + amt)))) := by
  cases hp : playerAt g.Players g.CurrentPos with
  | none =>
    unfold GameState.ProcessAction at h
    rw [hp] at h
    cases h
  | some player =>
    refine ⟨player, rfl, ?_⟩
    have hself : g.withPlayer player = g := withPlayer_self hp
    have hplain : ∀ {b1 : Bool}, g.roundClosure = some (b1, g1) →
        ∃ (p1 : Player) (pot cb lr mr : Int),
        GameState.roundClosure
          { g.withPlayer p1 with Pot := pot, CurrentBet := cb, LastRaisePos := lr,
                                 MinRaise := mr } = some (b1, g1) ∧
        ((p1 = player.Fold ∧ pot = g.Pot ∧ cb = g.CurrentBet ∧ mr = g.MinRaise) ∨
         (p1 = player ∧ pot = g.Pot ∧ cb = g.CurrentBet ∧ mr = g.MinRaise) ∨
         (∃ amt, amt ≤ player.Chips ∧ p1 = (player.PlaceBet amt).2 ∧ pot = g.Pot + amt ∧
           (0 ≤ g.CurrentBet → 0 ≤ g.MinRaise → 0 ≤ g.BigBlind → 0 ≤ player.Chips →
             0 ≤ player.Bet → 0 ≤ cb ∧ 0 ≤ mr ∧ 0 ≤ player.Bet + amt))) := by
      intro b1 hrc
      refine ⟨player, g.Pot, g.CurrentBet, g.LastRaisePos, g.MinRaise, ?_,
        Or.inr (Or.inl ⟨rfl, rfl, rfl, rfl⟩)⟩
      rw [hself]
      exact hrc
    have hrej : ∀ {amt : Int} {b1 : Bool}, (!(player.PlaceBet amt).1) = true →
        some (false, g.withPlayer (player.PlaceBet amt).2) = some (b1, g1) →
        b1 = false ∧ g1 = g := by
      intro amt b1 hr hs
      have h1 : (player.PlaceBet amt).1 = false := by simpa using hr
      rw [(PlaceBet_rejected h1).2, hself] at hs
      cases hs
      exact ⟨rfl, rfl⟩
    have hacc : ∀ {amt : Int}, ¬ (!(player.PlaceBet amt).1) = true → amt ≤ player.Chips := by
      intro amt hr
      exact PlaceBet_true (by simpa using hr)
    obtain ⟨eF, eC, eCall, eBet, eRaise, eAllIn⟩ := ProcessAction_eq hp amount
    by_cases hF : a = Fold
    · subst hF
      rw [eF] at h
      exact Or.inr ⟨player.Fold, g.Pot, g.CurrentBet, g.LastRaisePos, g.MinRaise, h,
        Or.inl ⟨rfl, rfl, rfl, rfl⟩⟩
    by_cases hC : a = Check
    · subst hC
      rw [eC] at h
      split_ifs at h
      · cases h; exact Or.inl ⟨rfl, rfl⟩
      · exact Or.inr (hplain h)
    by_cases hCall : a = Call
    · subst hCall
      rw [eCall] at h
      split_ifs at h with hr
      · exact Or.inl (hrej hr h)
      · have hle := hacc hr
        have hB := (PlaceBet_accepted hle).2.2.1
        exact Or.inr ⟨_, _, g.CurrentBet, g.LastRaisePos, g.MinRaise, h,
          Or.inr (Or.inr ⟨_, hle, rfl, rfl, fun h1 h2 _ _ _ => ⟨h1, h2, by omega⟩⟩)⟩
    by_cases hB : a = Bet
    · subst hB
      rw [eBet] at h
      split_ifs at h with h1 h2 hr
      · cases h; exact Or.inl ⟨rfl, rfl⟩
      · cases h; exact Or.inl ⟨rfl, rfl⟩
      · exact Or.inl (hrej hr h)
      · have hle := hacc hr
        exact Or.inr ⟨_, _, _, _, _, h,
          Or.inr (Or.inr ⟨_, hle, rfl, rfl, fun _ _ _ _ _ => ⟨by omega, by omega, by omega⟩⟩)⟩
    by_cases hR : a = Raise
    · subst hR
      rw [eRaise] at h
      split_ifs at h with h1 hr
      · cases h; exact Or.inl ⟨rfl, rfl⟩
      · exact Or.inl (hrej hr h)
      · have hle := hacc hr
        have hBet := (PlaceBet_accepted hle).2.2.1
        exact Or.inr ⟨_, _, _, _, _, h,
          Or.inr (Or.inr ⟨_, hle, rfl, rfl, fun _ _ _ _ _ =>
            ⟨by rw [hBet]; omega, by omega, by omega⟩⟩)⟩
    by_cases hA : a = AllIn
    · subst hA
      rw [eAllIn] at h
      have hle : player.Chips ≤ player.Chips := le_refl _
      have hBet := (PlaceBet_accepted hle).2.2.1
      split_ifs at h with h1
      · exact Or.inr ⟨_, _, _, _, _, h,
          Or.inr (Or.inr ⟨_, hle, rfl, rfl, fun _ _ _ _ _ =>
            ⟨by rw [hBet]; omega, by rw [hBet]; omega, by omega⟩⟩)⟩
      · exact Or.inr ⟨_, _, g.CurrentBet, g.LastRaisePos, g.MinRaise, h,
          Or.inr (Or.inr ⟨_, hle, rfl, rfl, fun h1 h2 _ _ _ => ⟨h1, h2, by omega⟩⟩)⟩
    · unfold GameState.ProcessAction at h
      rw [hp] at h
      simp only [hF, hC, hCall, hB, hR, hA, if_false] at h
      exact Or.inr (hplain h)

/-- What a `ProcessAction` call that returns does to the table: the acting seat's record is
replaced, the blinds and the dealer seat stay, the phase stays or moves one step on, and
either the pot stays (Fold, Check, a rejected action) or an accepted `PlaceBet` amount of the
acting player goes to the pot. -/
theorem ProcessAction_frame {g g1 : GameState} {a : PlayerAction} {amount : Int} {b : Bool}
    (h : g.ProcessAction a amount = some (b, g1)) :
    ∃ player p1, playerAt g.Players g.CurrentPos = some player ∧
      g1.Players = g.Players.set g.CurrentPos.toNat p1 ∧
      g1.SmallBlind = g.SmallBlind ∧ g1.BigBlind = g.BigBlind ∧ g1.DealerPos = g.DealerPos ∧
      (g1.CurrentPhase = g.CurrentPhase ∨
        (0 ≤ g.CurrentPhase ∧ g.CurrentPhase ≤ 3 ∧ g1.CurrentPhase = g.CurrentPhase + 1)) ∧
      (((p1 = player.Fold ∨ p1 = player) ∧ g1.Pot = g.Pot ∧ g1.MinRaise = g.MinRaise ∧
          (g1.CurrentBet = g.CurrentBet ∨ g1.CurrentBet = 0)) ∨
        ∃ amt, amt ≤ player.Chips ∧ p1 = (player.PlaceBet amt).2 ∧ g1.Pot = g.Pot + amt ∧
          (0 ≤ g.CurrentBet → 0 ≤ g.MinRaise → 0 ≤ g.BigBlind → 0 ≤ player.Chips →
            0 ≤ player.Bet → 0 ≤ g1.CurrentBet ∧ 0 ≤ g1.MinRaise ∧ 0 ≤ player.Bet + amt)) := by
  obtain ⟨player, hp, hcase⟩ := ProcessAction_shape h
  obtain ⟨_, _, hget⟩ := playerAt_eq_some hp
  rcases hcase with ⟨_, hg⟩ | ⟨p1, pot, cb, lr, mr, hrc, hkind⟩
  · rw [hg]
    exact ⟨player, player, hp, (set_same _ _ _ hget).symm, rfl, rfl, rfl, Or.inl rfl,
      Or.inl ⟨Or.inr rfl, rfl, rfl, Or.inl rfl⟩⟩
  · obtain ⟨_, hP, hPot, hMin, hSB, hBB, hD, hph, hcb⟩ := roundClosure_frame hrc
    refine ⟨player, p1, hp, hP, hSB, hBB, hD, hph, ?_⟩
    have hPot1 : g1.Pot = pot := hPot
    have hMin1 : g1.MinRaise = mr := hMin
    have hcb1 : g1.CurrentBet = cb ∨ g1.CurrentBet = 0 := hcb
    rcases hkind with ⟨h1, h2, h3, h4⟩ | ⟨h1, h2, h3, h4⟩ | ⟨amt, hle, h1, h2, h3⟩
    · exact Or.inl ⟨Or.inl h1, by rw [hPot1, h2], by rw [hMin1, h4], by rw [← h3]; exact hcb1⟩
    · exact Or.inl ⟨Or.inr h1, by rw [hPot1, h2], by rw [hMin1, h4], by rw [← h3]; exact hcb1⟩
    · refine Or.inr ⟨amt, hle, h1, by rw [hPot1, h2], fun a1 a2 a3 a4 a5 => ?_⟩
      obtain ⟨c1, c2, c3⟩ := h3 a1 a2 a3 a4 a5
      refine ⟨?_, by rw [hMin1]; exact c2, c3⟩
      rcases hcb1 with hc | hc
      · rw [hc]; exact c1
      · rw [hc]

theorem valid_of_set {g x : GameState} {p1 : Player} (hv : g.SeatsValid)
    (hP : x.Players = g.Players.set g.CurrentPos.toNat p1) (hC : x.CurrentPos = g.CurrentPos)
    (hD : x.DealerPos = g.DealerPos) : x.SeatsValid := by
  unfold GameState.SeatsValid at hv ⊢
  rw [hP, hC, hD, List.length_set]
  exact hv

/-- The round closure on a table with valid seats returns, with valid seats and all players
in their seats. -/
theorem closure_returns {x : GameState} (hxv : x.SeatsValid) :
    ∃ b g1, x.roundClosure = some (b, g1) ∧ g1.SeatsValid ∧
      g1.Players.length = x.Players.length := by
  obtain ⟨r, g2, _, _, hrc, ⟨hP2, _⟩, hv2, _, _⟩ := roundClosure_spec x hxv
  exact ⟨true, g2, hrc, hv2, by rw [hP2]⟩

theorem closure_returns_set {g x : GameState} {p1 : Player} (hv : g.SeatsValid)
    (hP : x.Players = g.Players.set g.CurrentPos.toNat p1) (hC : x.CurrentPos = g.CurrentPos)
    (hD : x.DealerPos = g.DealerPos) :
    ∃ b g1, x.roundClosure = some (b, g1) ∧ g1.SeatsValid ∧
      g1.Players.length = g.Players.length := by
  obtain ⟨b, g1, h, hv1, hl⟩ := closure_returns (valid_of_set hv hP hC hD)
  exact ⟨b, g1, h, hv1, by rw [hl, hP, List.length_set]⟩

theorem some_returns_set {g x : GameState} {p1 : Player} (c : Bool) (hv : g.SeatsValid)
    (hP : x.Players = g.Players.set g.CurrentPos.toNat p1) (hC : x.CurrentPos = g.CurrentPos)
    (hD : x.DealerPos = g.DealerPos) :
    ∃ b g1, some (c, x) = some (b, g1) ∧ g1.SeatsValid ∧
      g1.Players.length = g.Players.length :=
  ⟨c, x, rfl, valid_of_set hv hP hC hD, by rw [hP, List.length_set]⟩

/-- On a table with valid seats `ProcessAction` returns a result for every action and amount,
and the seats of the state it returns are valid again. -/
theorem ProcessAction_returns (g : GameState) (a : PlayerAction) (amount : Int)
    (hv : g.SeatsValid) :
    ∃ b g1, g.ProcessAction a amount = some (b, g1) ∧ g1.SeatsValid ∧
      g1.Players.length = g.Players.length := by
  obtain ⟨hq, hcast⟩ := SeatsValid_toNat hv
  have hp : playerAt g.Players g.CurrentPos = some g.Players[g.CurrentPos.toNat] := by
    unfold playerAt
    rw [if_neg (by have := hv.1; omega), List.getElem?_eq_getElem hq]
  have hget : g.Players[g.CurrentPos.toNat]? = some g.Players[g.CurrentPos.toNat] :=
    List.getElem?_eq_getElem hq
  have hself : g.Players = g.Players.set g.CurrentPos.toNat g.Players[g.CurrentPos.toNat] :=
    (set_same _ _ _ hget).symm
  unfold GameState.ProcessAction
  rw [hp]
  simp only
  split_ifs
  all_goals first
    | exact ⟨false, g, rfl, hv, rfl⟩
    | exact some_returns_set false hv rfl rfl rfl
    | exact closure_returns hv
    | exact closure_returns_set hv rfl rfl rfl

/-! ## The phases -/

/-- C21: a ProcessAction call that returns leaves the phase unchanged or advances it by
exactly one step (and only from PreFlop, Flop, Turn or River), never moves it backward, and
leaves it at Showdown once Showdown has been reached; on a table with valid seat indices it
returns for every action and amount. -/
theorem phase_linear (g : GameState) (a : PlayerAction) (amount : Int) :
    (∀ b g1, g.ProcessAction a amount = some (b, g1) →
      (g1.CurrentPhase = g.CurrentPhase ∨ g1.CurrentPhase = g.CurrentPhase + 1) ∧
      g.CurrentPhase ≤ g1.CurrentPhase ∧
      (g1.CurrentPhase = g.CurrentPhase + 1 → PreFlop ≤ g.CurrentPhase ∧ g.CurrentPhase ≤ River) ∧
      (g.CurrentPhase = Showdown → g1.CurrentPhase = Showdown)) ∧
    (g.SeatsValid → ∃ b g1, g.ProcessAction a amount = some (b, g1)) := by
  refine ⟨fun b g1 h => ?_, fun hv => ?_⟩
  · obtain ⟨_, _, _, _, _, _, _, hph, _⟩ := ProcessAction_frame h
    have hS : Showdown = (4 : Int) := rfl
    have hP : PreFlop = (0 : Int) := rfl
    have hR : River = (3 : Int) := rfl
    rw [hS, hP, hR]
    rcases hph with h1 | ⟨h0, h3, h1⟩
    · exact ⟨Or.inl h1, by omega, fun h2 => by omega, fun h2 => by omega⟩
    · exact ⟨Or.inr h1, by omega, fun _ => ⟨h0, h3⟩, fun h2 => by omega⟩
  · obtain ⟨b, g1, h, _⟩ := ProcessAction_returns g a amount hv
    exact ⟨b, g1, h⟩

theorem phase_linear_witness :
    (∀ b g1, tableRiver.ProcessAction Call 0 = some (b, g1) →
      (g1.CurrentPhase = tableRiver.CurrentPhase ∨
        g1.CurrentPhase = tableRiver.CurrentPhase + 1) ∧
      tableRiver.CurrentPhase ≤ g1.CurrentPhase ∧
      (g1.CurrentPhase = tableRiver.CurrentPhase + 1 →
        PreFlop ≤ tableRiver.CurrentPhase ∧ tableRiver.CurrentPhase ≤ River) ∧
      (tableRiver.CurrentPhase = Showdown → g1.CurrentPhase = Showdown)) ∧
    ∃ b g1, tableRiver.ProcessAction Call 0 = some (b, g1) :=
  ⟨(phase_linear tableRiver Call 0).1, (phase_linear tableRiver Call 0).2 (by decide)⟩

/-! ## The street deals -/

/-- C22: a street deal out of order is a no-op: DealFlop in a phase other than PreFlop,
DealTurn in a phase other than Flop and DealRiver in a phase other than Turn return the state
they were given; hence each of the three called twice in a row gives what one call gives. -/
theorem street_deal_out_of_order (g : GameState) :
    (g.CurrentPhase ≠ PreFlop → g.DealFlop = some g) ∧
    (g.CurrentPhase ≠ Flop → g.DealTurn = some g) ∧
    (g.CurrentPhase ≠ Turn → g.DealRiver = some g) ∧
    (g.DealFlop).bind GameState.DealFlop = g.DealFlop ∧
    (g.DealTurn).bind GameState.DealTurn = g.DealTurn ∧
    (g.DealRiver).bind GameState.DealRiver = g.DealRiver := by
  have hF : ∀ x : GameState, x.CurrentPhase ≠ PreFlop → x.DealFlop = some x := by
    intro x hx
    unfold GameState.DealFlop
    rw [if_pos hx]
  have hT : ∀ x : GameState, x.CurrentPhase ≠ Flop → x.DealTurn = some x := by
    intro x hx
    unfold GameState.DealTurn
    rw [if_pos hx]
  have hR : ∀ x : GameState, x.CurrentPhase ≠ Turn → x.DealRiver = some x := by
    intro x hx
    unfold GameState.DealRiver
    rw [if_pos hx]
  refine ⟨hF g, hT g, hR g, ?_, ?_, ?_⟩
  · cases h : g.DealFlop with
    | none => rfl
    | some g1 =>
      show g1.DealFlop = some g1
      by_cases hp : g.CurrentPhase ≠ PreFlop
      · rw [hF g hp] at h
        cases h
        exact hF g hp
      · unfold GameState.DealFlop at h
        rw [if_neg hp] at h
        obtain ⟨d, c, pos, hg⟩ := dealStreet_shape h
        apply hF
        rw [hg]
        show Flop ≠ PreFlop
        decide
  · cases h : g.DealTurn with
    | none => rfl
    | some g1 =>
      show g1.DealTurn = some g1
      by_cases hp : g.CurrentPhase ≠ Flop
      · rw [hT g hp] at h
        cases h
        exact hT g hp
      · unfold GameState.DealTurn at h
        rw [if_neg hp] at h
        obtain ⟨d, c, pos, hg⟩ := dealStreet_shape h
        apply hT
        rw [hg]
        show Turn ≠ Flop
        decide
  · cases h : g.DealRiver with
    | none => rfl
    | some g1 =>
      show g1.DealRiver = some g1
      by_cases hp : g.CurrentPhase ≠ Turn
      · rw [hR g hp] at h
        cases h
        exact hR g hp
      · unfold GameState.DealRiver at h
        rw [if_neg hp] at h
        obtain ⟨d, c, pos, hg⟩ := dealStreet_shape h
        apply hR
        rw [hg]
        show River ≠ Turn
        decide

theorem street_deal_out_of_order_witness :
    table4.DealFlop = some table4 ∧ tableRiver.DealTurn = some tableRiver ∧
    tableRiver.DealRiver = some tableRiver :=
  ⟨(street_deal_out_of_order table4).1 (by decide),
   (street_deal_out_of_order tableRiver).2.1 (by decide),
   (street_deal_out_of_order tableRiver).2.2.1 (by decide)⟩

theorem DrawOne_drop (d : Deck) : d.DrawOne.2.Cards = d.Cards.drop 1 := by
  cases hc : d.Cards with
  | nil => rw [DrawOne_nil hc, hc]; rfl
  | cons c cs => rw [DrawOne_cons hc]; rfl

theorem dealCommunity_take : ∀ (k : Nat) (g : GameState), k ≤ g.Deck.Cards.length →
    (g.dealCommunity k).CommunityCards = g.CommunityCards ++ g.Deck.Cards.take k ∧
    (g.dealCommunity k).Deck.Cards = g.Deck.Cards.drop k
  | 0, g, _ => ⟨by simp [GameState.dealCommunity], rfl⟩
  | k + 1, g, h => by
    obtain ⟨c, cs, hcs⟩ : ∃ c cs, g.Deck.Cards = c :: cs := by
      cases hc : g.Deck.Cards with
      | nil => rw [hc] at h; simp at h
      | cons c cs => exact ⟨c, cs, rfl⟩
    rw [hcs] at h
    obtain ⟨h1, h2⟩ := dealCommunity_take k
      { g with Deck := { Cards := cs }, CommunityCards := g.CommunityCards ++ [c] }
      (by simpa using h)
    unfold GameState.dealCommunity
    simp only [DrawOne_cons hcs, if_true]
    rw [h1, h2, hcs]
    simp

theorem dealStreet_some {g g1 : GameState} {k : Nat} {phase : Int}
    (h : g.dealStreet k phase = some g1) :
    ∃ pos, g1 =
      { GameState.dealCommunity { g with Deck := g.Deck.DrawOne.2 } k with
        CurrentPhase := phase, CurrentBet := 0, LastRaisePos := -1, CurrentPos := pos } := by
  unfold GameState.dealStreet at h
  simp only at h
  split at h
  · cases h
  · exact ⟨_, (Option.some.inj h).symm⟩

/-- A street deal on a deck of at least `k + 1` cards, from a valid dealer seat: it returns,
the top card is gone, the next `k` cards are appended to the community cards in order, the
deck is `k + 1` cards shorter and the phase is the new street. -/
theorem dealStreet_exact (g : GameState) (k : Nat) (phase : Int)
    (hd0 : 0 ≤ g.DealerPos) (hd1 : g.DealerPos < (g.Players.length : Int))
    (hlen : k + 1 ≤ g.Deck.Cards.length) :
    ∃ g1, g.dealStreet k phase = some g1 ∧
      g1.CommunityCards = g.CommunityCards ++ (g.Deck.Cards.drop 1).take k ∧
      g1.Deck.Cards = g.Deck.Cards.drop (k + 1) ∧
      g1.Deck.Cards.length + (k + 1) = g.Deck.Cards.length ∧
      g1.CurrentPhase = phase ∧ g1.Players = g.Players := by
  obtain ⟨g1, hds⟩ : ∃ g1, g.dealStreet k phase = some g1 := by
    obtain ⟨d, c, r, _, _, h⟩ := dealStreet_spec g k phase hd0 hd1
    exact ⟨_, h⟩
  obtain ⟨pos, hg⟩ := dealStreet_some hds
  refine ⟨g1, hds, ?_⟩
  have hburn := DrawOne_drop g.Deck
  obtain ⟨h1, h2⟩ := dealCommunity_take k { g with Deck := g.Deck.DrawOne.2 }
    (by show k ≤ g.Deck.DrawOne.2.Cards.length; rw [hburn, List.length_drop]; omega)
  have h1a : (GameState.dealCommunity { g with Deck := g.Deck.DrawOne.2 } k).CommunityCards =
      g.CommunityCards ++ (g.Deck.Cards.drop 1).take k := by rw [h1, ← hburn]
  have h2a : (GameState.dealCommunity { g with Deck := g.Deck.DrawOne.2 } k).Deck.Cards =
      g.Deck.Cards.drop (k + 1) := by
    rw [h2]
    show g.Deck.DrawOne.2.Cards.drop k = _
    rw [hburn, List.drop_drop]
    congr 1
    omega
  obtain ⟨d1, c1, hdc⟩ := dealCommunity_frame k { g with Deck := g.Deck.DrawOne.2 }
  have hP : (GameState.dealCommunity { g with Deck := g.Deck.DrawOne.2 } k).Players =
      g.Players := by rw [hdc]
  rw [hg]
  refine ⟨h1a, h2a, ?_, rfl, hP⟩
  show (GameState.dealCommunity { g with Deck := g.Deck.DrawOne.2 } k).Deck.Cards.length +
    (k + 1) = _
  rw [h2a, List.length_drop]
  omega

/-- C23: from a valid dealer seat, DealFlop in phase PreFlop on a deck of at least 4 cards
discards the top card and appends the next 3 deck cards, in order, to the community cards,
leaving the deck 4 cards shorter and the phase Flop; DealTurn in phase Flop and DealRiver in
phase Turn on a deck of at least 2 cards discard the top card and append the next card,
leaving the deck 2 cards shorter and the phase Turn, respectively River. -/
theorem street_deal_cards (g : GameState)
    (hd0 : 0 ≤ g.DealerPos) (hd1 : g.DealerPos < (g.Players.length : Int)) :
    (g.CurrentPhase = PreFlop → 4 ≤ g.Deck.Cards.length →
      ∃ g1, g.DealFlop = some g1 ∧
        g1.CommunityCards = g.CommunityCards ++ (g.Deck.Cards.drop 1).take 3 ∧
        g1.Deck.Cards = g.Deck.Cards.drop 4 ∧
        g1.Deck.Cards.length + 4 = g.Deck.Cards.length ∧ g1.CurrentPhase = Flop) ∧
    (g.CurrentPhase = Flop → 2 ≤ g.Deck.Cards.length →
      ∃ g1, g.DealTurn = some g1 ∧
        g1.CommunityCards = g.CommunityCards ++ (g.Deck.Cards.drop 1).take 1 ∧
        g1.Deck.Cards = g.Deck.Cards.drop 2 ∧
        g1.Deck.Cards.length + 2 = g.Deck.Cards.length ∧ g1.CurrentPhase = Turn) ∧
    (g.CurrentPhase = Turn → 2 ≤ g.Deck.Cards.length →
      ∃ g1, g.DealRiver = some g1 ∧
        g1.CommunityCards = g.CommunityCards ++ (g.Deck.Cards.drop 1).take 1 ∧
        g1.Deck.Cards = g.Deck.Cards.drop 2 ∧
        g1.Deck.Cards.length + 2 = g.Deck.Cards.length ∧ g1.CurrentPhase = River) := by
  refine ⟨fun hp hl => ?_, fun hp hl => ?_, fun hp hl => ?_⟩
  · obtain ⟨g1, h, h1, h2, h3, h4, _⟩ := dealStreet_exact g 3 Flop hd0 hd1 hl
    refine ⟨g1, ?_, h1, h2, h3, h4⟩
    unfold GameState.DealFlop
    rw [if_neg (by simp [hp])]
    exact h
  · obtain ⟨g1, h, h1, h2, h3, h4, _⟩ := dealStreet_exact g 1 Turn hd0 hd1 hl
    refine ⟨g1, ?_, h1, h2, h3, h4⟩
    unfold GameState.DealTurn
    rw [if_neg (by simp [hp])]
    exact h
  · obtain ⟨g1, h, h1, h2, h3, h4, _⟩ := dealStreet_exact g 1 River hd0 hd1 hl
    refine ⟨g1, ?_, h1, h2, h3, h4⟩
    unfold GameState.DealRiver
    rw [if_neg (by simp [hp])]
    exact h

theorem street_deal_cards_witness :
    ∃ g1, table4.DealTurn = some g1 ∧
      g1.CommunityCards = table4.CommunityCards ++ (table4.Deck.Cards.drop 1).take 1 ∧
      g1.Deck.Cards = table4.Deck.Cards.drop 2 ∧
      g1.Deck.Cards.length + 2 = table4.Deck.Cards.length ∧ g1.CurrentPhase = Turn :=
  (street_deal_cards table4 (by decide) (by decide)).2.1 (by decide) (by decide)

/-! ## The placeholder evaluator -/

/-- C29: for every list of cards, of any length, EvaluateHand returns the evaluation with Rank
HighCard, Value 0 and Cards equal to the input; so CompareHands of the evaluations of any two
card lists is 0. -/
theorem EvaluateHand_trivial (x y : List Card) :
    EvaluateHand x = { Rank := HighCard, Cards := x, Value := 0 } ∧
    CompareHands (EvaluateHand x) (EvaluateHand y) = 0 := by
  have h : ∀ z : List Card, EvaluateHand z = { Rank := HighCard, Cards := z, Value := 0 } := by
    intro z
    have n1 : ¬ ((checkRoyalFlush z).Rank = RoyalFlush) := by
      show ¬ (HighCard = RoyalFlush); decide
    have n2 : ¬ ((checkStraightFlush z).Rank = StraightFlush) := by
      show ¬ (HighCard = StraightFlush); decide
    have n3 : ¬ ((checkFourOfAKind z).Rank = FourOfAKind) := by
      show ¬ (HighCard = FourOfAKind); decide
    have n4 : ¬ ((checkFullHouse z).Rank = FullHouse) := by
      show ¬ (HighCard = FullHouse); decide
    have n5 : ¬ ((checkFlush z).Rank = Flush) := by
      show ¬ (HighCard = Flush); decide
    have n6 : ¬ ((checkStraight z).Rank = Straight) := by
      show ¬ (HighCard = Straight); decide
    have n7 : ¬ ((checkThreeOfAKind z).Rank = ThreeOfAKind) := by
      show ¬ (HighCard = ThreeOfAKind); decide
    have n8 : ¬ ((checkTwoPair z).Rank = TwoPair) := by
      show ¬ (HighCard = TwoPair); decide
    have n9 : ¬ ((checkPair z).Rank = Pair) := by
      show ¬ (HighCard = Pair); decide
    unfold EvaluateHand
    by_cases hl : z.length < 5
    · rw [if_pos hl]
    · rw [if_neg hl, if_neg n1, if_neg n2, if_neg n3, if_neg n4, if_neg n5, if_neg n6,
        if_neg n7, if_neg n8, if_neg n9]
      rfl
  refine ⟨h x, ?_⟩
  rw [h x, h y]
  rfl

/-! ## The clockwise scan, in full -/

/-- C28: on a table of n >= 1 players, from a seat pos in [0, n), findNextActivePosition
returns the seat (pos + d) mod n for the smallest d in 1..n whose player is Active (d = n is
pos itself), found with d probes of the n the loop allows; when no player is Active it returns
pos. -/
theorem findNextActivePosition_scan (g : GameState) (pos : Nat)
    (hpos : pos < g.Players.length) :
    (∃ d, 1 ≤ d ∧ d ≤ g.Players.length ∧
      seatActive g.Players ((pos + d) % g.Players.length) = true ∧
      (∀ j, 1 ≤ j → j < d → seatActive g.Players ((pos + j) % g.Players.length) = false) ∧
      g.findNextActivePosition (pos : Int) =
        some (((pos + d) % g.Players.length : Nat) : Int) ∧
      findNextLoop g.Players (pos : Int) d ((((pos + 1) % g.Players.length : Nat)) : Int) =
        some (((pos + d) % g.Players.length : Nat) : Int)) ∨
    ((∀ i, seatActive g.Players i = false) ∧
      g.findNextActivePosition (pos : Int) = some (pos : Int)) := by
  have hlen : 0 < g.Players.length := by omega
  have hnp : (pos + 1) % g.Players.length < g.Players.length := Nat.mod_lt _ hlen
  have hfn : g.findNextActivePosition (pos : Int) =
      findNextLoop g.Players (pos : Int) g.Players.length
        ((((pos + 1) % g.Players.length : Nat)) : Int) := by
    unfold GameState.findNextActivePosition
    rw [if_neg (by omega), tmod_succ_natCast]
  have hsh : ∀ j, ((pos + 1) % g.Players.length + j) % g.Players.length =
      (pos + (j + 1)) % g.Players.length := fun j => by
    rw [Nat.mod_add_mod]
    congr 1
    omega
  rcases findNextLoop_scan g.Players (pos : Int) g.Players.length _ hnp with
    ⟨d, hd, hres, hA, hB⟩ | ⟨hres, hB⟩
  · left
    rw [hsh] at hres hA
    have hmin : ∀ j, 1 ≤ j → j < d + 1 →
        seatActive g.Players ((pos + j) % g.Players.length) = false := by
      intro j hj1 hj2
      have h1 := hB (j - 1) (by omega)
      rw [hsh] at h1
      have h2 : j - 1 + 1 = j := by omega
      rw [h2] at h1
      exact h1
    refine ⟨d + 1, by omega, by omega, hA, hmin, by rw [hfn, hres], ?_⟩
    rcases findNextLoop_scan g.Players (pos : Int) (d + 1) _ hnp with
      ⟨e, he, hres2, hA2, _⟩ | ⟨_, hB2⟩
    · rw [hsh] at hres2 hA2
      have hed : e = d := by
        by_contra hne
        have h1 := hmin (e + 1) (by omega) (by omega)
        rw [h1] at hA2
        cases hA2
      rw [hres2, hed]
    · have h1 := hB2 d (by omega)
      rw [hsh] at h1
      rw [h1] at hA
      cases hA
  · right
    have hall : ∀ i, seatActive g.Players i = false := by
      intro i
      by_cases hin : i < g.Players.length
      · obtain ⟨j, hj, hji⟩ := mod_cover hnp hin
        have h1 := hB j hj
        rw [hji] at h1
        exact h1
      · exact seatActive_of_length_le (by omega)
    exact ⟨hall, by rw [hfn, hres]⟩

theorem findNextActivePosition_scan_witness :
    (∃ d, 1 ≤ d ∧ d ≤ tableBusted.Players.length ∧
      seatActive tableBusted.Players ((0 + d) % tableBusted.Players.length) = true ∧
      (∀ j, 1 ≤ j → j < d →
        seatActive tableBusted.Players ((0 + j) % tableBusted.Players.length) = false) ∧
      tableBusted.findNextActivePosition ((0 : Nat) : Int) =
        some (((0 + d) % tableBusted.Players.length : Nat) : Int) ∧
      findNextLoop tableBusted.Players ((0 : Nat) : Int) d
          ((((0 + 1) % tableBusted.Players.length : Nat)) : Int) =
        some (((0 + d) % tableBusted.Players.length : Nat) : Int)) ∨
    ((∀ i, seatActive tableBusted.Players i = false) ∧
      tableBusted.findNextActivePosition ((0 : Nat) : Int) = some ((0 : Nat) : Int)) :=
  findNextActivePosition_scan tableBusted 0 (by decide)

/-! ## No panic -/

theorem StartNewHand_length {g g1 : GameState} {swaps : List (Nat × Nat)}
    (hd : 0 ≤ g.DealerPos) (h : g.StartNewHand swaps = some g1) :
    g1.Players.length = g.Players.length := by
  obtain ⟨deck, hsh⟩ : ∃ deck, NewDeck.Shuffle swaps = some deck := by
    cases hs : NewDeck.Shuffle swaps with
    | none =>
      unfold GameState.StartNewHand at h
      rw [hs] at h
      cases h
    | some deck => exact ⟨deck, rfl⟩
  have hne : g.Players ≠ [] := by
    intro hnil
    unfold GameState.StartNewHand at h
    rw [hsh] at h
    simp [hnil] at h
  obtain ⟨sb, bb, pos, psb, pbb, P1, P2, g7, _, _, hP1, _, _, hP2, hg7, _, hstart⟩ :=
    StartNewHand_spec g swaps deck hne hd hsh
  obtain ⟨P, D, hdeal, hstake0⟩ := dealHoleCards_frame 2
    { Players := P2, Deck := deck, CommunityCards := [], CurrentPhase := PreFlop,
      Pot := 0, CurrentBet := g.BigBlind, SmallBlind := g.SmallBlind,
      BigBlind := g.BigBlind,
      DealerPos := (((g.DealerPos.toNat + 1) % g.Players.length : Nat) : Int),
      CurrentPos := g.CurrentPos, LastRaisePos := -1, MinRaise := g.BigBlind }
  have hstake : P.map (fun p => (p.Status, p.Chips, p.Bet)) =
      P2.map (fun p => (p.Status, p.Chips, p.Bet)) := hstake0
  rw [hdeal] at hg7
  rw [hstart] at h
  cases h
  show g7.Players.length = _
  rw [hg7]
  show P.length = _
  rw [stake_length hstake, hP2, List.length_set, hP1, List.length_set, List.length_map]

theorem dealStreet_valid (g : GameState) (k : Nat) (phase : Int) (hv : g.SeatsValid) :
    ∃ g1, g.dealStreet k phase = some g1 ∧ g1.SeatsValid ∧
      g1.Players.length = g.Players.length := by
  obtain ⟨d, c, r, hr, _, hds⟩ := dealStreet_spec g k phase hv.2.2.1 hv.2.2.2
  refine ⟨_, hds, ?_, rfl⟩
  unfold GameState.SeatsValid at hv ⊢
  simp only
  omega

/-- C27: on a table with at least one player and seat indices 0 <= DealerPos < n and
0 <= CurrentPos < n, none of StartNewHand (for every in-range shuffle),
findNextActivePosition (from every seat in [0, n)), DealFlop, DealTurn, DealRiver and
ProcessAction (for every action and amount) panics: each returns, the table keeps its n
seats, DealerPos and CurrentPos stay within [0, n), the seat found is within [0, n), and
ProcessAction returns a boolean result. -/
theorem never_panics (g : GameState) (hv : g.SeatsValid) :
    (∀ swaps : List (Nat × Nat), (∀ s ∈ swaps, s.1 < 52 ∧ s.2 < 52) →
      ∃ g1, g.StartNewHand swaps = some g1 ∧ g1.SeatsValid ∧
        g1.Players.length = g.Players.length) ∧
    (∀ pos : Int, 0 ≤ pos → pos < (g.Players.length : Int) →
      ∃ r, g.findNextActivePosition pos = some r ∧ 0 ≤ r ∧ r < (g.Players.length : Int)) ∧
    (∃ g1, g.DealFlop = some g1 ∧ g1.SeatsValid ∧ g1.Players.length = g.Players.length) ∧
    (∃ g1, g.DealTurn = some g1 ∧ g1.SeatsValid ∧ g1.Players.length = g.Players.length) ∧
    (∃ g1, g.DealRiver = some g1 ∧ g1.SeatsValid ∧ g1.Players.length = g.Players.length) ∧
    (∀ (a : PlayerAction) (amount : Int),
      ∃ (b : Bool) (g1 : GameState), g.ProcessAction a amount = some (b, g1) ∧ g1.SeatsValid ∧
        g1.Players.length = g.Players.length) := by
  have hne : g.Players ≠ [] := by
    intro hnil
    unfold GameState.SeatsValid at hv
    rw [hnil] at hv
    simp at hv
    omega
  refine ⟨fun swaps hsw => ?_, fun pos h0 h1 => ?_, ?_, ?_, ?_,
    fun a amount => ProcessAction_returns g a amount hv⟩
  · obtain ⟨g1, h, _⟩ := StartNewHand_frame g swaps hne hv.2.2.1 hsw
    exact ⟨g1, h, (StartNewHand_acting hv.2.2.1 h).1, StartNewHand_length hv.2.2.1 h⟩
  · obtain ⟨r, hr, hfn, _⟩ := findNext_spec g pos.toNat (by omega)
    rw [Int.toNat_of_nonneg h0] at hfn
    exact ⟨r, hfn, by omega, by omega⟩
  · unfold GameState.DealFlop
    split_ifs
    · exact ⟨g, rfl, hv, rfl⟩
    · exact dealStreet_valid g 3 Flop hv
  · unfold GameState.DealTurn
    split_ifs
    · exact ⟨g, rfl, hv, rfl⟩
    · exact dealStreet_valid g 1 Turn hv
  · unfold GameState.DealRiver
    split_ifs
    · exact ⟨g, rfl, hv, rfl⟩
    · exact dealStreet_valid g 1 River hv

theorem never_panics_witness :
    ∃ (b : Bool) (g1 : GameState), table4.ProcessAction Raise (-7) = some (b, g1) ∧
      g1.SeatsValid ∧ g1.Players.length = table4.Players.length :=
  (never_panics table4 (by decide)).2.2.2.2.2 Raise (-7)

/-! ## Stacks and chips -/

theorem sum_map_set (f : Player → Int) : ∀ (l : List Player) (i : Nat) (p p1 : Player),
    l[i]? = some p → ((l.set i p1).map f).sum = (l.map f).sum - f p + f p1
  | [], _, _, _, h => by simp at h
  | x :: xs, 0, p, p1, h => by
    have hx : x = p := by simpa using h
    simp only [List.set_cons_zero, List.map_cons, List.sum_cons, hx]
    omega
  | x :: xs, i + 1, p, p1, h => by
    have h1 : xs[i]? = some p := by simpa using h
    have ih := sum_map_set f xs i p p1 h1
    simp only [List.set_cons_succ, List.map_cons, List.sum_cons, ih]
    omega

theorem stake_forall {ps qs : List Player} (Q : Int → Int → Int → Prop)
    (h : ps.map (fun p => (p.Status, p.Chips, p.Bet)) =
      qs.map (fun p => (p.Status, p.Chips, p.Bet)))
    (hq : ∀ p ∈ qs, Q p.Status p.Chips p.Bet) : ∀ p ∈ ps, Q p.Status p.Chips p.Bet := by
  intro p hp
  have hm : (p.Status, p.Chips, p.Bet) ∈ ps.map (fun p => (p.Status, p.Chips, p.Bet)) :=
    List.mem_map.mpr ⟨p, hp, rfl⟩
  rw [h] at hm
  obtain ⟨q, hq1, hqe⟩ := List.mem_map.mp hm
  have h1 : q.Status = p.Status := congrArg Prod.fst hqe
  have h2 : q.Chips = p.Chips := congrArg (fun t => t.2.1) hqe
  have h3 : q.Bet = p.Bet := congrArg (fun t => t.2.2) hqe
  rw [← h1, ← h2, ← h3]
  exact hq q hq1

/-- A property of status, stack and bet that every player has after the reset and that
posting either blind keeps holds for every player of the state `StartNewHand` returns. -/
theorem StartNewHand_players {g g1 : GameState} {swaps : List (Nat × Nat)}
    (hd : 0 ≤ g.DealerPos) (h : g.StartNewHand swaps = some g1) (Q : Int → Int → Int → Prop)
    (hR : ∀ p ∈ g.Players,
      Q p.ResetForNewHand.Status p.ResetForNewHand.Chips p.ResetForNewHand.Bet)
    (hS : ∀ p : Player, Q p.Status p.Chips p.Bet →
      Q (p.PlaceBet g.SmallBlind).2.Status (p.PlaceBet g.SmallBlind).2.Chips
        (p.PlaceBet g.SmallBlind).2.Bet)
    (hB : ∀ p : Player, Q p.Status p.Chips p.Bet →
      Q (p.PlaceBet g.BigBlind).2.Status (p.PlaceBet g.BigBlind).2.Chips
        (p.PlaceBet g.BigBlind).2.Bet) :
    ∀ p ∈ g1.Players, Q p.Status p.Chips p.Bet := by
  obtain ⟨deck, hsh⟩ : ∃ deck, NewDeck.Shuffle swaps = some deck := by
    cases hs : NewDeck.Shuffle swaps with
    | none =>
      unfold GameState.StartNewHand at h
      rw [hs] at h
      cases h
    | some deck => exact ⟨deck, rfl⟩
  have hne : g.Players ≠ [] := by
    intro hnil
    unfold GameState.StartNewHand at h
    rw [hsh] at h
    simp [hnil] at h
  obtain ⟨sb, bb, pos, psb, pbb, P1, P2, g7, _, hpsb, hP1, _, hpbb, hP2, hg7, _, hstart⟩ :=
    StartNewHand_spec g swaps deck hne hd hsh
  obtain ⟨P, D, hdeal, hstake0⟩ := dealHoleCards_frame 2
    { Players := P2, Deck := deck, CommunityCards := [], CurrentPhase := PreFlop,
      Pot := 0, CurrentBet := g.BigBlind, SmallBlind := g.SmallBlind,
      BigBlind := g.BigBlind,
      DealerPos := (((g.DealerPos.toNat + 1) % g.Players.length : Nat) : Int),
      CurrentPos := g.CurrentPos, LastRaisePos := -1, MinRaise := g.BigBlind }
  have hstake : P.map (fun p => (p.Status, p.Chips, p.Bet)) =
      P2.map (fun p => (p.Status, p.Chips, p.Bet)) := hstake0
  rw [hdeal] at hg7
  rw [hstart] at h
  cases h
  have hRall : ∀ p ∈ g.Players.map Player.ResetForNewHand, Q p.Status p.Chips p.Bet := by
    intro p hp
    obtain ⟨p0, hp0, rfl⟩ := List.mem_map.mp hp
    exact hR p0 hp0
  have hP1all : ∀ p ∈ P1, Q p.Status p.Chips p.Bet := by
    intro p hp
    rw [hP1] at hp
    rcases List.mem_or_eq_of_mem_set hp with h1 | h1
    · exact hRall p h1
    · rw [h1]
      exact hS psb (hRall psb (List.getElem?_mem hpsb))
  have hP2all : ∀ p ∈ P2, Q p.Status p.Chips p.Bet := by
    intro p hp
    rw [hP2] at hp
    rcases List.mem_or_eq_of_mem_set hp with h1 | h1
    · exact hP1all p h1
    · rw [h1]
      exact hB pbb (hP1all pbb (List.getElem?_mem hpbb))
  show ∀ p ∈ g7.Players, Q p.Status p.Chips p.Bet
  rw [hg7]
  exact stake_forall Q hstake hP2all

theorem PlaceBet_Chips_nonneg (p : Player) (amount : Int) (h : 0 ≤ p.Chips) :
    0 ≤ (p.PlaceBet amount).2.Chips := by
  by_cases hc : amount ≤ p.Chips
  · rw [(PlaceBet_accepted hc).2.1]
    omega
  · have h1 : (p.PlaceBet amount).2 = p := by
      unfold Player.PlaceBet
      rw [if_pos (by omega)]
    rw [h1]
    exact h

theorem Reset_Chips (p : Player) : p.ResetForNewHand.Chips = p.Chips := by
  unfold Player.ResetForNewHand
  simp only
  split_ifs <;> rfl

/-- Over exact integers: on a table whose players all have a stack >= 0, every stack is still >= 0 after
PlaceBet with any integer amount (accepted or rejected), after StartNewHand, and after
ProcessAction with any action and any integer amount; with seat indices in range both
StartNewHand (for every in-range shuffle) and ProcessAction return. -/
theorem stacks_stay_nonneg (g : GameState) (hs : ∀ p ∈ g.Players, 0 ≤ p.Chips) :
    (∀ p ∈ g.Players, ∀ amount : Int, 0 ≤ (p.PlaceBet amount).2.Chips) ∧
    (∀ (swaps : List (Nat × Nat)) (g1 : GameState), 0 ≤ g.DealerPos →
      g.StartNewHand swaps = some g1 → ∀ p ∈ g1.Players, 0 ≤ p.Chips) ∧
    (∀ (a : PlayerAction) (amount : Int) (b : Bool) (g1 : GameState),
      g.ProcessAction a amount = some (b, g1) → ∀ p ∈ g1.Players, 0 ≤ p.Chips) ∧
    (g.SeatsValid →
      (∀ swaps : List (Nat × Nat), (∀ s ∈ swaps, s.1 < 52 ∧ s.2 < 52) →
        ∃ g1, g.StartNewHand swaps = some g1) ∧
      (∀ (a : PlayerAction) (amount : Int),
        ∃ (b : Bool) (g1 : GameState), g.ProcessAction a amount = some (b, g1))) := by
  refine ⟨fun p hp amount => PlaceBet_Chips_nonneg p amount (hs p hp), ?_, ?_, ?_⟩
  · intro swaps g1 hd h
    exact StartNewHand_players hd h (fun _ c _ => 0 ≤ c)
      (fun p hp => by rw [Reset_Chips]; exact hs p hp)
      (fun p hp => PlaceBet_Chips_nonneg p _ hp)
      (fun p hp => PlaceBet_Chips_nonneg p _ hp)
  · intro a amount b g1 h p hp
    obtain ⟨player, p1, hpl, hP, _, _, _, _, hkind⟩ := ProcessAction_frame h
    obtain ⟨_, _, hget⟩ := playerAt_eq_some hpl
    have hpc : 0 ≤ player.Chips := hs player (List.getElem?_mem hget)
    rw [hP] at hp
    rcases List.mem_or_eq_of_mem_set hp with h1 | h1
    · exact hs p h1
    · rw [h1]
      rcases hkind with ⟨hp1 | hp1, _⟩ | ⟨amt, _, hp1, _⟩
      · rw [hp1]; exact hpc
      · rw [hp1]; exact hpc
      · rw [hp1]; exact PlaceBet_Chips_nonneg player amt hpc
  · intro hv
    have hne : g.Players ≠ [] := by
      intro hnil
      unfold GameState.SeatsValid at hv
      rw [hnil] at hv
      simp at hv
      omega
    refine ⟨fun swaps hsw => ?_, fun a amount => ?_⟩
    · obtain ⟨g1, h, _⟩ := StartNewHand_frame g swaps hne hv.2.2.1 hsw
      exact ⟨g1, h⟩
    · obtain ⟨b, g1, h, _⟩ := ProcessAction_returns g a amount hv
      exact ⟨b, g1, h⟩

theorem stacks_stay_nonneg_witness :
    (∀ p ∈ tableShort.Players, ∀ amount : Int, 0 ≤ (p.PlaceBet amount).2.Chips) ∧
    (∀ (swaps : List (Nat × Nat)) (g1 : GameState), 0 ≤ tableShort.DealerPos →
      tableShort.StartNewHand swaps = some g1 → ∀ p ∈ g1.Players, 0 ≤ p.Chips) ∧
    (∀ (a : PlayerAction) (amount : Int) (b : Bool) (g1 : GameState),
      tableShort.ProcessAction a amount = some (b, g1) → ∀ p ∈ g1.Players, 0 ≤ p.Chips) ∧
    (tableShort.SeatsValid →
      (∀ swaps : List (Nat × Nat), (∀ s ∈ swaps, s.1 < 52 ∧ s.2 < 52) →
        ∃ g1, tableShort.StartNewHand swaps = some g1) ∧
      (∀ (a : PlayerAction) (amount : Int),
        ∃ (b : Bool) (g1 : GameState), tableShort.ProcessAction a amount = some (b, g1))) :=
  stacks_stay_nonneg tableShort (by decide)

/-- Over exact integers: a ProcessAction call that returns leaves the sum of all players' stacks plus the pot
unchanged, for every state, action and integer amount, accepted or rejected, with or without
a phase advance; with seat indices in range the call returns. -/
theorem chips_conserved (g : GameState) (a : PlayerAction) (amount : Int) :
    (∀ (b : Bool) (g1 : GameState), g.ProcessAction a amount = some (b, g1) →
      totalChips g1 = totalChips g) ∧
    (g.SeatsValid → ∃ (b : Bool) (g1 : GameState), g.ProcessAction a amount = some (b, g1)) := by
  refine ⟨fun b g1 h => ?_, fun hv => ?_⟩
  · obtain ⟨player, p1, hpl, hP, _, _, _, _, hkind⟩ := ProcessAction_frame h
    obtain ⟨_, _, hget⟩ := playerAt_eq_some hpl
    unfold totalChips
    rw [hP, sum_map_set (fun p => p.Chips) g.Players _ player p1 hget]
    rcases hkind with ⟨hp1 | hp1, hpot, _⟩ | ⟨amt, hle, hp1, hpot, _⟩
    · rw [hp1, hpot]
      show _ - player.Chips + player.Chips + g.Pot = _
      omega
    · rw [hp1, hpot]
      omega
    · rw [hp1, hpot]
      have hc := (PlaceBet_accepted hle).2.1
      simp only [hc]
      omega
  · obtain ⟨b, g1, h, _⟩ := ProcessAction_returns g a amount hv
    exact ⟨b, g1, h⟩

theorem chips_conserved_witness :
    (∀ (b : Bool) (g1 : GameState), tableRiver.ProcessAction Call 0 = some (b, g1) →
      totalChips g1 = totalChips tableRiver) ∧
    ∃ (b : Bool) (g1 : GameState), tableRiver.ProcessAction Call 0 = some (b, g1) :=
  ⟨(chips_conserved tableRiver Call 0).1, (chips_conserved tableRiver Call 0).2 (by decide)⟩

/-! ## All-in players and the pot -/

theorem PlayedLive_played {g : GameState} (h : PlayedLive g) : Played g := by
  induction h with
  | start g0 swaps g hd _ _ hs => exact Played.start g0 swaps g hd hs
  | action g a amount b g1 _ _ hstep ih => exact Played.action g a amount b g1 ih hstep

/-- `PlaceBet` with an amount that is not negative keeps "all-in players have no chips". -/
theorem PlaceBet_allIn (p : Player) (amount : Int) (ha : 0 ≤ amount)
    (h : p.Status = AllInStatus → p.Chips = 0) :
    (p.PlaceBet amount).2.Status = AllInStatus → (p.PlaceBet amount).2.Chips = 0 := by
  by_cases hc : amount ≤ p.Chips
  · obtain ⟨_, hC, _, hS⟩ := @PlaceBet_accepted p amount hc
    rw [hC, hS]
    by_cases hz : p.Chips - amount = 0
    · exact fun _ => hz
    · rw [if_neg hz]
      intro hs
      have := h hs
      omega
  · have h1 : (p.PlaceBet amount).2 = p := by
      unfold Player.PlaceBet
      rw [if_pos (by omega)]
    rw [h1]
    exact h

theorem Reset_not_allIn (p : Player) : p.ResetForNewHand.Status ≠ AllInStatus := by
  unfold Player.ResetForNewHand
  simp only
  split_ifs
  · show Active ≠ AllInStatus
    decide
  · show Out ≠ AllInStatus
    decide

/-- C24, amended: in every state reached from StartNewHand (dealer index and blinds not
negative) through ProcessAction calls each made while at least one player is still Active,
every player whose status is AllIn has stack 0. -/
theorem allIn_has_no_chips (g : GameState) (h : PlayedLive g) :
    ∀ p ∈ g.Players, p.Status = AllInStatus → p.Chips = 0 := by
  induction h with
  | start g0 swaps g hd hsb hbb hs =>
    exact StartNewHand_players hd hs (fun s c _ => s = AllInStatus → c = 0)
      (fun p _ hst => absurd hst (Reset_not_allIn p))
      (fun p hp => PlaceBet_allIn p _ hsb hp)
      (fun p hp => PlaceBet_allIn p _ hbb hp)
  | action g a amount b g1 hpl hact hstep ih =>
    obtain ⟨hv, hcur⟩ := Played_acting (PlayedLive_played hpl)
    have hcur1 : seatActive g.Players g.CurrentPos.toNat = true := by
      rcases hcur with h1 | h1
      · exact h1
      · obtain ⟨i, hi⟩ := hact
        rw [h1 i] at hi
        cases hi
    obtain ⟨player, p1, hp, hP, _, _, _, _, hkind⟩ := ProcessAction_frame hstep
    obtain ⟨_, _, hget⟩ := playerAt_eq_some hp
    have hst : player.Status = Active := by
      unfold seatActive at hcur1
      rw [hget] at hcur1
      simpa [Player.IsActive] using hcur1
    intro p hpm
    rw [hP] at hpm
    rcases List.mem_or_eq_of_mem_set hpm with h1 | h1
    · exact ih p h1
    · rw [h1]
      rcases hkind with ⟨hp1 | hp1, _⟩ | ⟨amt, hle, hp1, _⟩
      · rw [hp1]
        intro hs
        cases hs
      · rw [hp1, hst]
        intro hs
        cases hs
      · rw [hp1]
        obtain ⟨_, hC, _, hS⟩ := @PlaceBet_accepted player amt hle
        rw [hC, hS, hst]
        by_cases hz : player.Chips - amt = 0
        · exact fun _ => hz
        · rw [if_neg hz]
          intro hs
          cases hs

theorem allIn_has_no_chips_witness :
    PlayedLive headsUpShove ∧
    ∀ p ∈ headsUpShove.Players, p.Status = AllInStatus → p.Chips = 0 :=
  ⟨PlayedLive.action headsUpStart AllIn 0 true headsUpShove
      (PlayedLive.start tableHeadsUp sampleSwaps headsUpStart (by decide) (by decide)
        (by decide) (by decide)) ⟨0, by decide⟩ (by decide),
   allIn_has_no_chips headsUpShove
    (PlayedLive.action headsUpStart AllIn 0 true headsUpShove
      (PlayedLive.start tableHeadsUp sampleSwaps headsUpStart (by decide) (by decide)
        (by decide) (by decide)) ⟨0, by decide⟩ (by decide))⟩

/-- C24 as stated fails: heads-up with stacks 1000 and 1000, seat 0 goes all-in before the
flop and seat 1 on the flop; no player is Active then, the acting seat is seat 1 and on the
turn CurrentBet is 0 while that player's Bet is still 1000. A Call is accepted with the call
amount -1000 and leaves the player with status AllIn and stack 1000. -/
theorem allIn_player_with_chips :
    tableHeadsUp.StartNewHand sampleSwaps = some headsUpStart ∧
    headsUpStart.ProcessAction AllIn 0 = some (true, headsUpShove) ∧
    headsUpShove.ProcessAction AllIn 0 = some (true, headsUpShove2) ∧
    headsUpShove2.CurrentPos = 1 ∧ headsUpShove2.CurrentBet = 0 ∧
    headsUpShove2.Players.map (fun p => (p.Status, p.Chips, p.Bet)) =
      [(AllInStatus, 0, 1000), (AllInStatus, 0, 1000)] ∧
    headsUpShove2.ProcessAction Call 0 = some (true, headsUpRefund) ∧
    headsUpRefund.Players.map (fun p => (p.Status, p.Chips, p.Bet)) =
      [(AllInStatus, 0, 1000), (AllInStatus, 1000, 0)] := by
  refine ⟨by decide, by decide, by decide, by decide, by decide, by decide, by decide,
    by decide⟩

/-- C25 fails on the code: heads-up with stacks 1000 and 1000 and blinds 10 and 20, seat 0
raises by 20 before the flop (30 to the pot) and seat 1 calls (20 to the pot); the blinds
themselves were never added to the pot, which is 50 on the flop. There CurrentBet is 0 and
both players' Bets are still 40, so each Call has the call amount -40: the two Calls are
accepted, give both players their 1000 chips back and leave the pot at -30. -/
theorem pot_goes_negative :
    tableHeadsUp.StartNewHand sampleSwaps = some headsUpStart ∧
    headsUpStart.Pot = 0 ∧
    headsUpStart.Players.map (fun p => (p.Status, p.Chips, p.Bet)) =
      [(Active, 990, 10), (Active, 980, 20)] ∧
    headsUpStart.ProcessAction Raise 20 = some (true, headsUpRaise) ∧
    headsUpRaise.ProcessAction Call 0 = some (true, headsUpFlop) ∧
    headsUpFlop.CurrentPhase = Flop ∧ headsUpFlop.Pot = 50 ∧ headsUpFlop.CurrentBet = 0 ∧
    headsUpFlop.Players.map (fun p => (p.Status, p.Chips, p.Bet)) =
      [(Active, 960, 40), (Active, 960, 40)] ∧
    headsUpFlop.ProcessAction Call 0 = some (true, headsUpFlopCall1) ∧
    headsUpFlopCall1.ProcessAction Call 0 = some (true, headsUpFlopCall2) ∧
    headsUpFlopCall2.Pot = -30 ∧
    headsUpFlopCall2.Players.map (fun p => (p.Status, p.Chips, p.Bet)) =
      [(Active, 1000, 0), (Active, 1000, 0)] := by
  refine ⟨by decide, by decide, by decide, by decide, by decide, by decide, by decide,
    by decide, by decide, by decide, by decide, by decide, by decide⟩

/-! ## The 64-bit operations and the exact ones -/

theorem wrap64_of_fits {x : Int} (h : Fits x) : wrap64 x = x := by
  unfold wrap64
  unfold Fits at h
  omega

theorem wrap64_fits (x : Int) : Fits (wrap64 x) := by
  unfold wrap64 Fits
  omega

/-- The wrapping `PlaceBet` is the exact one whenever an accepted amount lets neither the new
bet nor the new stack leave the 64-bit range. -/
theorem PlaceBet64_eq {p : Player} {amount : Int}
    (h : amount ≤ p.Chips → Fits (p.Bet + amount) ∧ Fits (p.Chips - amount)) :
    p.PlaceBet64 amount = p.PlaceBet amount := by
  unfold Player.PlaceBet64 Player.PlaceBet
  by_cases hc : amount > p.Chips
  · rw [if_pos hc, if_pos hc]
  · rw [if_neg hc, if_neg hc]
    obtain ⟨h1, h2⟩ := h (by omega)
    simp only [wrap64_of_fits h1, wrap64_of_fits h2]

theorem ProcessAction64_eq {g : GameState} {player : Player} (a : PlayerAction) (amount : Int)
    (hp : playerAt g.Players g.CurrentPos = some player)
    (hC : Small player.Chips) (hB : Small player.Bet) (hcb : Small g.CurrentBet)
    (hpot : Small g.Pot) (ham : Small amount) :
    g.ProcessAction64 a amount = g.ProcessAction a amount := by
  unfold Small at hC hB hcb hpot ham
  have w1 : wrap64 (g.CurrentBet - player.Bet) = g.CurrentBet - player.Bet :=
    wrap64_of_fits (by unfold Fits; omega)
  have w2 : wrap64 (g.CurrentBet - player.Bet + amount) = g.CurrentBet - player.Bet + amount :=
    wrap64_of_fits (by unfold Fits; omega)
  have hpb : ∀ x : Int, -3458764513820540928 ≤ x → x ≤ 3458764513820540928 →
      player.PlaceBet64 x = player.PlaceBet x := by
    intro x hx1 hx2
    exact PlaceBet64_eq (fun _ => by unfold Fits; constructor <;> constructor <;> omega)
  have hpw : ∀ (q : Player) (x : Int), -3458764513820540928 ≤ x → x ≤ 3458764513820540928 →
      wrap64 ((g.withPlayer q).Pot + x) = (g.withPlayer q).Pot + x := by
    intro q x hx1 hx2
    have hf : Fits (g.Pot + x) := by unfold Fits; omega
    exact wrap64_of_fits hf
  have p1 := hpb (g.CurrentBet - player.Bet) (by omega) (by omega)
  have p2 := hpb amount (by omega) (by omega)
  have p3 := hpb (g.CurrentBet - player.Bet + amount) (by omega) (by omega)
  have p4 := hpb player.Chips (by omega) (by omega)
  have q1 := fun q => hpw q (g.CurrentBet - player.Bet) (by omega) (by omega)
  have q2 := fun q => hpw q amount (by omega) (by omega)
  have q3 := fun q => hpw q (g.CurrentBet - player.Bet + amount) (by omega) (by omega)
  have q4 := fun q => hpw q player.Chips (by omega) (by omega)
  have hbet : (player.PlaceBet player.Chips).2.Bet = player.Bet + player.Chips :=
    (PlaceBet_accepted (le_refl _)).2.2.1
  have w3 : wrap64 ((player.PlaceBet player.Chips).2.Bet - player.Chips) =
      (player.PlaceBet player.Chips).2.Bet - player.Chips :=
    wrap64_of_fits (by rw [hbet]; unfold Fits; omega)
  have w4 : wrap64 ((player.PlaceBet player.Chips).2.Bet -
      ((player.PlaceBet player.Chips).2.Bet - player.Chips)) =
      (player.PlaceBet player.Chips).2.Bet -
        ((player.PlaceBet player.Chips).2.Bet - player.Chips) :=
    wrap64_of_fits (by rw [hbet]; unfold Fits; omega)
  unfold GameState.ProcessAction64 GameState.ProcessAction
  rw [hp]
  simp only [w1, w2, p1, p2, p3, p4, q1, q2, q3, q4, w3, w4]

theorem postBlind64_eq {g : GameState} {pos amount : Int}
    (h : ∀ p ∈ g.Players, p.PlaceBet64 amount = p.PlaceBet amount) :
    g.postBlind64 pos amount = g.postBlind pos amount := by
  unfold GameState.postBlind64 GameState.postBlind
  cases hp : playerAt g.Players pos with
  | none => rfl
  | some p =>
    obtain ⟨_, _, hget⟩ := playerAt_eq_some hp
    simp only [h p (List.getElem?_mem hget)]

theorem postBlind_mem {g g1 : GameState} {pos amount : Int}
    (h : g.postBlind pos amount = some g1) :
    ∀ p ∈ g1.Players, p ∈ g.Players ∨ ∃ q ∈ g.Players, p = (q.PlaceBet amount).2 := by
  unfold GameState.postBlind at h
  cases hp : playerAt g.Players pos with
  | none => rw [hp] at h; cases h
  | some q =>
    rw [hp] at h
    cases h
    obtain ⟨_, _, hget⟩ := playerAt_eq_some hp
    intro p hpm
    rcases List.mem_or_eq_of_mem_set hpm with h1 | h1
    · exact Or.inl h1
    · exact Or.inr ⟨q, List.getElem?_mem hget, h1⟩

theorem postBlind_BigBlind {g g1 : GameState} {pos amount : Int}
    (h : g.postBlind pos amount = some g1) : g1.BigBlind = g.BigBlind := by
  unfold GameState.postBlind at h
  cases hp : playerAt g.Players pos with
  | none => rw [hp] at h; cases h
  | some q =>
    rw [hp] at h
    cases h
    rfl

/-- `StartNewHand` with the wrapping `PlaceBet` is the exact one when the stacks and the
blinds are at most 2^60 in absolute value. -/
theorem StartNewHand64_eq (g : GameState) (swaps : List (Nat × Nat))
    (hchips : ∀ p ∈ g.Players, Small p.Chips) (hsb : Small g.SmallBlind)
    (hbb : Small g.BigBlind) : g.StartNewHand64 swaps = g.StartNewHand swaps := by
  unfold Small at hsb hbb
  have hR : ∀ p ∈ g.Players.map Player.ResetForNewHand, Small p.Chips ∧ p.Bet = 0 := by
    intro p hp
    obtain ⟨p0, hp0, rfl⟩ := List.mem_map.mp hp
    refine ⟨by rw [Reset_Chips]; exact hchips p0 hp0, ?_⟩
    unfold Player.ResetForNewHand
    simp only
    split_ifs <;> rfl
  have e1 : ∀ x : GameState, x.Players = g.Players.map Player.ResetForNewHand →
      ∀ pos, x.postBlind64 pos g.SmallBlind = x.postBlind pos g.SmallBlind := by
    intro x hx pos
    apply postBlind64_eq
    intro p hp
    rw [hx] at hp
    obtain ⟨h1, h2⟩ := hR p hp
    unfold Small at h1
    exact PlaceBet64_eq (fun _ => by unfold Fits; constructor <;> constructor <;> omega)
  have e2 : ∀ (x x1 : GameState) (pos : Int), x.postBlind pos g.SmallBlind = some x1 →
      x.Players = g.Players.map Player.ResetForNewHand → x.BigBlind = g.BigBlind →
      ∀ pos1, x1.postBlind64 pos1 x1.BigBlind = x1.postBlind pos1 x1.BigBlind := by
    intro x x1 pos hx1 hx hxb pos1
    rw [postBlind_BigBlind hx1, hxb]
    apply postBlind64_eq
    intro p hp
    rcases postBlind_mem hx1 p hp with h1 | ⟨q, hq, h1⟩
    · rw [hx] at h1
      obtain ⟨h2, h3⟩ := hR p h1
      unfold Small at h2
      exact PlaceBet64_eq (fun _ => by unfold Fits; constructor <;> constructor <;> omega)
    · rw [hx] at hq
      obtain ⟨h2, h3⟩ := hR q hq
      unfold Small at h2
      by_cases hc : g.SmallBlind ≤ q.Chips
      · obtain ⟨_, hC, hB, _⟩ := @PlaceBet_accepted q g.SmallBlind hc
        rw [← h1] at hC hB
        exact PlaceBet64_eq (fun _ => by unfold Fits; constructor <;> constructor <;> omega)
      · have hq1 : (q.PlaceBet g.SmallBlind).2 = q := by
          unfold Player.PlaceBet
          rw [if_pos (by omega)]
        rw [hq1] at h1
        rw [h1]
        exact PlaceBet64_eq (fun _ => by unfold Fits; constructor <;> constructor <;> omega)
  unfold GameState.StartNewHand64 GameState.StartNewHand
  cases NewDeck.Shuffle swaps with
  | none => rfl
  | some deck =>
    simp only
    split_ifs
    · rfl
    · split
      · rename_i h1
        rfl
      · rename_i sbPos h1
        try simp only [h1]
        rw [e1 _ rfl]
        split
        · rename_i h2
          rfl
        · rename_i g4 h2
          try simp only [h2]
          split
          · rename_i h3
            rfl
          · rename_i bbPos h3
            try simp only [h3]
            have e := e2 _ g4 _ h2 rfl rfl bbPos
            rw [e]

/-! ## Bets, raises and chips with Go's 64-bit `int` -/

theorem ProcessAction64_small (g : GameState) (a : PlayerAction) (amount : Int)
    (hs : g.SmallValues) (ha : Small amount) :
    g.ProcessAction64 a amount = g.ProcessAction a amount := by
  cases hp : playerAt g.Players g.CurrentPos with
  | none =>
    unfold GameState.ProcessAction64 GameState.ProcessAction
    rw [hp]
  | some player =>
    obtain ⟨_, _, hget⟩ := playerAt_eq_some hp
    obtain ⟨hpl, hcb, hpot, _, _⟩ := hs
    obtain ⟨hC, hB⟩ := hpl player (List.getElem?_mem hget)
    exact ProcessAction64_eq a amount hp hC hB hcb hpot ha

theorem StartNewHand64_small (g : GameState) (swaps : List (Nat × Nat)) (hs : g.SmallValues) :
    g.StartNewHand64 swaps = g.StartNewHand swaps :=
  StartNewHand64_eq g swaps (fun p hp => (hs.1 p hp).1) hs.2.2.2.1 hs.2.2.2.2

/-- C13, amended: PlaceBet as Go computes it, for every player and every amount that, when it
is at most the stack, lets neither Bet + amount nor stack - amount leave the 64-bit range:
it returns false exactly when the amount exceeds the stack, and then the player is unchanged;
otherwise it returns true, the stack goes down and the bet up by the amount (their sum is
preserved), the status is AllIn when the resulting stack is 0 and the old status otherwise,
and nothing else about the player changes. -/
theorem PlaceBet64_spec (p : Player) (amount : Int)
    (hfit : amount ≤ p.Chips → Fits (p.Bet + amount) ∧ Fits (p.Chips - amount)) :
    ((p.PlaceBet64 amount).1 = false ↔ amount > p.Chips) ∧
    (amount > p.Chips → (p.PlaceBet64 amount).2 = p) ∧
    (amount ≤ p.Chips →
      (p.PlaceBet64 amount).1 = true ∧
      (p.PlaceBet64 amount).2.Chips = p.Chips - amount ∧
      (p.PlaceBet64 amount).2.Bet = p.Bet + amount ∧
      (p.PlaceBet64 amount).2.Chips + (p.PlaceBet64 amount).2.Bet = p.Chips + p.Bet ∧
      ((p.PlaceBet64 amount).2.Chips = 0 → (p.PlaceBet64 amount).2.Status = AllInStatus) ∧
      ((p.PlaceBet64 amount).2.Chips ≠ 0 → (p.PlaceBet64 amount).2.Status = p.Status) ∧
      (p.PlaceBet64 amount).2.ID = p.ID ∧ (p.PlaceBet64 amount).2.Name = p.Name ∧
      (p.PlaceBet64 amount).2.Cards = p.Cards ∧
      (p.PlaceBet64 amount).2.Position = p.Position) := by
  rw [PlaceBet64_eq hfit]
  exact PlaceBet_spec p amount

theorem PlaceBet64_spec_witness :
    ((seat "c" 30 0 Active 2).PlaceBet64 50).2 = seat "c" 30 0 Active 2 ∧
    ((seat "c" 30 0 Active 2).PlaceBet64 30).2.Status = AllInStatus ∧
    ((seat "c" 30 0 Active 2).PlaceBet64 10).2.Status = Active :=
  ⟨(PlaceBet64_spec (seat "c" 30 0 Active 2) 50 (by decide)).2.1 (by decide),
   ((PlaceBet64_spec (seat "c" 30 0 Active 2) 30 (by decide)).2.2 (by decide)).2.2.2.2.1
     (by decide),
   ((PlaceBet64_spec (seat "c" 30 0 Active 2) 10 (by decide)).2.2 (by decide)).2.2.2.2.2.1
     (by decide)⟩

/-- C13 as stated fails: on a player with stack 1000 and bet 0, PlaceBet(-9223372036854775808)
is accepted (the amount is not above the stack); the stack 1000 + 2^63 does not fit 64 bits
and wraps to -9223372036854774808, so the stack has not decreased by the amount and stack
plus bet has gone from 1000 to 1000 - 2^64. -/
theorem PlaceBet64_wraps :
    ((seat "c" 1000 0 Active 2).PlaceBet64 (-9223372036854775808)).1 = true ∧
    ((seat "c" 1000 0 Active 2).PlaceBet64 (-9223372036854775808)).2.Chips =
      -9223372036854774808 ∧
    ((seat "c" 1000 0 Active 2).PlaceBet64 (-9223372036854775808)).2.Chips ≠
      (seat "c" 1000 0 Active 2).Chips - (-9223372036854775808) ∧
    ((seat "c" 1000 0 Active 2).PlaceBet64 (-9223372036854775808)).2.Chips +
      ((seat "c" 1000 0 Active 2).PlaceBet64 (-9223372036854775808)).2.Bet ≠
      (seat "c" 1000 0 Active 2).Chips + (seat "c" 1000 0 Active 2).Bet := by
  refine ⟨by decide, by decide, by decide, by decide⟩

/-- The 64-bit Raise is the exact one whenever the raise amount CurrentBet - Bet + amount is
computed without wrapping and, if the stack covers it, the new bet, the new stack and the new
pot fit 64 bits. -/
theorem Raise64_eq {g : GameState} {p : Player} {amount : Int}
    (hp : playerAt g.Players g.CurrentPos = some p)
    (h1 : Fits (g.CurrentBet - p.Bet)) (h2 : Fits (g.CurrentBet - p.Bet + amount))
    (h3 : g.CurrentBet - p.Bet + amount ≤ p.Chips →
      Fits (g.CurrentBet + amount) ∧ Fits (p.Chips - (g.CurrentBet - p.Bet + amount)) ∧
      Fits (g.Pot + (g.CurrentBet - p.Bet + amount))) :
    g.ProcessAction64 Raise amount = g.ProcessAction Raise amount := by
  have hpb : p.PlaceBet64 (g.CurrentBet - p.Bet + amount) =
      p.PlaceBet (g.CurrentBet - p.Bet + amount) :=
    PlaceBet64_eq (fun hle => by
      obtain ⟨a1, a2, _⟩ := h3 hle
      refine ⟨?_, a2⟩
      have e : p.Bet + (g.CurrentBet - p.Bet + amount) = g.CurrentBet + amount := by omega
      rw [e]
      exact a1)
  have hne1 : ¬ (Raise = Fold) := by decide
  have hne2 : ¬ (Raise = Check) := by decide
  have hne3 : ¬ (Raise = Call) := by decide
  have hne4 : ¬ (Raise = Bet) := by decide
  unfold GameState.ProcessAction64 GameState.ProcessAction
  rw [hp]
  simp only [hne1, hne2, hne3, hne4, if_false, if_true, wrap64_of_fits h1, wrap64_of_fits h2,
    hpb]
  by_cases hle : g.CurrentBet - p.Bet + amount ≤ p.Chips
  · have hpot : wrap64 ((g.withPlayer (p.PlaceBet (g.CurrentBet - p.Bet + amount)).2).Pot +
        (g.CurrentBet - p.Bet + amount)) =
        (g.withPlayer (p.PlaceBet (g.CurrentBet - p.Bet + amount)).2).Pot +
          (g.CurrentBet - p.Bet + amount) := wrap64_of_fits (h3 hle).2.2
    simp only [hpot]
  · have hrej : (p.PlaceBet (g.CurrentBet - p.Bet + amount)).1 = false := by
      unfold Player.PlaceBet
      rw [if_pos (by omega)]
    simp only [hrej, Bool.not_false, if_true]

/-- C5, amended: Raise as Go computes it, on a table with valid seats, for every amount for
which CurrentBet - Bet + amount is computed without wrapping and, if the stack covers that
sum, the new bet, the new stack and the new pot fit 64 bits: it is accepted exactly when the
amount is at least MinRaise and the stack covers CurrentBet - Bet + amount; then the player
pays that sum into the pot, the player's Bet is the old CurrentBet plus the amount, MinRaise
is the amount and, with at least two players Active afterwards, CurrentBet is that new Bet
and LastRaisePos is the raiser's seat. -/
theorem Raise64_accepted_iff (g : GameState) (amount : Int) (p : Player)
    (hv : g.SeatsValid) (hp : playerAt g.Players g.CurrentPos = some p)
    (h1 : Fits (g.CurrentBet - p.Bet)) (h2 : Fits (g.CurrentBet - p.Bet + amount))
    (h3 : g.CurrentBet - p.Bet + amount ≤ p.Chips →
      Fits (g.CurrentBet + amount) ∧ Fits (p.Chips - (g.CurrentBet - p.Bet + amount)) ∧
      Fits (g.Pot + (g.CurrentBet - p.Bet + amount))) :
    ((∃ g', g.ProcessAction64 Raise amount = some (true, g')) ↔
      (g.MinRaise ≤ amount ∧ g.CurrentBet - p.Bet + amount ≤ p.Chips)) ∧
    (∀ g', g.ProcessAction64 Raise amount = some (true, g') →
      (∃ p', playerAt g'.Players g.CurrentPos = some p' ∧
        p'.Chips = p.Chips - (g.CurrentBet - p.Bet + amount) ∧
        p'.Bet = g.CurrentBet + amount) ∧
      g'.Pot = g.Pot + (g.CurrentBet - p.Bet + amount) ∧ g'.MinRaise = amount ∧
      (2 ≤ g'.countActivePlayers →
        g'.CurrentBet = g.CurrentBet + amount ∧ g'.LastRaisePos = g.CurrentPos)) := by
  rw [Raise64_eq hp h1 h2 h3]
  exact Raise_accepted_iff g amount p hv hp

theorem Raise64_accepted_iff_witness :
    (∃ g', tableBet.ProcessAction64 Raise 60 = some (true, g')) ∧
    tableBetRaise64.Pot =
      tableBet.Pot + (tableBet.CurrentBet - (seat "b" 1000 0 Active 1).Bet + 60) ∧
    tableBetRaise64.MinRaise = 60 :=
  ⟨(Raise64_accepted_iff tableBet 60 (seat "b" 1000 0 Active 1) (by decide) (by decide)
      (by decide) (by decide) (by decide)).1.mpr (by decide),
   ((Raise64_accepted_iff tableBet 60 (seat "b" 1000 0 Active 1) (by decide) (by decide)
      (by decide) (by decide) (by decide)).2 tableBetRaise64 (by decide)).2.1,
   ((Raise64_accepted_iff tableBet 60 (seat "b" 1000 0 Active 1) (by decide) (by decide)
      (by decide) (by decide) (by decide)).2 tableBetRaise64 (by decide)).2.2.1⟩

/-- C5 as stated fails: on `tableBet` (seat 1 to act with stack 1000 and bet 0, CurrentBet 50,
MinRaise 50) Raise(9223372036854775807) is accepted although CurrentBet - Bet + amount is far
above the stack: the sum wraps to -9223372036854775759, which is not above the stack, and the
player ends with a bet of that size and nothing paid. -/
theorem Raise64_accepted_beyond_stack :
    playerAt tableBet.Players tableBet.CurrentPos = some (seat "b" 1000 0 Active 1) ∧
    tableBet.ProcessAction64 Raise 9223372036854775807 = some (true, tableBetWrap) ∧
    ¬ (tableBet.CurrentBet - (seat "b" 1000 0 Active 1).Bet + 9223372036854775807 ≤
        (seat "b" 1000 0 Active 1).Chips) ∧
    tableBetWrap.Players.map (fun p => (p.Chips, p.Bet)) =
      [(950, 50), (-9223372036854774857, -9223372036854775759), (1000, 0), (1000, 0)] := by
  refine ⟨by decide, by decide, by decide, by decide⟩

theorem PlaceBet64_Chips_nonneg (p : Player) (amount : Int) (h : 0 ≤ p.Chips)
    (hfit : Fits (p.Chips - amount)) : 0 ≤ (p.PlaceBet64 amount).2.Chips := by
  unfold Player.PlaceBet64
  by_cases hc : amount > p.Chips
  · rw [if_pos hc]
    exact h
  · rw [if_neg hc]
    simp only [wrap64_of_fits hfit]
    split_ifs <;> (show 0 ≤ p.Chips - amount; omega)

/-- C26, amended: with Go's 64-bit arithmetic, on a table whose players all have a stack >= 0,
every stack is still >= 0 after PlaceBet with any amount for which stack - amount fits 64
bits (accepted or rejected), and, when the stacks, bets, current bet, pot and blinds of the
table are at most 2^60 in absolute value, after StartNewHand and after ProcessAction with any
action and any amount of at most 2^60 in absolute value; with seat indices in range both
StartNewHand (for every in-range shuffle) and ProcessAction return. -/
theorem stacks_stay_nonneg64 (g : GameState) (hs : ∀ p ∈ g.Players, 0 ≤ p.Chips) :
    (∀ p ∈ g.Players, ∀ amount : Int, Fits (p.Chips - amount) →
      0 ≤ (p.PlaceBet64 amount).2.Chips) ∧
    (∀ (swaps : List (Nat × Nat)) (g1 : GameState), 0 ≤ g.DealerPos → g.SmallValues →
      g.StartNewHand64 swaps = some g1 → ∀ p ∈ g1.Players, 0 ≤ p.Chips) ∧
    (∀ (a : PlayerAction) (amount : Int) (b : Bool) (g1 : GameState), g.SmallValues →
      Small amount → g.ProcessAction64 a amount = some (b, g1) →
      ∀ p ∈ g1.Players, 0 ≤ p.Chips) ∧
    (g.SeatsValid → g.SmallValues →
      (∀ swaps : List (Nat × Nat), (∀ s ∈ swaps, s.1 < 52 ∧ s.2 < 52) →
        ∃ g1, g.StartNewHand64 swaps = some g1) ∧
      (∀ (a : PlayerAction) (amount : Int), Small amount →
        ∃ (b : Bool) (g1 : GameState), g.ProcessAction64 a amount = some (b, g1))) := by
  obtain ⟨_, h2, h3, h4⟩ := stacks_stay_nonneg g hs
  refine ⟨fun p hp amount hfit => PlaceBet64_Chips_nonneg p amount (hs p hp) hfit, ?_, ?_, ?_⟩
  · intro swaps g1 hd hsm h
    rw [StartNewHand64_small g swaps hsm] at h
    exact h2 swaps g1 hd h
  · intro a amount b g1 hsm ha h
    rw [ProcessAction64_small g a amount hsm ha] at h
    exact h3 a amount b g1 h
  · intro hv hsm
    obtain ⟨h5, h6⟩ := h4 hv
    refine ⟨fun swaps hsw => ?_, fun a amount ha => ?_⟩
    · rw [StartNewHand64_small g swaps hsm]
      exact h5 swaps hsw
    · rw [ProcessAction64_small g a amount hsm ha]
      exact h6 a amount

theorem stacks_stay_nonneg64_witness :
    (∀ p ∈ tableShort.Players, ∀ amount : Int, Fits (p.Chips - amount) →
      0 ≤ (p.PlaceBet64 amount).2.Chips) ∧
    (∀ (swaps : List (Nat × Nat)) (g1 : GameState), 0 ≤ tableShort.DealerPos →
      tableShort.SmallValues →
      tableShort.StartNewHand64 swaps = some g1 → ∀ p ∈ g1.Players, 0 ≤ p.Chips) ∧
    (∀ (a : PlayerAction) (amount : Int) (b : Bool) (g1 : GameState), tableShort.SmallValues →
      Small amount → tableShort.ProcessAction64 a amount = some (b, g1) →
      ∀ p ∈ g1.Players, 0 ≤ p.Chips) ∧
    (tableShort.SeatsValid → tableShort.SmallValues →
      (∀ swaps : List (Nat × Nat), (∀ s ∈ swaps, s.1 < 52 ∧ s.2 < 52) →
        ∃ g1, tableShort.StartNewHand64 swaps = some g1) ∧
      (∀ (a : PlayerAction) (amount : Int), Small amount →
        ∃ (b : Bool) (g1 : GameState), tableShort.ProcessAction64 a amount = some (b, g1))) :=
  stacks_stay_nonneg64 tableShort (by decide)

/-- C26 as stated fails: all stacks of `tableBet` are >= 0; PlaceBet(-9223372036854775808) on
a stack of 1000 and ProcessAction(Raise, 9223372036854775807) on `tableBet` are both accepted
and both leave a negative stack, because 1000 + 2^63 and 50 - 0 + (2^63 - 1) do not fit 64
bits and wrap. -/
theorem Raise64_negative_stack :
    (∀ p ∈ tableBet.Players, 0 ≤ p.Chips) ∧
    ((seat "b" 1000 0 Active 1).PlaceBet64 (-9223372036854775808)).1 = true ∧
    ((seat "b" 1000 0 Active 1).PlaceBet64 (-9223372036854775808)).2.Chips < 0 ∧
    tableBet.ProcessAction64 Raise 9223372036854775807 = some (true, tableBetWrap) ∧
    tableBetWrap.Players.map (fun p => p.Chips) = [950, -9223372036854774857, 1000, 1000] := by
  refine ⟨by decide, by decide, by decide, by decide, by decide⟩

/-- C30, amended: with Go's 64-bit arithmetic, on a table whose stacks, bets, current bet, pot
and blinds are at most 2^60 in absolute value, a ProcessAction call with an amount of at most
2^60 in absolute value that returns leaves the sum of all players' stacks plus the pot
unchanged, whatever the action, accepted or rejected, with or without a phase advance; with
seat indices in range the call returns. -/
theorem chips_conserved64 (g : GameState) (a : PlayerAction) (amount : Int)
    (hs : g.SmallValues) (ha : Small amount) :
    (∀ (b : Bool) (g1 : GameState), g.ProcessAction64 a amount = some (b, g1) →
      totalChips g1 = totalChips g) ∧
    (g.SeatsValid →
      ∃ (b : Bool) (g1 : GameState), g.ProcessAction64 a amount = some (b, g1)) := by
  rw [ProcessAction64_small g a amount hs ha]
  exact chips_conserved g a amount

theorem chips_conserved64_witness :
    (∀ (b : Bool) (g1 : GameState), tableRiver.ProcessAction64 Call 0 = some (b, g1) →
      totalChips g1 = totalChips tableRiver) ∧
    ∃ (b : Bool) (g1 : GameState), tableRiver.ProcessAction64 Call 0 = some (b, g1) :=
  ⟨(chips_conserved64 tableRiver Call 0 (by decide) (by decide)).1,
   (chips_conserved64 tableRiver Call 0 (by decide) (by decide)).2 (by decide)⟩

/-- C30 as stated fails: on `tableBet`, where stacks plus pot are 4060,
ProcessAction(Raise, 9223372036854775807) is accepted; the raise amount wraps to
-9223372036854775759, the raiser's stack wraps as well, and stacks plus pot are
4060 - 2^64 afterwards. -/
theorem Raise64_changes_total :
    tableBet.ProcessAction64 Raise 9223372036854775807 = some (true, tableBetWrap) ∧
    totalChips tableBet = 4060 ∧
    tableBetWrap.Pot = -9223372036854775649 ∧
    totalChips tableBetWrap = 4060 - 18446744073709551616 := by
  refine ⟨by decide, by decide, by decide, by decide⟩

/-- C7 as stated fails: on `table4Tight` all four players are Active and every stack covers
the bet of 40, the stack of seat 0, the seat to act, being exactly 40. The Bet of 40 is
accepted and makes seat 0 all-in; the three Calls that follow are accepted, but the scan for
the next active seat passes over seat 0, so action never returns to the bettor: after the
last Call the phase is still the Flop and seat 1 is to act again. -/
theorem bet_of_whole_stack_never_closes :
    (∀ q ∈ table4Tight.Players, q.Status = Active ∧ 40 - q.Bet ≤ q.Chips) ∧
    table4Tight.CurrentPhase = Flop ∧ table4Tight.CurrentBet = 0 ∧
    table4Tight.CurrentPos = 0 ∧
    table4Tight.ProcessAction Bet 40 = some (true, table4TightBet) ∧
    table4TightBet.callRound 3 = some table4TightCalls ∧
    table4TightCalls.CurrentPhase = Flop ∧ table4TightCalls.CurrentPos = 1 ∧
    table4TightCalls.Players.map (fun p => (p.Status, p.Chips, p.Bet)) =
      [(AllInStatus, 0, 40), (Active, 960, 40), (Active, 960, 40), (Active, 960, 40)] := by
  refine ⟨by decide, by decide, by decide, by decide, by decide, by decide, by decide,
    by decide, by decide⟩

end Poker
